import Mathlib

/-!
# DnsSpoofer: a shallow embedding of the DNS responder and the TCP proxy

The development follows the Go sources

* `internal/dns/server.go`   (`New`, `shouldSpoof`, `handleRequest`, `forwardToUpstream`)
* `internal/proxy/server.go` (`New`, `isAllowed`, `handleConnection`)
* `internal/proxy/resolver.go` (`NewResolver`, `ResolveHost`)
* `internal/proxy/host.go`, `internal/proxy/sni.go` (`PeekHTTPHost`, `PeekHTTPHostSplice`,
  `PeekClientHello`)
* `internal/udpsink/sink.go` (`sendICMPPortUnreachable`, `readLoop`, `min`)

Go strings are modelled as lists of runes (`List Char`, i.e. valid UTF-8 text), byte
slices as lists of natural numbers.  Library functions of the Go standard library and of
`github.com/miekg/dns` that the sources call are embedded next to the code that uses
them, each with a comment quoting the library behaviour it follows.  Four pieces of
library behaviour are parameters of the embedding rather than definitions: the Unicode
case table behind `strings.ToLower` (`toLower`), the header grammar of
`textproto.Reader.ReadMIMEHeader` (`MIMERun`), the TLS handshake (`HandshakeRun`) and the
lookup of the Go resolver (`LookupRun`), which reaches the network only through the
`Dial` hook of its `net.Resolver`.
Effects of the DNS responder (log lines, upstream exchanges, writes to the client) are
recorded as an explicit trace of events; the outcome of the `n`-th upstream exchange and
of a write to the client are given by the environment (`Exchange`, `ResponseWriter`).
The proxy's `handleConnection` and the sink's `readLoop` are traces of events in the same
way, over the environments `World` and `Arrival`.
-/

namespace DnsSpoofer

/-! ## Go strings -/

/-- Go `string`, as the list of its runes. -/
abbrev Str := List Char

/-- The restriction of `unicode.ToLower` to ASCII, which is also the fast path of
`strings.ToLower`: `if 'A' <= c && c <= 'Z' { c += 'a' - 'A' }`. -/
def asciiToLower (c : Char) : Char :=
  if 'A'.toNat ≤ c.toNat ∧ c.toNat ≤ 'Z'.toNat then Char.ofNat (c.toNat + 32) else c

/-- Function `strings.ToLower(s)`: every rune of `s` mapped by the rune-level case mapping
`unicode.ToLower`.  The Unicode case table is taken as the parameter `toLower`; on ASCII
text it is `asciiToLower`. -/
def ToLower (toLower : Char → Char) (s : Str) : Str :=
  s.map toLower

/-- Function `strings.HasSuffix(s, suffix)`:
`len(s) >= len(suffix) && s[len(s)-len(suffix):] == suffix`. -/
def HasSuffix (s suffix : Str) : Bool :=
  decide (s.length ≥ suffix.length) && (s.drop (s.length - suffix.length) == suffix)

/-- Function `strings.HasPrefix(s, prefix)`:
`len(s) >= len(prefix) && s[:len(prefix)] == prefix`. -/
def HasPrefix (s pre : Str) : Bool :=
  decide (s.length ≥ pre.length) && (s.take pre.length == pre)

/-- Function `strings.TrimSuffix(s, suffix)`: `s` without the trailing `suffix`, or `s` itself when
it does not end with `suffix`. -/
def TrimSuffix (s suffix : Str) : Str :=
  if HasSuffix s suffix then s.take (s.length - suffix.length) else s

/-- Function `strings.TrimPrefix(s, prefix)`: `s` without the leading `prefix`, or `s` itself when
it does not start with `prefix`. -/
def TrimPrefix (s pre : Str) : Str :=
  if HasPrefix s pre then s.drop pre.length else s

/-- The one-rune string `"."`. -/
def dot : Str := ['.']

/-! ## `net.IP` -/

/-- Go `net.IP`: a byte slice; the `nil` slice is the empty list. -/
abbrev IP := List Nat

/-- Method `net.IP.To4`: a 4-byte slice is returned as is, a 16-byte IPv4-mapped address
(ten zero bytes, `0xff`, `0xff`) yields its last four bytes, anything else `nil`. -/
def IP.To4 (ip : IP) : Option IP :=
  if ip.length = 4 then some ip
  else if ip.length = 16 ∧ (ip.take 10).all (fun b => b == 0) ∧
      ip.getD 10 0 = 0xff ∧ ip.getD 11 0 = 0xff then some (ip.drop 12)
  else none

/-- Method `net.IP.To16`: a 4-byte address is returned in its 16-byte IPv4-mapped form, a 16-byte
slice as is, anything else `nil`. -/
def IP.To16 (ip : IP) : Option IP :=
  if ip.length = 4 then some ([0, 0, 0, 0, 0, 0, 0, 0, 0, 0, 0xff, 0xff] ++ ip)
  else if ip.length = 16 then some ip
  else none

/-! ## `github.com/miekg/dns` messages -/

namespace dns

/-- Constant `dns.TypeA`. -/
def TypeA : Nat := 1
/-- Constant `dns.TypeAAAA`. -/
def TypeAAAA : Nat := 28
/-- Constant `dns.ClassINET`. -/
def ClassINET : Nat := 1
/-- Constant `dns.OpcodeQuery`. -/
def OpcodeQuery : Nat := 0
/-- Constant `dns.RcodeSuccess` (NOERROR). -/
def RcodeSuccess : Nat := 0
/-- Constant `dns.RcodeServerFailure` (SERVFAIL). -/
def RcodeServerFailure : Nat := 2

/-- Type `dns.Question`. -/
structure Question where
  Name : Str
  Qtype : Nat
  Qclass : Nat
deriving DecidableEq, Repr

/-- Type `dns.RR_Header`. -/
structure RR_Header where
  Name : Str
  Rrtype : Nat
  Class : Nat
  Ttl : Nat
  Rdlength : Nat := 0
deriving DecidableEq, Repr

/-- Type `dns.RR`: the two record types the responder builds (`*dns.A`, `*dns.AAAA`, whose
address field may be the `nil` IP) and any other record an upstream may return. -/
inductive RR where
  | A (Hdr : RR_Header) (A : Option IP)
  | AAAA (Hdr : RR_Header) (AAAA : Option IP)
  | other (Hdr : RR_Header) (rdata : List Nat)
deriving DecidableEq, Repr

/-- The header of a resource record (`RR.Header()`). -/
def RR.Header : RR → RR_Header
  | .A h _ => h
  | .AAAA h _ => h
  | .other h _ => h

/-- Type `dns.Msg` (with the embedded `dns.MsgHdr`). -/
structure Msg where
  Id : Nat := 0
  Response : Bool := false
  Opcode : Nat := 0
  Authoritative : Bool := false
  Truncated : Bool := false
  RecursionDesired : Bool := false
  RecursionAvailable : Bool := false
  Zero : Bool := false
  AuthenticatedData : Bool := false
  CheckingDisabled : Bool := false
  Rcode : Nat := 0
  Compress : Bool := false
  Question : List Question := []
  Answer : List RR := []
  Ns : List RR := []
  Extra : List RR := []
deriving DecidableEq, Repr

/-- Method `(*dns.Msg).SetReply` of miekg/dns (`defaults.go`), applied to the receiver `m`:
```go
dns.Id = request.Id
dns.Response = true
dns.Opcode = request.Opcode
if dns.Opcode == OpcodeQuery {
	dns.RecursionDesired = request.RecursionDesired // Copy rd bit
	dns.CheckingDisabled = request.CheckingDisabled // Copy cd bit
}
dns.Rcode = RcodeSuccess
if len(request.Question) > 0 {
	dns.Question = []Question{request.Question[0]}
}
```
Only the first question of the request is copied. -/
def Msg.SetReply (m request : Msg) : Msg :=
  let m := { m with Id := request.Id, Response := true, Opcode := request.Opcode }
  let m := if m.Opcode = OpcodeQuery then
      { m with RecursionDesired := request.RecursionDesired,
               CheckingDisabled := request.CheckingDisabled }
    else m
  let m := { m with Rcode := RcodeSuccess }
  match request.Question with
  | [] => m
  | q :: _ => { m with Question := [q] }

/-- Method `(*dns.Msg).SetRcode` of miekg/dns: `dns.SetReply(request); dns.Rcode = rcode`. -/
def Msg.SetRcode (m request : Msg) (rcode : Nat) : Msg :=
  { m.SetReply request with Rcode := rcode }

/-- The statement `m.Answer = append(m.Answer, rr)`. -/
def Msg.appendAnswer (m : Msg) (rr : RR) : Msg :=
  { m with Answer := m.Answer ++ [rr] }

/-! ## `internal/dns/server.go` -/

/-- Type `dns.Config`. Durations are in nanoseconds. -/
structure Config where
  ListenAddr : Str := []
  SpoofIP : IP := []
  SpoofSuffixes : List Str := []
  UpstreamDNS : List Str := []
  UpstreamTimeout : Nat := 0
deriving DecidableEq, Repr

/-- Type `dns.Server`: the configuration and the upstream client's timeout.  The listener,
the shutdown channel and the wait group play no part in request handling. -/
structure Server where
  config : Config
  clientTimeout : Nat
deriving DecidableEq, Repr

/-- Constant `time.Second`, in nanoseconds. -/
def second : Nat := 1000000000

/-- Function `dns.New`: the suffixes are lower-cased, a zero upstream timeout becomes five
seconds. -/
def New (toLower : Char → Char) (cfg : Config) : Server :=
  let suffixes := cfg.SpoofSuffixes.map (ToLower toLower)
  let cfg := { cfg with SpoofSuffixes := suffixes }
  let cfg := if cfg.UpstreamTimeout = 0 then { cfg with UpstreamTimeout := 5 * second } else cfg
  { config := cfg, clientTimeout := cfg.UpstreamTimeout }

/-- The loop of `shouldSpoof` over the configured suffixes, with `name` already
normalised. -/
def shouldSpoofLoop (name : Str) : List Str → Bool
  | [] => false
  | suffix :: rest =>
    let cleanSuffix := TrimPrefix suffix dot
    if name == cleanSuffix || HasSuffix name (dot ++ cleanSuffix) then true
    else shouldSpoofLoop name rest

/-- Method `(*Server).shouldSpoof`. -/
def Server.shouldSpoof (toLower : Char → Char) (s : Server) (name : Str) : Bool :=
  let name := ToLower toLower (TrimSuffix name dot)
  shouldSpoofLoop name s.config.SpoofSuffixes

/-- The effects of request handling, in program order: every `log.Printf` line (with its
arguments), every call of `s.client.Exchange`, every call of `w.WriteMsg`, and every call
of `forwardToUpstream` (with the message it is given). -/
inductive Event where
  /-- Line `[DNS] Query: %s (type %s)`. -/
  | logQuery (name : Str) (qtype : Nat)
  /-- Line `[DNS] Spoofing %s -> %s`. -/
  | logSpoofing (name : Str) (ip : IP)
  /-- Line `[DNS] Spoofing AAAA %s -> (empty, forcing IPv4)`. -/
  | logSpoofingAAAA (name : Str)
  /-- Line `[DNS] Error writing response: %v`. -/
  | logErrorWritingResponse (err : Str)
  /-- Entry of `forwardToUpstream(w, r)`. -/
  | forwardToUpstream (r : Msg)
  /-- Line `[DNS] Forwarding to upstream %s`. -/
  | logForwarding (upstream : Str)
  /-- Call `s.client.Exchange(r, upstream)`. -/
  | exchange (r : Msg) (upstream : Str)
  /-- Line `[DNS] Upstream %s error: %v`. -/
  | logUpstreamError (upstream : Str) (err : Str)
  /-- Line `[DNS] Error writing upstream response: %v`. -/
  | logErrorWritingUpstream (err : Str)
  /-- Line `[DNS] All upstreams failed, last error: %v`. -/
  | logAllFailed (lastErr : Option Str)
  /-- Line `[DNS] Error writing SERVFAIL: %v`. -/
  | logErrorWritingServfail (err : Str)
  /-- Call `w.WriteMsg(m)`. -/
  | writeMsg (m : Msg)
deriving DecidableEq, Repr

/-- The upstream network seen through `(*dns.Client).Exchange`: the outcome of the
`n`-th exchange (counted from 0) of one `forwardToUpstream` call, for the request and the
upstream address it is made with; `Except.error` is a non-nil `err`. -/
abbrev Exchange := Nat → Msg → Str → Except Str Msg

/-- The client seen through `dns.ResponseWriter.WriteMsg`: the error the write of a
message returns, `none` for `nil`. -/
abbrev ResponseWriter := Msg → Option Str

/-- The loop of `forwardToUpstream` over the upstreams not yet tried; `n` counts the
exchanges made so far and `lastErr` is the variable of that name. -/
def forwardLoop (ex : Exchange) (w : ResponseWriter) (r : Msg) :
    Nat → Option Str → List Str → List Event
  | _, lastErr, [] =>
    -- All upstreams failed
    let m := ({} : Msg).SetRcode r RcodeServerFailure
    [Event.logAllFailed lastErr, Event.writeMsg m] ++
      (match w m with
       | some err => [Event.logErrorWritingServfail err]
       | none => [])
  | n, _, upstream :: rest =>
    Event.logForwarding upstream :: Event.exchange r upstream ::
      (match ex n r upstream with
       | .error err =>
         Event.logUpstreamError upstream err :: forwardLoop ex w r (n + 1) (some err) rest
       | .ok resp =>
         Event.writeMsg resp ::
           (match w resp with
            | some err => [Event.logErrorWritingUpstream err]
            | none => []))

/-- Method `(*Server).forwardToUpstream`. -/
def Server.forwardToUpstream (s : Server) (ex : Exchange) (w : ResponseWriter) (r : Msg) :
    List Event :=
  Event.forwardToUpstream r :: forwardLoop ex w r 0 none s.config.UpstreamDNS

/-- The loop of `handleRequest` over the questions not yet examined; `m` is the reply
under construction. -/
def handleLoop (toLower : Char → Char) (s : Server) (ex : Exchange) (w : ResponseWriter)
    (r : Msg) : List Question → Msg → List Event
  | [], m =>
    Event.writeMsg m ::
      (match w m with
       | some err => [Event.logErrorWritingResponse err]
       | none => [])
  | q :: rest, m =>
    Event.logQuery q.Name q.Qtype ::
      (if s.shouldSpoof toLower q.Name then
        -- Spoof A and AAAA records for our domains
        if q.Qtype = TypeA then
          let rr := RR.A { Name := q.Name, Rrtype := TypeA, Class := ClassINET, Ttl := 60 }
            s.config.SpoofIP.To4
          Event.logSpoofing q.Name s.config.SpoofIP ::
            handleLoop toLower s ex w r rest (m.appendAnswer rr)
        else if q.Qtype = TypeAAAA then
          -- Return empty response for AAAA to force IPv4, or IPv6 if SpoofIP is IPv6
          let m := match s.config.SpoofIP.To16, s.config.SpoofIP.To4 with
            | some ip6, none =>
              let rr := RR.AAAA
                { Name := q.Name, Rrtype := TypeAAAA, Class := ClassINET, Ttl := 60 } (some ip6)
              m.appendAnswer rr
            | _, _ => m
          Event.logSpoofingAAAA q.Name :: handleLoop toLower s ex w r rest m
        else
          -- For other record types, forward to upstream
          s.forwardToUpstream ex w r
      else
        -- Forward non-spoofed domains to upstream
        s.forwardToUpstream ex w r)

/-- Method `(*Server).handleRequest`. -/
def Server.handleRequest (toLower : Char → Char) (s : Server) (ex : Exchange)
    (w : ResponseWriter) (r : Msg) : List Event :=
  let m := ({} : Msg).SetReply r
  let m := { m with Authoritative := false }
  handleLoop toLower s ex w r r.Question m

/-- The messages written to the client, in order. -/
def writes : List Event → List Msg
  | [] => []
  | Event.writeMsg m :: t => m :: writes t
  | _ :: t => writes t

/-- The upstream exchanges made (request and upstream address), in order. -/
def exchanges : List Event → List (Msg × Str)
  | [] => []
  | Event.exchange r u :: t => (r, u) :: exchanges t
  | _ :: t => exchanges t

/-- The messages handed to `forwardToUpstream`, in order. -/
def forwarded : List Event → List Msg
  | [] => []
  | Event.forwardToUpstream r :: t => r :: forwarded t
  | _ :: t => forwarded t

/-- The questions examined (name and type of every `[DNS] Query` line), in order. -/
def queried : List Event → List (Str × Nat)
  | [] => []
  | Event.logQuery n t :: rest => (n, t) :: queried rest
  | _ :: rest => queried rest

end dns

/-! ## `internal/proxy` -/

namespace proxy

/-- The arguments of one `net.Dialer.DialContext` call together with the dialer's
`Timeout`. -/
structure DialCall where
  timeout : Nat
  network : Str
  address : Str
deriving DecidableEq, Repr

/-- Type `net.Resolver`, as far as `NewResolver` sets it: the `PreferGo` flag and the `Dial`
hook, which receives the network and the address the resolver library asks for and
answers with the dial it performs. -/
structure Resolver where
  PreferGo : Bool
  Dial : Str → Str → DialCall

/-- Function `proxy.NewResolver` (`internal/proxy/resolver.go`). -/
def NewResolver (dnsServer : Str) (timeout : Nat) : Resolver :=
  { PreferGo := true,
    Dial := fun _network _address =>
      { timeout := timeout, network := "udp".toList, address := dnsServer } }

/-- Type `proxy.Config`. Durations are in nanoseconds. -/
structure Config where
  HTTPAddr : Str := []
  HTTPSAddr : Str := []
  AllowedSuffixes : List Str := []
  ResolverDNS : Str := []
  DialTimeout : Nat := 0
  PeekTimeout : Nat := 0
deriving DecidableEq, Repr

/-- Type `proxy.Server`: the configuration and the resolver. -/
structure Server where
  config : Config
  resolver : Resolver

/-- Function `proxy.New`: the suffixes are lower-cased, zero timeouts become five seconds,
and the resolver is built by `NewResolver` from `ResolverDNS` and `DialTimeout`. -/
def New (toLower : Char → Char) (cfg : Config) : Server :=
  let suffixes := cfg.AllowedSuffixes.map (ToLower toLower)
  let cfg := { cfg with AllowedSuffixes := suffixes }
  let cfg := if cfg.DialTimeout = 0 then { cfg with DialTimeout := 5 * dns.second } else cfg
  let cfg := if cfg.PeekTimeout = 0 then { cfg with PeekTimeout := 5 * dns.second } else cfg
  { config := cfg, resolver := NewResolver cfg.ResolverDNS cfg.DialTimeout }

/-- The loop of `isAllowed` over the allowed suffixes, with `host` already lower-cased. -/
def isAllowedLoop (host : Str) : List Str → Bool
  | [] => false
  | suffix :: rest =>
    let cleanSuffix := TrimPrefix suffix dot
    if host == cleanSuffix || HasSuffix host (dot ++ cleanSuffix) then true
    else isAllowedLoop host rest

/-- Method `(*Server).isAllowed`. -/
def Server.isAllowed (toLower : Char → Char) (s : Server) (host : Str) : Bool :=
  let host := ToLower toLower host
  isAllowedLoop host s.config.AllowedSuffixes

/-! ### `io`, `bytes`, `bufio`: streams and readers

A client connection is a finite stream that arrives in chunks and then ends.  Stream
elements are runes for the HTTP text path and bytes (`Nat`) for the TLS path. -/

/-- The `error` values that occur while peeking. -/
inductive Err where
  /-- Value `io.EOF`. -/
  | EOF
  /-- Value `io.ErrNoProgress`. -/
  | ErrNoProgress
  /-- Value `io.ErrClosedPipe`. -/
  | ErrClosedPipe
  /-- Value `proxy.ErrInvalidHTTP`. -/
  | ErrInvalidHTTP
  /-- Value `proxy.ErrNoHostHeader`. -/
  | ErrNoHostHeader
  /-- Any other error, with its text. -/
  | other (msg : Str)
deriving DecidableEq, Repr

/-- The client connection as an `io.Reader`: the chunks still to be delivered, in order.
Every `Read` delivers data of the first chunk only; after the last chunk `Read` returns
`io.EOF`. -/
structure Conn (α : Type) where
  chunks : List (List α)
deriving DecidableEq, Repr

/-- Method `Read(p)` of the connection with `len(p) = cap`: the data read, the error, and
the connection afterwards. -/
def Conn.Read {α : Type} (c : Conn α) (cap : Nat) : (List α × Option Err) × Conn α :=
  match c.chunks with
  | [] => (([], some Err.EOF), c)
  | chunk :: rest =>
    if chunk.length ≤ cap then ((chunk, none), { chunks := rest })
    else ((chunk.take cap, none), { chunks := chunk.drop cap :: rest })

/-- The reader `io.TeeReader(r, w)` with `w` the `bytes.Buffer` named `peekedBytes`: `w` is
the content written to the buffer so far. -/
structure TeeReader (α : Type) where
  r : Conn α
  w : List α
deriving DecidableEq, Repr

/-- Method `(*teeReader).Read`: `n, err = t.r.Read(p); if n > 0 { t.w.Write(p[:n]) }`
(a `bytes.Buffer` write never fails). -/
def TeeReader.Read {α : Type} (t : TeeReader α) (cap : Nat) :
    (List α × Option Err) × TeeReader α :=
  let res := t.r.Read cap
  (res.1, { r := res.2, w := t.w ++ res.1.1 })

/-- One of the readers handed to `io.MultiReader`: a `bytes.Buffer` with its unread
content, or the connection. -/
inductive IOReader (α : Type) where
  | buffer (unread : List α)
  | conn (c : Conn α)
deriving DecidableEq, Repr

/-- Method `Read` of a `bytes.Buffer` (an empty buffer returns `io.EOF`, or `0, nil` for an
empty `p`) and of the connection. -/
def IOReader.Read {α : Type} : IOReader α → Nat → (List α × Option Err) × IOReader α
  | .buffer unread, cap =>
    if unread.isEmpty then
      if cap = 0 then (([], none), .buffer unread) else (([], some Err.EOF), .buffer unread)
    else ((unread.take cap, none), .buffer (unread.drop cap))
  | .conn c, cap =>
    let res := c.Read cap
    (res.1, .conn res.2)

/-- Method `(*multiReader).Read` on the remaining readers:
```go
for len(mr.readers) > 0 {
	n, err = mr.readers[0].Read(p)
	if err == EOF { mr.readers = mr.readers[1:] }
	if n > 0 || err != EOF {
		if err == EOF && len(mr.readers) > 0 { err = nil }
		return
	}
}
return 0, EOF
``` -/
def MultiReader.Read {α : Type} :
    List (IOReader α) → Nat → (List α × Option Err) × List (IOReader α)
  | [], _ => (([], some Err.EOF), [])
  | r :: rest, cap =>
    let res := r.Read cap
    if res.1.2 = some Err.EOF then
      if res.1.1.length > 0 then
        ((res.1.1, if rest.length > 0 then none else some Err.EOF), rest)
      else MultiReader.Read rest cap
    else (res.1, res.2 :: rest)

/-- Reading a reader to the end with a buffer of `cap` bytes, as `io.Copy` does:
`nr, er := src.Read(buf)`, the `nr` bytes are passed on, and the loop ends at the first
error.  The first argument bounds the number of `Read` calls. -/
def readAllLoop {α : Type} (cap : Nat) : Nat → List (IOReader α) → List α
  | 0, _ => []
  | fuel + 1, mr =>
    let res := MultiReader.Read mr cap
    match res.1.2 with
    | some _ => res.1.1
    | none => res.1.1 ++ readAllLoop cap fuel res.2

/-- The number of `Read` calls (with a non-empty buffer) after which a connection has
certainly reported `io.EOF`. -/
def Conn.size {α : Type} (c : Conn α) : Nat :=
  (c.chunks.map (fun chunk => chunk.length + 1)).sum

/-- The same bound for one of the readers of a `MultiReader`. -/
def IOReader.size {α : Type} : IOReader α → Nat
  | .buffer unread => unread.length + 1
  | .conn c => c.size + 1

/-- Reading a `MultiReader` to the end with a buffer of `cap` bytes. -/
def ReadAll {α : Type} (cap : Nat) (mr : List (IOReader α)) : List α :=
  readAllLoop cap ((mr.map IOReader.size).sum + 1) mr

/-- Constant `defaultBufSize` of `bufio`. -/
def defaultBufSize : Nat := 4096

/-- Constant `maxConsecutiveEmptyReads` of `bufio`. -/
def maxConsecutiveEmptyReads : Nat := 100

/-- The reader `bufio.NewReader(teeReader)`: the underlying reader, the buffered data not
yet consumed (`b.buf[b.r:b.w]`) and the pending error `b.err`. -/
structure BufReader where
  rd : TeeReader Char
  buf : Str
  err : Option Err
deriving DecidableEq, Repr

/-- The read loop of `(*bufio.Reader).fill`, with `i` attempts left:
```go
for i := maxConsecutiveEmptyReads; i > 0; i-- {
	n, err := b.rd.Read(b.buf[b.w:])
	b.w += n
	if err != nil { b.err = err; return }
	if n > 0 { return }
}
b.err = io.ErrNoProgress
``` -/
def fillLoop : Nat → BufReader → BufReader
  | 0, b => { b with err := some Err.ErrNoProgress }
  | i + 1, b =>
    let res := b.rd.Read (defaultBufSize - b.buf.length)
    let b := { b with rd := res.2, buf := b.buf ++ res.1.1 }
    match res.1.2 with
    | some e => { b with err := some e }
    | none => if res.1.1.length > 0 then b else fillLoop i b

/-- Method `(*bufio.Reader).fill`. -/
def BufReader.fill (b : BufReader) : BufReader :=
  fillLoop maxConsecutiveEmptyReads b

/-- The position of the first occurrence of `delim` (`bytes.IndexByte`). -/
def indexOf (delim : Char) : Str → Option Nat
  | [] => none
  | c :: rest => if c = delim then some 0 else (indexOf delim rest).map (· + 1)

/-- The loop of `(*bufio.Reader).ReadString(delim)`, i.e. of `collectFragments` around
`ReadSlice`: `acc` holds the full buffers collected so far.  Each round returns the line
when the buffer holds `delim`, returns what was read together with a pending error,
sets a full buffer aside, or fills the buffer.  The first argument bounds the number of
rounds; `none` means the bound was reached. -/
def readStringLoop (delim : Char) :
    Nat → Str → BufReader → Option ((Str × Option Err) × BufReader)
  | 0, _, _ => none
  | fuel + 1, acc, b =>
    match indexOf delim b.buf with
    | some i => some ((acc ++ b.buf.take (i + 1), none), { b with buf := b.buf.drop (i + 1) })
    | none =>
      match b.err with
      | some e => some ((acc ++ b.buf, some e), { b with buf := [], err := none })
      | none =>
        if b.buf.length ≥ defaultBufSize then
          readStringLoop delim fuel (acc ++ b.buf) { b with buf := [] }
        else readStringLoop delim fuel acc b.fill

/-- Method `(*bufio.Reader).ReadString(delim)`.  The number of rounds is bounded by twice
the size of the stream still to come plus the buffered data. -/
def BufReader.ReadString (b : BufReader) (delim : Char) :
    Option ((Str × Option Err) × BufReader) :=
  readStringLoop delim (2 * b.rd.r.size + b.buf.length + 3) [] b

/-! ### `strings.Fields`, `strings.LastIndex`, `strings.Contains` -/

/-- Function `unicode.IsSpace`: `'\t'`, `'\n'`, `'\v'`, `'\f'`, `'\r'`, `' '`, U+0085,
U+00A0, and the other code points with the White_Space property. -/
def isSpace (c : Char) : Bool :=
  let n := c.toNat
  (9 ≤ n && n ≤ 13) || n == 0x20 || n == 0x85 || n == 0xA0 || n == 0x1680 ||
    (0x2000 ≤ n && n ≤ 0x200a) || n == 0x2028 || n == 0x2029 || n == 0x202f ||
    n == 0x205f || n == 0x3000

/-- The scan of `strings.Fields`: `cur` is the field being read. -/
def fieldsLoop : Str → Str → List Str
  | [], cur => if cur.isEmpty then [] else [cur]
  | c :: rest, cur =>
    if isSpace c then
      if cur.isEmpty then fieldsLoop rest [] else cur :: fieldsLoop rest []
    else fieldsLoop rest (cur ++ [c])

/-- Function `strings.Fields(s)`: the maximal runs of non-space runes of `s`. -/
def Fields (s : Str) : List Str :=
  fieldsLoop s []

/-- The search of `strings.LastIndex`: the largest `i ≤ n` with `s[i:]` starting with
`substr`, or `-1`. -/
def lastIndexLoop (s substr : Str) : Nat → Int
  | 0 => if HasPrefix s substr then 0 else -1
  | n + 1 =>
    if HasPrefix (s.drop (n + 1)) substr then ((n + 1 : Nat) : Int)
    else lastIndexLoop s substr n

/-- Function `strings.LastIndex(s, substr)`: the index of the last occurrence of `substr` in
`s`, or `-1`. -/
def LastIndex (s substr : Str) : Int :=
  lastIndexLoop s substr s.length

/-- Function `strings.Contains(s, substr)`: whether `substr` occurs in `s`. -/
def Contains (s substr : Str) : Bool :=
  (List.range (s.length + 1)).any (fun i => HasPrefix (s.drop i) substr)

/-! ### `internal/proxy/host.go` -/

/-- Type `textproto.MIMEHeader`: the values recorded for each canonical key. -/
abbrev MIMEHeader := List (Str × List Str)

/-- Method `MIMEHeader.Get(key)` for a key in canonical form: the first value recorded for the
key, or the empty string. -/
def MIMEHeader.Get (h : MIMEHeader) (key : Str) : Str :=
  match h.lookup key with
  | some (v :: _) => v
  | _ => []

/-- A run of `(*textproto.Reader).ReadMIMEHeader` on the `bufio.Reader`.  The header
grammar of the Go standard library is not part of the embedding; a run is any client of
the `bufio.Reader` that either finishes with the header map or an error, or consumes
`discard` buffered runes, calls `fill`, and goes on according to what is then buffered
and which error is pending. -/
inductive MIMERun where
  | done (result : Except Err MIMEHeader)
  | fill (discard : Nat) (next : Str → Option Err → MIMERun)

/-- The execution of a header run against the `bufio.Reader`. -/
def runMIME : MIMERun → BufReader → Except Err MIMEHeader × BufReader
  | .done result, b => (result, b)
  | .fill discard next, b =>
    let b := { b with buf := b.buf.drop discard }.fill
    runMIME (next b.buf b.err) b

/-- The removal of the port from the `Host` value at the end of `PeekHTTPHost`:
```go
if colonIdx := strings.LastIndex(host, ":"); colonIdx != -1 {
	if !strings.Contains(host, "[") { host = host[:colonIdx] }
}
``` -/
def stripPort (host : Str) : Str :=
  let colonIdx := LastIndex host [':']
  if colonIdx ≠ -1 then
    if !Contains host ['['] then host.take colonIdx.toNat else host
  else host

/-- Function `proxy.PeekHTTPHost`.  `readMIMEHeader` is the run `tp.ReadMIMEHeader()` makes,
given what the `bufio.Reader` holds after the request line.  The result is the host and
`io.MultiReader(peekedBytes, reader)`. -/
def PeekHTTPHost (readMIMEHeader : Str → Option Err → MIMERun) (reader : Conn Char) :
    Except Err (Str × List (IOReader Char)) :=
  let teeReader : TeeReader Char := { r := reader, w := [] }
  let bufReader : BufReader := { rd := teeReader, buf := [], err := none }
  -- Read the request line
  match bufReader.ReadString '\n' with
  -- `ReadString` always returns (theorem `ReadString_isSome`); this branch is never taken
  | none => .error (Err.other "bufio: read bound reached".toList)
  | some ((_, some err), _) => .error err
  | some ((requestLine, none), bufReader) =>
    -- Validate it looks like HTTP
    let parts := Fields requestLine
    if parts.length < 3 || !HasPrefix (parts.getD 2 []) "HTTP/".toList then
      .error Err.ErrInvalidHTTP
    else
      -- Read headers using textproto
      match runMIME (readMIMEHeader bufReader.buf bufReader.err) bufReader with
      | (.error err, _) => .error err
      | (.ok headers, bufReader) =>
        let host := headers.Get "Host".toList
        if host.isEmpty then .error Err.ErrNoHostHeader
        else
          -- Remove port from host if present (for matching purposes)
          .ok (stripPort host, [IOReader.buffer bufReader.rd.w, IOReader.conn bufReader.rd.r])

/-! ### `internal/proxy/sni.go` -/

/-- Type `tls.ClientHelloInfo`, of which the proxy uses `ServerName`. -/
structure ClientHelloInfo where
  ServerName : Str
deriving DecidableEq, Repr

/-- A run of `tls.Server(readOnlyConn, config).Handshake()`.  The TLS implementation is not
part of the embedding; a run is any client of the connection that either finishes, with
the `ClientHelloInfo` the `GetConfigForClient` hook captured (if it was called) and the
error `Handshake` returns, or calls `Read` with a buffer of `cap` bytes and goes on
according to the data and error read.  Writes fail with `io.ErrClosedPipe` and reach no
one. -/
inductive HandshakeRun where
  | done (hello : Option ClientHelloInfo) (err : Err)
  | read (cap : Nat) (next : List Nat → Option Err → HandshakeRun)

/-- The execution of a handshake run against the reader it is given. -/
def runHandshake : HandshakeRun → TeeReader Nat →
    (Option ClientHelloInfo × Err) × TeeReader Nat
  | .done hello err, t => ((hello, err), t)
  | .read cap next, t =>
    let res := t.Read cap
    runHandshake (next res.1.1 res.1.2) res.2

/-- Function `proxy.readClientHello`: the captured `ClientHelloInfo`, or the handshake error
when none was captured. -/
def readClientHello (handshake : HandshakeRun) (reader : TeeReader Nat) :
    Except Err ClientHelloInfo × TeeReader Nat :=
  let res := runHandshake handshake reader
  match res.1.1 with
  | none => (.error res.1.2, res.2)
  | some hello => (.ok hello, res.2)

/-- Function `proxy.PeekClientHello`.  The result is the `ClientHelloInfo` and
`io.MultiReader(peekedBytes, reader)`. -/
def PeekClientHello (handshake : HandshakeRun) (reader : Conn Nat) :
    Except Err (ClientHelloInfo × List (IOReader Nat)) :=
  match readClientHello handshake { r := reader, w := [] } with
  | (.error err, _) => .error err
  | (.ok hello, tee) => .ok (hello, [IOReader.buffer tee.w, IOReader.conn tee.r])

/-- Function `proxy.PeekHTTPHostSplice`: the same peek as `PeekHTTPHost`, returning the
buffer `peekedBytes` itself instead of a multi reader. -/
def PeekHTTPHostSplice (readMIMEHeader : Str → Option Err → MIMERun) (reader : Conn Char) :
    Except Err (Str × Str) :=
  let teeReader : TeeReader Char := { r := reader, w := [] }
  let bufReader : BufReader := { rd := teeReader, buf := [], err := none }
  -- Read the request line
  match bufReader.ReadString '\n' with
  -- `ReadString` always returns (theorem `ReadString_isSome`); this branch is never taken
  | none => .error (Err.other "bufio: read bound reached".toList)
  | some ((_, some err), _) => .error err
  | some ((requestLine, none), bufReader) =>
    -- Validate it looks like HTTP
    let parts := Fields requestLine
    if parts.length < 3 || !HasPrefix (parts.getD 2 []) "HTTP/".toList then
      .error Err.ErrInvalidHTTP
    else
      -- Read headers using textproto
      match runMIME (readMIMEHeader bufReader.buf bufReader.err) bufReader with
      | (.error err, _) => .error err
      | (.ok headers, bufReader) =>
        let host := headers.Get "Host".toList
        if host.isEmpty then .error Err.ErrNoHostHeader
        else
          -- Remove port from host if present (for matching purposes)
          .ok (stripPort host, bufReader.rd.w)

/-! ### `internal/proxy/resolver.go`, `internal/proxy/server.go`: connections -/

/-- A lookup of the Go resolver of package `net`, seen from the `Dial` hook: the library
ends with addresses or an error, or it asks for a connection to a name server of the system
configuration and goes on with the connection it is given.  Every connection goes
through the hook when one is set:
```go
func (r *Resolver) dial(ctx context.Context, network, server string) (Conn, error) {
	if r != nil && r.Dial != nil {
		c, err = r.Dial(ctx, network, server)
	} else {
		var d Dialer
		c, err = d.DialContext(ctx, network, server)
	}
```
What the library does next depends on the dial the hook performed. -/
inductive LookupRun where
  | done (result : Except Err (List Str))
  | dial (network server : Str) (next : DialCall → LookupRun)

/-- Method `(*net.Resolver).LookupHost` on the Go resolver, which `PreferGo` selects: the
dials the hook performs, in order, and the result of the lookup. -/
def Resolver.LookupHost (resolver : Resolver) :
    LookupRun → List DialCall × Except Err (List Str)
  | .done result => ([], result)
  | .dial network server next =>
    let call := resolver.Dial network server
    let res := Resolver.LookupHost resolver (next call)
    (call :: res.1, res.2)

/-- Function `proxy.ResolveHost`: the first address `resolver.LookupHost` returns, its error,
or a `net.DNSError` when it returns no address, together with the dials the resolver
made.  `lookupHost` is the run of the library for a host. -/
def ResolveHost (resolver : Resolver) (lookupHost : Str → LookupRun) (host : Str) :
    List DialCall × Except Err Str :=
  let res := resolver.LookupHost (lookupHost host)
  (res.1,
    match res.2 with
    | .error err => .error err
    | .ok ips =>
      match ips with
      | [] => .error (Err.other "no addresses found".toList)
      | ip :: _ => .ok ip)

/-- Function `net.JoinHostPort(host, port)`: `"[" + host + "]:" + port` when the host
contains a colon, `host + ":" + port` otherwise. -/
def JoinHostPort (host port : Str) : Str :=
  if Contains host [':'] then ['['] ++ host ++ [']', ':'] ++ port
  else host ++ [':'] ++ port

/-- An accepted connection, with the listener it was accepted on: the argument `isTLS` of
`handleConnection` is true for the HTTPS listener, whose streams are byte streams, and
false for the HTTP listener, whose streams are text. -/
inductive Accepted where
  | https (clientConn : Conn Nat)
  | http (clientConn : Conn Char)

/-- The argument `isTLS` that `acceptLoop` passes for an accepted connection. -/
def Accepted.isTLS : Accepted → Bool
  | .https _ => true
  | .http _ => false

/-- What `handleConnection` meets outside the process: the results of the two
`SetReadDeadline` calls, the header parser and the TLS handshake of the libraries, the
run of the resolver library for a host, and the result of dialling the backend. -/
structure World where
  setReadDeadline : Option Err
  clearReadDeadline : Option Err
  readMIMEHeader : Str → Option Err → MIMERun
  handshake : HandshakeRun
  lookupHost : Str → LookupRun
  dialTimeout : Str → Str → Nat → Option Err

/-- The effects of `handleConnection`, in program order: the calls on the client
connection, the log lines, the resolution, the dial, the tunnel and the deferred
closes.  Reading from the client while peeking writes nothing and is not an event. -/
inductive ConnEvent where
  /-- Call `clientConn.SetReadDeadline(time.Now().Add(PeekTimeout))`. -/
  | setReadDeadline (peekTimeout : Nat)
  /-- Line `[Proxy] SetReadDeadline error: %v`. -/
  | logSetReadDeadlineError (err : Err)
  /-- Line `[Proxy] SNI peek error: %v`. -/
  | logSNIPeekError (err : Err)
  /-- Line `[Proxy] TLS connection, SNI: %s`. -/
  | logTLSConnection (host : Str)
  /-- Line `[Proxy] HTTP Host peek error: %v`. -/
  | logHTTPPeekError (err : Err)
  /-- Line `[Proxy] HTTP connection, Host: %s`. -/
  | logHTTPConnection (host : Str)
  /-- Call `clientConn.SetReadDeadline(time.Time{})`. -/
  | clearReadDeadline
  /-- Line `[Proxy] Clear deadline error: %v`. -/
  | logClearDeadlineError (err : Err)
  /-- Line `[Proxy] Host not allowed: %s`. -/
  | logHostNotAllowed (host : Str)
  /-- Call `ResolveHost(ctx, s.resolver, host)`. -/
  | resolveHost (host : Str)
  /-- A dial the `Dial` hook of the resolver performs during that call. -/
  | resolverDial (call : DialCall)
  /-- Line `[Proxy] Resolve error for %s: %v`. -/
  | logResolveError (host : Str) (err : Err)
  /-- Line `[Proxy] Connecting to backend %s (%s)`. -/
  | logConnecting (backendAddr host : Str)
  /-- Call `net.DialTimeout("tcp", backendAddr, DialTimeout)`. -/
  | dial (network backendAddr : Str) (timeout : Nat)
  /-- Line `[Proxy] Backend dial error: %v`. -/
  | logBackendDialError (err : Err)
  /-- Line `[Proxy] Tunnel established: %s <-> %s (%s)`. -/
  | logTunnelEstablished (backendAddr host : Str)
  /-- The two copy goroutines and `wg.Wait()`: `io.Copy(backendConn, clientReader)` with
  `CloseWrite` on the backend, and `io.Copy(clientConn, backendConn)`, the only place
  where bytes are written to the client, with `CloseWrite` on the client. -/
  | tunnel (backendAddr : Str)
  /-- Line `[Proxy] Tunnel closed: %s <-> %s`. -/
  | logTunnelClosed (backendAddr : Str)
  /-- Deferred call `backendConn.Close()`. -/
  | closeBackend
  /-- Deferred call `clientConn.Close()`. -/
  | closeClient
deriving DecidableEq, Repr

/-- The part of `handleConnection` after the peek, for the peeked host and the port of the
listener: clearing the deadline, the allow-list check, resolution, dial and tunnel. -/
def handlePeeked (toLower : Char → Char) (s : Server) (world : World) (host port : Str) :
    List ConnEvent :=
  -- Clear the read deadline
  ConnEvent.clearReadDeadline ::
    (match world.clearReadDeadline with
     | some err => [ConnEvent.logClearDeadlineError err]
     | none =>
       -- Check if host is allowed
       if !s.isAllowed toLower host then [ConnEvent.logHostNotAllowed host]
       else
         -- Resolve host to IP using our custom resolver (to avoid loops)
         ConnEvent.resolveHost host ::
           ((ResolveHost s.resolver world.lookupHost host).1.map ConnEvent.resolverDial ++
            (match (ResolveHost s.resolver world.lookupHost host).2 with
             | .error err => [ConnEvent.logResolveError host err]
             | .ok ip =>
               -- Connect to backend
               let backendAddr := JoinHostPort ip port
               ConnEvent.logConnecting backendAddr host ::
                 ConnEvent.dial "tcp".toList backendAddr s.config.DialTimeout ::
                   (match world.dialTimeout "tcp".toList backendAddr s.config.DialTimeout with
                    | some err => [ConnEvent.logBackendDialError err]
                    | none =>
                      [ConnEvent.logTunnelEstablished backendAddr host,
                       ConnEvent.tunnel backendAddr,
                       ConnEvent.logTunnelClosed backendAddr,
                       ConnEvent.closeBackend]))))

/-- Method `(*Server).handleConnection`.  The deferred `clientConn.Close()` ends every
path. -/
def Server.handleConnection (toLower : Char → Char) (s : Server) (world : World)
    (accepted : Accepted) : List ConnEvent :=
  -- Set deadline for peeking
  (ConnEvent.setReadDeadline s.config.PeekTimeout ::
    (match world.setReadDeadline with
     | some err => [ConnEvent.logSetReadDeadlineError err]
     | none =>
       match accepted with
       | .https clientConn =>
         -- Extract SNI from TLS ClientHello
         (match PeekClientHello world.handshake clientConn with
          | .error peekErr => [ConnEvent.logSNIPeekError peekErr]
          | .ok (hello, _) =>
            ConnEvent.logTLSConnection hello.ServerName ::
              handlePeeked toLower s world hello.ServerName "443".toList)
       | .http clientConn =>
         -- Extract Host from HTTP headers
         (match PeekHTTPHost world.readMIMEHeader clientConn with
          | .error peekErr => [ConnEvent.logHTTPPeekError peekErr]
          | .ok (httpHost, _) =>
            ConnEvent.logHTTPConnection httpHost ::
              handlePeeked toLower s world httpHost "80".toList))) ++
    [ConnEvent.closeClient]

end proxy

/-! ## `internal/udpsink/sink.go` -/

namespace udpsink

/-- Type `net.UDPAddr`: address and port (a non-negative `int`). -/
structure UDPAddr where
  IP : IP
  Port : Nat
deriving DecidableEq, Repr

/-- The conversion `byte(x)` of a non-negative `int`: its low eight bits. -/
def byte (x : Nat) : Nat := x % 256

/-- The shift `x >> 8` of a non-negative `int`. -/
def shr8 (x : Nat) : Nat := x / 256

/-- The statement `copy(dst[off:off+4], src)`: the first `min(4, len(src))` bytes of `src`
replace the bytes of `dst` from offset `off`. -/
def copy4 (dst : List Nat) (off : Nat) (src : List Nat) : List Nat :=
  dst.take off ++ src.take 4 ++ dst.drop (off + Nat.min 4 src.length)

/-- Function `min` of `sink.go`. -/
def min (a b : Nat) : Nat :=
  if a < b then a else b

/-- Type `icmp.Message` with an `icmp.DstUnreach` body: the field `Type` (here `Typ`), the
code and the body's `Data`. -/
structure ICMPMessage where
  Typ : Nat
  Code : Nat
  Data : List Nat
deriving DecidableEq, Repr

/-- Constant `ipv4.ICMPTypeDestinationUnreachable`. -/
def ICMPTypeDestinationUnreachable : Nat := 3

/-- Type `udpsink.Sink`: the local address of the UDP socket (`s.conn.LocalAddr()`),
whether the raw ICMP socket is open (`s.icmpConn != nil`), and the two counters
(`atomic.Uint64`). -/
structure Sink where
  localAddr : UDPAddr
  icmpConn : Bool
  dropped : Nat
  icmpSent : Nat
deriving DecidableEq, Repr

/-- The ICMP error payload `sendICMPPortUnreachable` builds for a datagram: the IP header
of the original packet (20 bytes), its UDP header (8 bytes) and the first
`min(8, len(originalPacket))` bytes of the datagram. -/
def icmpPayload (localAddr remoteAddr : UDPAddr) (localIP : List Nat)
    (originalPacket : List Nat) : List Nat :=
  -- ipHeader := make([]byte, 20)
  let ipHeader : List Nat := List.replicate 20 0
  let ipHeader := ipHeader.set 0 0x45
  let ipHeader := ipHeader.set 1 0x00
  let totalLen := 28 + originalPacket.length
  let ipHeader := ipHeader.set 2 (byte (shr8 totalLen))
  let ipHeader := ipHeader.set 3 (byte totalLen)
  let ipHeader := ipHeader.set 8 64
  let ipHeader := ipHeader.set 9 17
  let ipHeader := copy4 ipHeader 12 (remoteAddr.IP.To4.getD [])
  let ipHeader := copy4 ipHeader 16 localIP
  -- udpHeader := make([]byte, 8)
  let udpHeader : List Nat := List.replicate 8 0
  let udpHeader := udpHeader.set 0 (byte (shr8 remoteAddr.Port))
  let udpHeader := udpHeader.set 1 (byte remoteAddr.Port)
  let udpHeader := udpHeader.set 2 (byte (shr8 localAddr.Port))
  let udpHeader := udpHeader.set 3 (byte localAddr.Port)
  let udpLen := 8 + originalPacket.length
  let udpHeader := udpHeader.set 4 (byte (shr8 udpLen))
  let udpHeader := udpHeader.set 5 (byte udpLen)
  let payload := ipHeader ++ udpHeader
  payload ++ originalPacket.take (udpsink.min 8 originalPacket.length)

/-- Method `(*Sink).sendICMPPortUnreachable`: the message handed to `Marshal` and
`WriteTo` (if the function gets that far) and the error returned.  `send` is the outcome
of marshalling the message and writing it to the client address. -/
def Sink.sendICMPPortUnreachable (s : Sink) (send : ICMPMessage → IP → Option Str)
    (remoteAddr : UDPAddr) (originalPacket : List Nat) : Option ICMPMessage × Option Str :=
  if !s.icmpConn then (none, some "ICMP socket not available".toList)
  else
    -- Get local IP from the UDP connection
    match s.localAddr.IP.To4 with
    | none => (none, some "local IP is not IPv4".toList)
    | some localIP =>
      let payload := icmpPayload s.localAddr remoteAddr localIP originalPacket
      -- Create ICMP Port Unreachable message
      let msg : ICMPMessage :=
        { Typ := ICMPTypeDestinationUnreachable, Code := 3, Data := payload }
      -- Marshal and send
      (some msg, send msg remoteAddr.IP)

/-- What one round of `readLoop` meets: the shutdown channel found closed at the top of the
loop; a failed `ReadFromUDP`, with whether the shutdown channel is closed by then and
whether the error is `use of closed network connection`; or a datagram, with the outcome
the ICMP send will have. -/
inductive Arrival where
  | shutdown
  | readError (err : Str) (shutdownClosed closedConn : Bool)
  | datagram (remoteAddr : UDPAddr) (data : List Nat) (send : ICMPMessage → IP → Option Str)

/-- The log lines of `readLoop` and the ICMP messages it sends. -/
inductive SinkEvent where
  /-- Line `[UDPSink] Read error: %v`. -/
  | logReadError (err : Str)
  /-- Call `s.icmpConn.WriteTo` with the marshalled message. -/
  | icmpWrite (msg : ICMPMessage) (dst : IP)
  /-- Line `[UDPSink] ICMP send error: %v`. -/
  | logICMPSendError (err : Str)
  /-- Line `[UDPSink] Dropped packet #%d from %s (%d bytes), ICMP sent: %d`. -/
  | logDroppedICMP (count : Nat) (remoteAddr : UDPAddr) (n : Nat) (icmpSent : Nat)
  /-- Line `[UDPSink] Dropped packet #%d from %s (%d bytes)`. -/
  | logDropped (count : Nat) (remoteAddr : UDPAddr) (n : Nat)
deriving DecidableEq, Repr

/-- The wrap-around of an `atomic.Uint64` counter. -/
def uint64 (x : Nat) : Nat := x % 2 ^ 64

/-- Method `(*Sink).readLoop`, over the rounds the loop goes through until it returns (or
blocks in `ReadFromUDP` for good when the arrivals are used up): the events, and the sink
with its counters afterwards.  The buffer has 2048 bytes, so a longer datagram is cut to
its first 2048 bytes. -/
def Sink.readLoop (s : Sink) : List Arrival → List SinkEvent × Sink
  | [] => ([], s)
  | Arrival.shutdown :: _ => ([], s)
  | Arrival.readError err shutdownClosed closedConn :: rest =>
    if shutdownClosed then ([], s)
    else if closedConn then ([], s)
    else
      let res := s.readLoop rest
      (SinkEvent.logReadError err :: res.1, res.2)
  | Arrival.datagram remoteAddr data send :: rest =>
    let packet := data.take 2048
    let n := packet.length
    -- Send ICMP Port Unreachable if ICMP socket is available
    let sent :=
      if s.icmpConn then
        let res := s.sendICMPPortUnreachable send remoteAddr packet
        let writes := match res.1 with
          | some msg => [SinkEvent.icmpWrite msg remoteAddr.IP]
          | none => []
        match res.2 with
        | some err =>
          -- Log error but continue - ICMP is best-effort
          (writes ++ (if s.icmpSent < 5 then [SinkEvent.logICMPSendError err] else []), s)
        | none => (writes, { s with icmpSent := uint64 (s.icmpSent + 1) })
      else ([], s)
    let s := sent.2
    let count := uint64 (s.dropped + 1)
    let s := { s with dropped := count }
    let logs :=
      if count % 1000 = 0 ∨ count ≤ 10 then
        -- Log first 10 packets and then every 1000th to avoid log spam
        if s.icmpConn then [SinkEvent.logDroppedICMP count remoteAddr n s.icmpSent]
        else [SinkEvent.logDropped count remoteAddr n]
      else []
    let res := s.readLoop rest
    (sent.1 ++ logs ++ res.1, res.2)

end udpsink

/-! ## Notions used to state the responder's behaviour -/

/-- A question the responder answers itself: its name matches the suffix predicate and its
type is A or AAAA. -/
def answeredLocally (toLower : Char → Char) (s : dns.Server) (q : dns.Question) : Bool :=
  s.shouldSpoof toLower q.Name && (q.Qtype == dns.TypeA || q.Qtype == dns.TypeAAAA)

/-- A message with further records appended to its answer section. -/
def dns.Msg.appendAnswers (m : dns.Msg) (l : List dns.RR) : dns.Msg :=
  { m with Answer := m.Answer ++ l }

/-- The events that are log lines. -/
def dns.Event.isLog : dns.Event → Bool
  | .logQuery _ _ => true
  | .logSpoofing _ _ => true
  | .logSpoofingAAAA _ => true
  | .logErrorWritingResponse _ => true
  | .logForwarding _ => true
  | .logUpstreamError _ _ => true
  | .logErrorWritingUpstream _ => true
  | .logAllFailed _ => true
  | .logErrorWritingServfail _ => true
  | .forwardToUpstream _ => false
  | .exchange _ _ => false
  | .writeMsg _ => false

/-- The A record the specification prescribes for a question: owner name as sent, class
IN, TTL 60, address `spoof_ip.To4()`. -/
def specARecord (s : dns.Server) (q : dns.Question) : dns.RR :=
  dns.RR.A { Name := q.Name, Rrtype := dns.TypeA, Class := dns.ClassINET, Ttl := 60 }
    s.config.SpoofIP.To4

/-- The AAAA record the specification prescribes for a question and an IPv6 address. -/
def specAAAARecord (q : dns.Question) (ip6 : IP) : dns.RR :=
  dns.RR.AAAA { Name := q.Name, Rrtype := dns.TypeAAAA, Class := dns.ClassINET, Ttl := 60 }
    (some ip6)

/-- The answer records the specification prescribes for a list of locally answered
questions: one A record per question of type A, one AAAA record per question of type AAAA
when the spoof IP is IPv6-only, none otherwise. -/
def specAnswers (s : dns.Server) : List dns.Question → List dns.RR
  | [] => []
  | q :: rest =>
    (if q.Qtype = dns.TypeA then [specARecord s q]
     else match s.config.SpoofIP.To16, s.config.SpoofIP.To4 with
       | some ip6, none => [specAAAARecord q ip6]
       | _, _ => []) ++ specAnswers s rest

/-! ## Notions used to state the behaviour of the readers -/

/-- Everything a reader of a `MultiReader` still holds. -/
def proxy.IOReader.content {α : Type} : proxy.IOReader α → List α
  | .buffer unread => unread
  | .conn c => c.chunks.flatten

/-- The measure that bounds the rounds of `ReadString`: it falls with every round that
does not return. -/
def proxy.BufReader.rounds (b : proxy.BufReader) : Nat :=
  2 * b.rd.r.size + b.buf.length + (if b.err = none then 1 else 0)

/-! ## Notions used to state the behaviour of `handleConnection` and of the sink -/

/-- The host `handleConnection` peeks from an accepted connection: the SNI of the
ClientHello on the HTTPS listener, the `Host` value on the HTTP listener. -/
def proxy.peekedHost (world : proxy.World) : proxy.Accepted → Except proxy.Err Str
  | .https clientConn =>
    match proxy.PeekClientHello world.handshake clientConn with
    | .error err => .error err
    | .ok (hello, _) => .ok hello.ServerName
  | .http clientConn =>
    match proxy.PeekHTTPHost world.readMIMEHeader clientConn with
    | .error err => .error err
    | .ok (host, _) => .ok host

/-- The events that resolve or reach the backend or write to the client: the resolution
with the dials of its resolver, the dial, the tunnel (the only place where bytes are
written to the client) and the close of the backend connection. -/
def proxy.ConnEvent.reachesOut : proxy.ConnEvent → Bool
  | .resolveHost _ => true
  | .resolverDial _ => true
  | .dial _ _ _ => true
  | .tunnel _ => true
  | .closeBackend => true
  | _ => false

/-- The errors `fill` leaves pending: none, `io.EOF` or `io.ErrNoProgress`. -/
def proxy.readErr (err : Option proxy.Err) : Prop :=
  err = none ∨ err = some proxy.Err.EOF ∨ err = some proxy.Err.ErrNoProgress

/-- The number of `ICMP send error` log lines among the events of the sink. -/
def udpsink.sendErrorLines : List udpsink.SinkEvent → Nat
  | [] => 0
  | udpsink.SinkEvent.logICMPSendError _ :: rest => udpsink.sendErrorLines rest + 1
  | _ :: rest => udpsink.sendErrorLines rest

/-! ## Concrete values used in examples -/

/-- The default spoof IP `95.164.123.192` as `net.ParseIP` returns it (16-byte form). -/
def exampleSpoofIP : IP := [0, 0, 0, 0, 0, 0, 0, 0, 0, 0, 0xff, 0xff, 95, 164, 123, 192]

/-- An IPv6-only spoof IP, `2001:db8::1`. -/
def exampleSpoofIP6 : IP := [0x20, 0x01, 0x0d, 0xb8, 0, 0, 0, 0, 0, 0, 0, 0, 0, 0, 0, 1]

/-- A responder for the suffix `.openai.com` with two upstreams. -/
def exampleServer : dns.Server :=
  dns.New asciiToLower
    { SpoofIP := exampleSpoofIP, SpoofSuffixes := [".openai.com".toList],
      UpstreamDNS := ["8.8.8.8:53".toList, "1.1.1.1:53".toList] }

/-- A responder for the suffix `.openai.com` with an IPv6-only spoof IP. -/
def exampleServer6 : dns.Server :=
  dns.New asciiToLower
    { SpoofIP := exampleSpoofIP6, SpoofSuffixes := [".openai.com".toList],
      UpstreamDNS := ["8.8.8.8:53".toList] }

/-- A question of class IN. -/
def exampleQuestion (name : String) (qtype : Nat) : dns.Question :=
  { Name := name.toList, Qtype := qtype, Qclass := dns.ClassINET }

/-- A query with the given questions (ID 4242, recursion desired). -/
def exampleQuery (qs : List dns.Question) : dns.Msg :=
  { Id := 4242, RecursionDesired := true, Question := qs }

/-- An upstream network on which every exchange times out. -/
def exampleAllFail : dns.Exchange := fun _ _ _ => Except.error "i/o timeout".toList

/-- An upstream response (ID 4242, one opaque answer record). -/
def exampleResponse : dns.Msg :=
  { Id := 4242, Response := true, RecursionAvailable := true,
    Answer := [dns.RR.other { Name := "example.org.".toList, Rrtype := 1, Class := 1,
                              Ttl := 300 } [93, 184, 216, 34]] }

/-- An upstream network on which the first exchange times out and every later one
succeeds with `exampleResponse`. -/
def exampleSecondAnswers : dns.Exchange := fun n _ _ =>
  if n = 0 then Except.error "i/o timeout".toList else Except.ok exampleResponse

/-- A client to which every write succeeds. -/
def exampleWriter : dns.ResponseWriter := fun _ => none

/-- The first line of a text (without its `\n`) and the text after it, when there is a
complete line. -/
def exampleTakeLine : Str → Option (Str × Str)
  | [] => none
  | c :: rest =>
    if c = '\n' then some ([], rest)
    else (exampleTakeLine rest).map (fun lr => (c :: lr.1, lr.2))

/-- A minimal header grammar: lines `Key: value` up to the first empty line; `none` when
the empty line has not been buffered yet. -/
def exampleParseHeader : Nat → Str → proxy.MIMEHeader → Option proxy.MIMEHeader
  | 0, _, _ => none
  | n + 1, text, acc =>
    match exampleTakeLine text with
    | none => none
    | some (line, rest) =>
      let line := if line.getLast? = some '\r' then line.dropLast else line
      if line.isEmpty then some acc
      else
        let key := line.takeWhile (fun c => c ≠ ':')
        let value := ((line.dropWhile (fun c => c ≠ ':')).drop 1).dropWhile (fun c => c = ' ')
        exampleParseHeader n rest (acc ++ [(key, [value])])

/-- A header run for that grammar: it fills the buffer until the header is complete, an
error is pending, or `n` fills were made. -/
def exampleReadMIMEHeader : Nat → Str → Option proxy.Err → proxy.MIMERun
  | 0, _, _ => proxy.MIMERun.done (.error (proxy.Err.other "header too long".toList))
  | n + 1, buffered, err =>
    match exampleParseHeader buffered.length buffered [] with
    | some h => proxy.MIMERun.done (.ok h)
    | none =>
      match err with
      | some e => proxy.MIMERun.done (.error e)
      | none => proxy.MIMERun.fill 0 (exampleReadMIMEHeader n)

/-- An HTTP request arriving in three segments, the second ending inside the body. -/
def exampleHTTPStream : proxy.Conn Char :=
  { chunks := ["GET /v1/models HTTP/1.1\r\nHo".toList,
               "st: api.openai.com:8080\r\nAccept: */*\r\n\r\na=1&b".toList,
               "=2".toList] }

/-- What `PeekHTTPHost` has read from `exampleHTTPStream` when it returns: the first two
segments, the second of which reaches into the body. -/
def exampleHTTPPeeked : Str :=
  "GET /v1/models HTTP/1.1\r\nHost: api.openai.com:8080\r\n".toList ++
    "Accept: */*\r\n\r\na=1&b".toList

/-- A minimal handshake run: it reads a five-byte record header, then the number of bytes
the header's last byte announces, and captures them as the server name. -/
def exampleHandshake : proxy.HandshakeRun :=
  proxy.HandshakeRun.read 5 (fun header _ =>
    if header.length < 5 then proxy.HandshakeRun.done none proxy.Err.EOF
    else proxy.HandshakeRun.read (header.getD 4 0) (fun body _ =>
      if body.length < header.getD 4 0 then proxy.HandshakeRun.done none proxy.Err.EOF
      else proxy.HandshakeRun.done (some { ServerName := body.map Char.ofNat })
        proxy.Err.ErrClosedPipe))

/-- A byte stream for that run: the record (header and `chatgpt.com`) in one segment,
followed by two more bytes in the same segment and a further segment. -/
def exampleTLSStream : proxy.Conn Nat :=
  { chunks := [[22, 3, 1, 0, 11, 99, 104, 97, 116, 103, 112, 116, 46, 99, 111, 109, 7, 8],
               [9, 10]] }

/-- What `PeekClientHello` has read from `exampleTLSStream` when it returns: the record,
without the two bytes that follow it in the first segment. -/
def exampleTLSPeeked : List Nat :=
  [22, 3, 1, 0, 11, 99, 104, 97, 116, 103, 112, 116, 46, 99, 111, 109]

/-- A proxy configuration for the suffix `.openai.com` resolving through `8.8.8.8:53`. -/
def exampleProxyConfig : proxy.Config :=
  { HTTPAddr := ":80".toList, HTTPSAddr := ":443".toList,
    AllowedSuffixes := [".openai.com".toList], ResolverDNS := "8.8.8.8:53".toList }

/-- The proxy built from that configuration. -/
def exampleProxy : proxy.Server :=
  proxy.New asciiToLower exampleProxyConfig

/-- A lookup on a machine whose system configuration names `127.0.0.1:53`, the DNS
responder of this process, as its name server: the library asks for a connection to it,
and gets the real address from `8.8.8.8:53` and the spoofed one, `192.0.2.1`, from
anywhere else. -/
def exampleLookupHost : Str → proxy.LookupRun := fun _ =>
  proxy.LookupRun.dial "udp".toList "127.0.0.1:53".toList (fun call =>
    if call.address = "8.8.8.8:53".toList then
      proxy.LookupRun.done (.ok ["104.18.33.45".toList])
    else proxy.LookupRun.done (.ok ["192.0.2.1".toList]))

/-- A world in which deadlines can be set, lookups run as in `exampleLookupHost` and every
dial succeeds. -/
def exampleWorld : proxy.World :=
  { setReadDeadline := none, clearReadDeadline := none,
    readMIMEHeader := exampleReadMIMEHeader 8, handshake := exampleHandshake,
    lookupHost := exampleLookupHost,
    dialTimeout := fun _ _ _ => none }

/-- The dial `exampleProxy` makes for every connection its resolver is asked for. -/
def exampleResolverDial : proxy.DialCall :=
  { timeout := 5 * dns.second, network := "udp".toList, address := "8.8.8.8:53".toList }

/-- An HTTP request for an allowed host written with a trailing dot. -/
def exampleTrailingDotStream : proxy.Conn Char :=
  { chunks := ["GET / HTTP/1.1\r\nHost: api.openai.com.\r\n\r\n".toList] }

/-- An HTTP request for a host outside the allow-list. -/
def exampleEvilStream : proxy.Conn Char :=
  { chunks := ["GET / HTTP/1.1\r\nHost: evil.example.com\r\n\r\n".toList] }

/-- An HTTP request whose request line has a fourth token. -/
def exampleFourTokenStream : proxy.Conn Char :=
  { chunks := ["GET / HTTP/1.1 extra\r\nHost: api.openai.com\r\n\r\n".toList] }

/-- An HTTP request line that the stream ends before terminating. -/
def exampleUnterminatedStream : proxy.Conn Char :=
  { chunks := ["GET / HTTP/1.1".toList] }

/-- A sink bound to `192.0.2.1:443` with the raw ICMP socket open. -/
def exampleSink : udpsink.Sink :=
  { localAddr := { IP := [192, 0, 2, 1], Port := 443 }, icmpConn := true,
    dropped := 0, icmpSent := 0 }

/-- A client address, `198.51.100.7:51000`, in the 16-byte form `ReadFromUDP` may return. -/
def exampleClient : udpsink.UDPAddr :=
  { IP := [0, 0, 0, 0, 0, 0, 0, 0, 0, 0, 0xff, 0xff, 198, 51, 100, 7], Port := 51000 }

/-- A twelve-byte datagram. -/
def exampleDatagram : List Nat := [192, 0, 0, 0, 1, 8, 1, 2, 3, 4, 5, 6]

/-- An ICMP socket on which every send fails. -/
def exampleSendFails : udpsink.ICMPMessage → IP → Option Str :=
  fun _ _ => some "sendto: operation not permitted".toList

/-! ## The suffix predicate in the words of the specification -/

/-- A name with its trailing dot removed (one dot, when the name ends with one). -/
def specStripTrailingDot (name : Str) : Str :=
  if name.getLast? = some '.' then name.dropLast else name

/-- A suffix with its leading dot removed (one dot, when the suffix starts with one). -/
def specStripLeadingDot : Str → Str
  | '.' :: rest => rest
  | s => s

/-! ## Strings: the slice arithmetic of the library against list notions -/

theorem HasSuffix_iff (s t : Str) : HasSuffix s t = true ↔ t <:+ s := by
  unfold HasSuffix
  simp only [Bool.and_eq_true, decide_eq_true_eq, beq_iff_eq]
  constructor
  · rintro ⟨_, h⟩
    rw [← h]
    exact List.drop_suffix _ _
  · rintro ⟨p, rfl⟩
    refine ⟨by simp, ?_⟩
    simp

theorem HasPrefix_iff (s t : Str) : HasPrefix s t = true ↔ t <+: s := by
  unfold HasPrefix
  simp only [Bool.and_eq_true, decide_eq_true_eq, beq_iff_eq]
  constructor
  · rintro ⟨_, h⟩
    rw [← h]
    exact List.take_prefix _ _
  · rintro ⟨p, rfl⟩
    refine ⟨by simp, ?_⟩
    simp

theorem TrimPrefix_dot (s : Str) : TrimPrefix s dot = specStripLeadingDot s := by
  unfold TrimPrefix
  cases s with
  | nil => simp [HasPrefix, dot, specStripLeadingDot]
  | cons c t =>
    by_cases hc : c = '.'
    · subst hc
      simp [HasPrefix, dot, specStripLeadingDot]
    · have : specStripLeadingDot (c :: t) = c :: t := by
        unfold specStripLeadingDot
        split
        · rename_i heq
          simp at heq
          exact absurd heq.1 hc
        · rfl
      rw [this]
      simp [HasPrefix, dot, hc]

theorem TrimSuffix_dot (s : Str) : TrimSuffix s dot = specStripTrailingDot s := by
  unfold TrimSuffix specStripTrailingDot
  have key : HasSuffix s dot = true ↔ s.getLast? = some '.' := by
    rw [HasSuffix_iff]
    constructor
    · rintro ⟨p, rfl⟩
      simp [dot]
    · intro h
      rw [List.getLast?_eq_some_iff] at h
      obtain ⟨p, rfl⟩ := h
      exact ⟨p, rfl⟩
  by_cases h : s.getLast? = some '.'
  · rw [if_pos (key.2 h), if_pos h]
    simp [dot, List.dropLast_eq_take]
  · rw [if_neg (fun hh => h (key.1 hh)), if_neg h]

theorem shouldSpoofLoop_iff (name : Str) (l : List Str) :
    dns.shouldSpoofLoop name l = true ↔
      ∃ S ∈ l, name = specStripLeadingDot S ∨ (dot ++ specStripLeadingDot S) <:+ name := by
  induction l with
  | nil => simp [dns.shouldSpoofLoop]
  | cons S rest ih =>
    simp only [dns.shouldSpoofLoop, List.mem_cons, exists_eq_or_imp, ← ih, TrimPrefix_dot]
    by_cases h : (name == specStripLeadingDot S ||
        HasSuffix name (dot ++ specStripLeadingDot S)) = true
    · rw [if_pos h]
      simp only [Bool.or_eq_true, beq_iff_eq, HasSuffix_iff] at h
      simp [h]
    · rw [if_neg h]
      simp only [Bool.or_eq_true, beq_iff_eq, HasSuffix_iff] at h
      simp [h]

theorem isAllowedLoop_eq (host : Str) (l : List Str) :
    proxy.isAllowedLoop host l = dns.shouldSpoofLoop host l := by
  induction l with
  | nil => rfl
  | cons S rest ih => simp only [proxy.isAllowedLoop, dns.shouldSpoofLoop, ih]

/-! ## C1 -/

/-- C1: `shouldSpoof(name)` holds exactly when some configured suffix `S` matches: with
`N` the name with its trailing dot removed and lower-cased and `S'` the suffix with its
leading dot removed, `N = S'` or `N` ends with `"." ++ S'`.  In particular
`notopenai.com` does not match the suffix `openai.com` (nor `.openai.com`). -/
theorem shouldSpoof_iff_suffix_match :
    (∀ (toLower : Char → Char) (s : dns.Server) (name : Str),
      s.shouldSpoof toLower name = true ↔
        ∃ S ∈ s.config.SpoofSuffixes,
          ToLower toLower (specStripTrailingDot name) = specStripLeadingDot S ∨
          (dot ++ specStripLeadingDot S) <:+ ToLower toLower (specStripTrailingDot name)) ∧
    (dns.New asciiToLower { SpoofSuffixes := ["openai.com".toList] }).shouldSpoof
      asciiToLower "notopenai.com".toList = false ∧
    (dns.New asciiToLower { SpoofSuffixes := [".openai.com".toList] }).shouldSpoof
      asciiToLower "notopenai.com".toList = false := by
  refine ⟨?_, by decide, by decide⟩
  intro toLower s name
  unfold dns.Server.shouldSpoof
  simp only [shouldSpoofLoop_iff, TrimSuffix_dot]

/-! ## C4 -/

theorem proxy_New_resolver (toLower : Char → Char) (cfg : proxy.Config) :
    (proxy.New toLower cfg).resolver =
      proxy.NewResolver cfg.ResolverDNS
        (if cfg.DialTimeout = 0 then 5 * dns.second else cfg.DialTimeout) := by
  unfold proxy.New
  by_cases h1 : cfg.DialTimeout = 0 <;> by_cases h2 : cfg.PeekTimeout = 0 <;> simp [h1, h2]

/-- Every dial of a lookup goes through the `Dial` hook: with a hook that always performs
the same dial, a lookup performs no other. -/
theorem LookupHost_dials (resolver : proxy.Resolver) (fixed : proxy.DialCall)
    (hd : ∀ network address, resolver.Dial network address = fixed) (run : proxy.LookupRun) :
    ∀ call ∈ (resolver.LookupHost run).1, call = fixed := by
  induction run with
  | done result =>
    intro call hc
    simp [proxy.Resolver.LookupHost] at hc
  | dial network server next ih =>
    intro call hc
    simp only [proxy.Resolver.LookupHost, List.mem_cons] at hc
    rcases hc with rfl | hc
    · exact hd _ _
    · exact ih _ _ hc

/-- The resolver dials among the events after the peek are those of `ResolveHost` with the
resolver of the server. -/
theorem handlePeeked_resolverDial (toLower : Char → Char) (s : proxy.Server)
    (world : proxy.World) (host port : Str) (call : proxy.DialCall)
    (he : proxy.ConnEvent.resolverDial call ∈ proxy.handlePeeked toLower s world host port) :
    call ∈ (proxy.ResolveHost s.resolver world.lookupHost host).1 := by
  unfold proxy.handlePeeked at he
  rw [List.mem_cons] at he
  rcases he with he | he
  · cases he
  · cases hclear : world.clearReadDeadline with
    | some err =>
      rw [hclear] at he
      simp at he
    | none =>
      rw [hclear] at he
      by_cases hallow : s.isAllowed toLower host = true
      · simp only [hallow, Bool.not_true, Bool.false_eq_true, if_false, List.mem_cons,
          List.mem_append, List.mem_map] at he
        rcases he with he | he | he
        · cases he
        · obtain ⟨c, hc, hcc⟩ := he
          cases hcc
          exact hc
        · cases hres : (proxy.ResolveHost s.resolver world.lookupHost host).2 with
          | error err =>
            rw [hres] at he
            simp at he
          | ok ip =>
            rw [hres] at he
            simp only [List.mem_cons] at he
            rcases he with he | he | he
            · cases he
            · cases he
            · split at he <;> simp at he
      · simp [hallow] at he

/-- The resolver dials among the events of `handleConnection` are those of `ResolveHost`
with the resolver of the server, for some host. -/
theorem handleConnection_resolverDial (toLower : Char → Char) (s : proxy.Server)
    (world : proxy.World) (accepted : proxy.Accepted) (call : proxy.DialCall)
    (he : proxy.ConnEvent.resolverDial call ∈ s.handleConnection toLower world accepted) :
    ∃ host, call ∈ (proxy.ResolveHost s.resolver world.lookupHost host).1 := by
  unfold proxy.Server.handleConnection at he
  rw [List.mem_append] at he
  rcases he with he | he
  · rw [List.mem_cons] at he
    rcases he with he | he
    · cases he
    · cases hset : world.setReadDeadline with
      | some err =>
        rw [hset] at he
        simp at he
      | none =>
        rw [hset] at he
        cases accepted with
        | https clientConn =>
          simp only at he
          cases hpeek : proxy.PeekClientHello world.handshake clientConn with
          | error err =>
            rw [hpeek] at he
            simp at he
          | ok res =>
            obtain ⟨hello, rd⟩ := res
            rw [hpeek] at he
            simp only [List.mem_cons] at he
            rcases he with he | he
            · cases he
            · exact ⟨hello.ServerName, handlePeeked_resolverDial _ _ _ _ _ _ he⟩
        | http clientConn =>
          simp only at he
          cases hpeek : proxy.PeekHTTPHost world.readMIMEHeader clientConn with
          | error err =>
            rw [hpeek] at he
            simp at he
          | ok res =>
            obtain ⟨httpHost, rd⟩ := res
            rw [hpeek] at he
            simp only [List.mem_cons] at he
            rcases he with he | he
            · cases he
            · exact ⟨httpHost, handlePeeked_resolverDial _ _ _ _ _ _ he⟩
  · simp at he

/-- C4: the `Dial` hook of the resolver built by `NewResolver(dnsServer, timeout)` dials
network `udp` and endpoint `dnsServer` whatever network and address it is asked for, and
`proxy.New` installs exactly this resolver for `ResolverDNS`.  Hence every dial that
`ResolveHost` makes through such a resolver is that one dial, whatever name servers the
resolver library asks for, and every resolver dial in a run of `handleConnection` of a
server built by `proxy.New` goes to network `udp` and endpoint `ResolverDNS`: to no
address the library took from the system configuration, the local DNS responder
included. -/
theorem NewResolver_dials_only_dnsServer :
    (∀ (dnsServer : Str) (timeout : Nat) (network address : Str),
      (proxy.NewResolver dnsServer timeout).Dial network address =
        { timeout := timeout, network := "udp".toList, address := dnsServer }) ∧
    (∀ (dnsServer : Str) (timeout : Nat), (proxy.NewResolver dnsServer timeout).PreferGo = true) ∧
    (∀ (toLower : Char → Char) (cfg : proxy.Config) (network address : Str),
      ((proxy.New toLower cfg).resolver.Dial network address).network = "udp".toList ∧
      ((proxy.New toLower cfg).resolver.Dial network address).address = cfg.ResolverDNS) ∧
    (∀ (dnsServer : Str) (timeout : Nat) (lookupHost : Str → proxy.LookupRun) (host : Str),
      ∀ call ∈ (proxy.ResolveHost (proxy.NewResolver dnsServer timeout) lookupHost host).1,
        call = { timeout := timeout, network := "udp".toList, address := dnsServer }) ∧
    (∀ (toLower : Char → Char) (cfg : proxy.Config) (world : proxy.World)
      (accepted : proxy.Accepted) (call : proxy.DialCall),
      proxy.ConnEvent.resolverDial call ∈
        (proxy.New toLower cfg).handleConnection toLower world accepted →
      call.network = "udp".toList ∧ call.address = cfg.ResolverDNS) := by
  have h4 : ∀ (dnsServer : Str) (timeout : Nat) (lookupHost : Str → proxy.LookupRun)
      (host : Str),
      ∀ call ∈ (proxy.ResolveHost (proxy.NewResolver dnsServer timeout) lookupHost host).1,
        call = { timeout := timeout, network := "udp".toList, address := dnsServer } := by
    intro dnsServer timeout lookupHost host call hc
    exact LookupHost_dials _ _ (fun _ _ => rfl) (lookupHost host) call hc
  refine ⟨fun _ _ _ _ => rfl, fun _ _ => rfl, ?_, h4, ?_⟩
  · intro toLower cfg network address
    rw [proxy_New_resolver]
    exact ⟨rfl, rfl⟩
  · intro toLower cfg world accepted call he
    obtain ⟨host, hc⟩ := handleConnection_resolverDial _ _ _ _ _ he
    rw [proxy_New_resolver] at hc
    rw [h4 _ _ _ _ call hc]
    exact ⟨rfl, rfl⟩

theorem NewResolver_dials_only_dnsServer_witness :
    exampleProxy.handleConnection asciiToLower exampleWorld (.http exampleHTTPStream) =
      [proxy.ConnEvent.setReadDeadline (5 * dns.second),
       proxy.ConnEvent.logHTTPConnection "api.openai.com".toList,
       proxy.ConnEvent.clearReadDeadline,
       proxy.ConnEvent.resolveHost "api.openai.com".toList,
       proxy.ConnEvent.resolverDial exampleResolverDial,
       proxy.ConnEvent.logConnecting "104.18.33.45:80".toList "api.openai.com".toList,
       proxy.ConnEvent.dial "tcp".toList "104.18.33.45:80".toList (5 * dns.second),
       proxy.ConnEvent.logTunnelEstablished "104.18.33.45:80".toList "api.openai.com".toList,
       proxy.ConnEvent.tunnel "104.18.33.45:80".toList,
       proxy.ConnEvent.logTunnelClosed "104.18.33.45:80".toList,
       proxy.ConnEvent.closeBackend,
       proxy.ConnEvent.closeClient] ∧
    exampleResolverDial.network = "udp".toList ∧
    exampleResolverDial.address = exampleProxyConfig.ResolverDNS :=
  ⟨by decide,
   NewResolver_dials_only_dnsServer.2.2.2.2 asciiToLower exampleProxyConfig exampleWorld
     (.http exampleHTTPStream) exampleResolverDial (by decide)⟩

/-! ## C5 -/

theorem dns_New_suffixes (toLower : Char → Char) (cfg : dns.Config) :
    (dns.New toLower cfg).config.SpoofSuffixes = cfg.SpoofSuffixes.map (ToLower toLower) := by
  unfold dns.New
  by_cases h : cfg.UpstreamTimeout = 0 <;> simp [h]

theorem proxy_New_suffixes (toLower : Char → Char) (cfg : proxy.Config) :
    (proxy.New toLower cfg).config.AllowedSuffixes =
      cfg.AllowedSuffixes.map (ToLower toLower) := by
  unfold proxy.New
  by_cases h1 : cfg.DialTimeout = 0 <;> by_cases h2 : cfg.PeekTimeout = 0 <;> simp [h1, h2]

theorem specStripTrailingDot_of_ne (host : Str) (h : host.getLast? ≠ some '.') :
    specStripTrailingDot host = host := by
  unfold specStripTrailingDot
  rw [if_neg h]

theorem specStripTrailingDot_append_dot (host : Str) :
    specStripTrailingDot (host ++ dot) = host := by
  unfold specStripTrailingDot
  simp [dot]

/-- The relation between the two checks: for servers built by `New` from the same suffix
list, `isAllowed(host)` equals `shouldSpoof` of the host followed by one dot, and equals
`shouldSpoof(host)` for a host that does not end with a dot. -/
theorem isAllowed_eq_shouldSpoof_of_no_trailing_dot (toLower : Char → Char)
    (pc : proxy.Config) (dc : dns.Config) (host : Str)
    (hs : pc.AllowedSuffixes = dc.SpoofSuffixes) :
    (host.getLast? ≠ some '.' →
      (proxy.New toLower pc).isAllowed toLower host =
        (dns.New toLower dc).shouldSpoof toLower host) ∧
    (proxy.New toLower pc).isAllowed toLower host =
      (dns.New toLower dc).shouldSpoof toLower (host ++ dot) := by
  have h2 : (proxy.New toLower pc).isAllowed toLower host =
      (dns.New toLower dc).shouldSpoof toLower (host ++ dot) := by
    unfold proxy.Server.isAllowed dns.Server.shouldSpoof
    simp only [isAllowedLoop_eq, proxy_New_suffixes, dns_New_suffixes, hs, TrimSuffix_dot,
      specStripTrailingDot_append_dot]
  refine ⟨fun h => ?_, h2⟩
  unfold proxy.Server.isAllowed dns.Server.shouldSpoof
  simp only [isAllowedLoop_eq, proxy_New_suffixes, dns_New_suffixes, hs, TrimSuffix_dot,
    specStripTrailingDot_of_ne host h]

/-- C5: the code breaks the claim on a host written with a trailing dot.  Built from the
same suffix list `[".openai.com"]`, the DNS responder spoofs `api.openai.com.` while
`isAllowed` of the proxy rejects it, although it accepts `api.openai.com`; an HTTP request
with `Host: api.openai.com.` reaches that check, and the proxy logs the refusal and
closes the client without resolving or dialling. -/
theorem isAllowed_differs_on_trailing_dot :
    (proxy.New asciiToLower { AllowedSuffixes := [".openai.com".toList] }).isAllowed
        asciiToLower "api.openai.com.".toList = false ∧
    (dns.New asciiToLower { SpoofSuffixes := [".openai.com".toList] }).shouldSpoof
        asciiToLower "api.openai.com.".toList = true ∧
    (proxy.New asciiToLower { AllowedSuffixes := [".openai.com".toList] }).isAllowed
        asciiToLower "api.openai.com".toList = true ∧
    (proxy.New asciiToLower exampleProxyConfig).handleConnection asciiToLower exampleWorld
        (.http exampleTrailingDotStream) =
      [proxy.ConnEvent.setReadDeadline (5 * dns.second),
       proxy.ConnEvent.logHTTPConnection "api.openai.com.".toList,
       proxy.ConnEvent.clearReadDeadline,
       proxy.ConnEvent.logHostNotAllowed "api.openai.com.".toList,
       proxy.ConnEvent.closeClient] := by
  decide

/-! ## The responder: traces of `forwardToUpstream` and `handleRequest` -/

section traces
open dns

theorem writes_append (a b : List Event) : writes (a ++ b) = writes a ++ writes b := by
  induction a with
  | nil => rfl
  | cons e t ih => cases e <;> simp [writes, ih]

theorem exchanges_append (a b : List Event) :
    exchanges (a ++ b) = exchanges a ++ exchanges b := by
  induction a with
  | nil => rfl
  | cons e t ih => cases e <;> simp [exchanges, ih]

theorem forwarded_append (a b : List Event) :
    forwarded (a ++ b) = forwarded a ++ forwarded b := by
  induction a with
  | nil => rfl
  | cons e t ih => cases e <;> simp [forwarded, ih]

theorem queried_append (a b : List Event) : queried (a ++ b) = queried a ++ queried b := by
  induction a with
  | nil => rfl
  | cons e t ih => cases e <;> simp [queried, ih]

theorem writes_of_logs (l : List Event) (h : ∀ e ∈ l, e.isLog = true) : writes l = [] := by
  induction l with
  | nil => rfl
  | cons e t ih =>
    have he := h e (List.mem_cons_self _ _)
    have ht := ih (fun x hx => h x (List.mem_cons_of_mem _ hx))
    cases e <;> simp_all [writes, Event.isLog]

theorem exchanges_of_logs (l : List Event) (h : ∀ e ∈ l, e.isLog = true) :
    exchanges l = [] := by
  induction l with
  | nil => rfl
  | cons e t ih =>
    have he := h e (List.mem_cons_self _ _)
    have ht := ih (fun x hx => h x (List.mem_cons_of_mem _ hx))
    cases e <;> simp_all [exchanges, Event.isLog]

theorem forwarded_of_logs (l : List Event) (h : ∀ e ∈ l, e.isLog = true) :
    forwarded l = [] := by
  induction l with
  | nil => rfl
  | cons e t ih =>
    have he := h e (List.mem_cons_self _ _)
    have ht := ih (fun x hx => h x (List.mem_cons_of_mem _ hx))
    cases e <;> simp_all [forwarded, Event.isLog]

/-- The forwarding loop never calls `forwardToUpstream` again and examines no question. -/
theorem forwardLoop_forwarded_queried (ex : Exchange) (w : ResponseWriter) (r : Msg)
    (ups : List Str) : ∀ (n : Nat) (lastErr : Option Str),
      forwarded (forwardLoop ex w r n lastErr ups) = [] ∧
      queried (forwardLoop ex w r n lastErr ups) = [] := by
  induction ups with
  | nil =>
    intro n lastErr
    simp only [forwardLoop]
    split <;> simp [forwarded, queried]
  | cons u rest ih =>
    intro n lastErr
    simp only [forwardLoop]
    cases hex : ex n r u with
    | error err => simp [forwarded, queried, ih]
    | ok resp => simp only [forwarded, queried]; split <;> simp [forwarded, queried]

theorem forwardToUpstream_forwarded (s : Server) (ex : Exchange) (w : ResponseWriter)
    (r : Msg) : forwarded (s.forwardToUpstream ex w r) = [r] := by
  simp [Server.forwardToUpstream, forwarded, (forwardLoop_forwarded_queried ex w r _ 0 none).1]

theorem forwardToUpstream_queried (s : Server) (ex : Exchange) (w : ResponseWriter)
    (r : Msg) : queried (s.forwardToUpstream ex w r) = [] := by
  simp [Server.forwardToUpstream, queried, (forwardLoop_forwarded_queried ex w r _ 0 none).2]

theorem appendAnswers_appendAnswer (m : Msg) (rr : RR) (l : List RR) :
    (m.appendAnswer rr).appendAnswers l = m.appendAnswers (rr :: l) := by
  simp [Msg.appendAnswer, Msg.appendAnswers]

theorem appendAnswers_nil (m : Msg) : m.appendAnswers [] = m := by
  simp [Msg.appendAnswers]

/-- When every remaining question is answered locally the loop writes exactly one message,
the reply under construction extended by the prescribed answers, and forwards nothing. -/
theorem handleLoop_local (toLower : Char → Char) (s : Server) (ex : Exchange)
    (w : ResponseWriter) (r : Msg) (qs : List Question) :
    ∀ (m : Msg), (∀ q ∈ qs, answeredLocally toLower s q = true) →
      writes (handleLoop toLower s ex w r qs m) = [m.appendAnswers (specAnswers s qs)] ∧
      forwarded (handleLoop toLower s ex w r qs m) = [] ∧
      exchanges (handleLoop toLower s ex w r qs m) = [] ∧
      queried (handleLoop toLower s ex w r qs m) = qs.map (fun q => (q.Name, q.Qtype)) := by
  induction qs with
  | nil =>
    intro m _
    simp only [handleLoop, specAnswers, appendAnswers_nil, List.map_nil]
    split <;> simp [writes, forwarded, exchanges, queried]
  | cons q rest ih =>
    intro m h
    have hq := h q (List.mem_cons_self _ _)
    have hrest : ∀ x ∈ rest, answeredLocally toLower s x = true :=
      fun x hx => h x (List.mem_cons_of_mem _ hx)
    simp only [answeredLocally, Bool.and_eq_true, Bool.or_eq_true, beq_iff_eq] at hq
    obtain ⟨hs, hty⟩ := hq
    simp only [handleLoop, hs, if_true]
    by_cases hA : q.Qtype = TypeA
    · simp only [hA, if_true]
      obtain ⟨h1, h2, h3, h4⟩ := ih (m.appendAnswer (specARecord s q)) hrest
      simp only [specARecord] at h1 h2 h3 h4
      simp [writes, forwarded, exchanges, queried, h1, h2, h3, h4, specAnswers, hA,
        specARecord, appendAnswers_appendAnswer]
    · have h4A : q.Qtype = TypeAAAA := hty.resolve_left hA
      have hne : TypeAAAA ≠ TypeA := by decide
      simp only [h4A, hne, if_false, if_true]
      obtain ⟨h1, h2, h3, h4⟩ := ih
        (match s.config.SpoofIP.To16, s.config.SpoofIP.To4 with
          | some ip6, none => m.appendAnswer (specAAAARecord q ip6)
          | _, _ => m) hrest
      simp only [specAAAARecord] at h1 h2 h3 h4
      simp only [writes, forwarded, exchanges, queried, h1, h2, h3, h4, specAnswers, h4A,
        hne, if_false, specAAAARecord, List.map_cons, true_and, and_true]
      cases s.config.SpoofIP.To16 <;> cases s.config.SpoofIP.To4 <;>
        simp [appendAnswers_appendAnswer]

/-- When the first question that is not answered locally is reached, the loop has only
logged, and it goes on exactly as `forwardToUpstream(w, r)`. -/
theorem handleLoop_forward (toLower : Char → Char) (s : Server) (ex : Exchange)
    (w : ResponseWriter) (r : Msg) (pre : List Question) (q : Question)
    (post : List Question) (hq : answeredLocally toLower s q = false) :
    ∀ (m : Msg), (∀ x ∈ pre, answeredLocally toLower s x = true) →
      ∃ logs : List Event,
        handleLoop toLower s ex w r (pre ++ q :: post) m =
          logs ++ s.forwardToUpstream ex w r ∧
        (∀ e ∈ logs, e.isLog = true) ∧
        queried logs = (pre ++ [q]).map (fun x => (x.Name, x.Qtype)) := by
  induction pre with
  | nil =>
    intro m _
    refine ⟨[Event.logQuery q.Name q.Qtype], ?_, by simp [Event.isLog], by simp [queried]⟩
    simp only [List.nil_append, handleLoop, List.singleton_append, List.cons.injEq, true_and]
    simp only [answeredLocally, Bool.and_eq_false_iff, Bool.or_eq_false_iff,
      beq_eq_false_iff_ne, ne_eq] at hq
    by_cases hs : s.shouldSpoof toLower q.Name = true
    · have hty := hq.resolve_left (by simp [hs])
      simp [hs, hty.1, hty.2]
    · simp [hs]
  | cons x rest ih =>
    intro m h
    have hx := h x (List.mem_cons_self _ _)
    have hrest : ∀ y ∈ rest, answeredLocally toLower s y = true :=
      fun y hy => h y (List.mem_cons_of_mem _ hy)
    simp only [answeredLocally, Bool.and_eq_true, Bool.or_eq_true, beq_iff_eq] at hx
    obtain ⟨hs, hty⟩ := hx
    simp only [List.cons_append, handleLoop, hs, if_true]
    by_cases hA : x.Qtype = TypeA
    · simp only [hA, if_true]
      obtain ⟨logs, h1, h2, h3⟩ := ih (m.appendAnswer (specARecord s x)) hrest
      simp only [specARecord] at h1
      refine ⟨Event.logQuery x.Name TypeA :: Event.logSpoofing x.Name s.config.SpoofIP :: logs,
        ?_, ?_, ?_⟩
      · simp [h1]
      · intro e he
        simp only [List.mem_cons] at he
        rcases he with rfl | rfl | he
        · rfl
        · rfl
        · exact h2 e he
      · simp [queried, h3, hA]
    · have h4A : x.Qtype = TypeAAAA := hty.resolve_left hA
      have hne : TypeAAAA ≠ TypeA := by decide
      simp only [h4A, hne, if_false, if_true]
      obtain ⟨logs, h1, h2, h3⟩ := ih
        (match s.config.SpoofIP.To16, s.config.SpoofIP.To4 with
          | some ip6, none => m.appendAnswer (specAAAARecord x ip6)
          | _, _ => m) hrest
      simp only [specAAAARecord] at h1
      refine ⟨Event.logQuery x.Name TypeAAAA :: Event.logSpoofingAAAA x.Name :: logs,
        ?_, ?_, ?_⟩
      · simp [h1]
      · intro e he
        simp only [List.mem_cons] at he
        rcases he with rfl | rfl | he
        · rfl
        · rfl
        · exact h2 e he
      · simp [queried, h3, h4A]

/-- A list on which a Boolean test is not everywhere true splits at the first element
failing it. -/
theorem exists_first_failing {α : Type} (p : α → Bool) (l : List α)
    (h : ¬ ∀ x ∈ l, p x = true) :
    ∃ pre q post, l = pre ++ q :: post ∧ (∀ x ∈ pre, p x = true) ∧ p q = false := by
  induction l with
  | nil => exact absurd (fun x hx => absurd hx (List.not_mem_nil x)) h
  | cons a t ih =>
    by_cases ha : p a = true
    · have ht : ¬ ∀ x ∈ t, p x = true := by
        intro hall
        apply h
        intro x hx
        rcases List.mem_cons.1 hx with rfl | hx
        · exact ha
        · exact hall x hx
      obtain ⟨pre, q, post, h1, h2, h3⟩ := ih ht
      refine ⟨a :: pre, q, post, by simp [h1], ?_, h3⟩
      intro x hx
      rcases List.mem_cons.1 hx with rfl | hx
      · exact ha
      · exact h2 x hx
    · exact ⟨[], a, t, rfl, by simp, by simpa using ha⟩

/-- The reply `handleRequest` starts from: `SetReply(r)` with `Authoritative = false`. -/
theorem initial_reply_fields (r : Msg) (l : List RR) :
    let m := Msg.appendAnswers { ({} : Msg).SetReply r with Authoritative := false } l
    m.Answer = l ∧ m.Authoritative = false ∧ m.Rcode = RcodeSuccess ∧ m.Id = r.Id ∧
      m.Question = r.Question.take 1 ∧ m.RecursionAvailable = false ∧ m.Response = true := by
  unfold Msg.SetReply Msg.appendAnswers
  cases r.Question <;> by_cases h : r.Opcode = OpcodeQuery <;> simp [h]

/-- The trace of `handleRequest` when every question is answered locally. -/
theorem handleRequest_local (toLower : Char → Char) (s : Server) (ex : Exchange)
    (w : ResponseWriter) (r : Msg)
    (h : ∀ q ∈ r.Question, answeredLocally toLower s q = true) :
    (∃ m : Msg, writes (s.handleRequest toLower ex w r) = [m] ∧
      m.Answer = specAnswers s r.Question ∧ m.Authoritative = false ∧
      m.Rcode = RcodeSuccess ∧ m.Id = r.Id ∧ m.Question = r.Question.take 1 ∧
      m.RecursionAvailable = false ∧ m.Response = true) ∧
    forwarded (s.handleRequest toLower ex w r) = [] ∧
    exchanges (s.handleRequest toLower ex w r) = [] ∧
    queried (s.handleRequest toLower ex w r) = r.Question.map (fun q => (q.Name, q.Qtype)) := by
  obtain ⟨h1, h2, h3, h4⟩ := handleLoop_local toLower s ex w r r.Question
    { ({} : Msg).SetReply r with Authoritative := false } h
  exact ⟨⟨_, h1, initial_reply_fields r _⟩, h2, h3, h4⟩

/-- The trace of `handleRequest` when some question is not answered locally. -/
theorem handleRequest_forward (toLower : Char → Char) (s : Server) (ex : Exchange)
    (w : ResponseWriter) (r : Msg) (pre : List Question) (q : Question)
    (post : List Question) (hr : r.Question = pre ++ q :: post)
    (hpre : ∀ x ∈ pre, answeredLocally toLower s x = true)
    (hq : answeredLocally toLower s q = false) :
    ∃ logs : List Event,
      s.handleRequest toLower ex w r = logs ++ s.forwardToUpstream ex w r ∧
      (∀ e ∈ logs, e.isLog = true) ∧
      queried logs = (pre ++ [q]).map (fun x => (x.Name, x.Qtype)) := by
  unfold Server.handleRequest
  rw [hr]
  exact handleLoop_forward toLower s ex w r pre q post hq _ hpre

theorem mem_specAnswers (s : Server) (qs : List Question) (rr : RR)
    (h : rr ∈ specAnswers s qs) : ∃ q ∈ qs, rr.Header.Name = q.Name := by
  induction qs with
  | nil => simp [specAnswers] at h
  | cons q rest ih =>
    simp only [specAnswers, List.mem_append] at h
    rcases h with h | h
    · refine ⟨q, List.mem_cons_self _ _, ?_⟩
      by_cases hA : q.Qtype = TypeA
      · simp only [hA, if_true, List.mem_singleton] at h
        subst h
        rfl
      · simp only [hA, if_false] at h
        split at h
        · simp only [List.mem_singleton] at h
          subst h
          rfl
        · simp at h
    · obtain ⟨x, hx, hn⟩ := ih h
      exact ⟨x, List.mem_cons_of_mem _ hx, hn⟩

theorem specAnswers_all_A (s : Server) (qs : List Question)
    (h : ∀ q ∈ qs, q.Qtype = TypeA) : specAnswers s qs = qs.map (specARecord s) := by
  induction qs with
  | nil => rfl
  | cons q rest ih =>
    have hq := h q (List.mem_cons_self _ _)
    simp [specAnswers, hq, ih (fun x hx => h x (List.mem_cons_of_mem _ hx))]

/-- When every exchange fails, the forwarding loop tries every upstream in order and then
writes the SERVFAIL message built by `SetRcode`. -/
theorem forwardLoop_all_fail (ex : Exchange) (w : ResponseWriter) (r : Msg)
    (ups : List Str) : ∀ (n : Nat) (lastErr : Option Str),
      (∀ i u, ups[i]? = some u → ∃ e, ex (n + i) r u = Except.error e) →
      writes (forwardLoop ex w r n lastErr ups) =
        [({} : Msg).SetRcode r RcodeServerFailure] ∧
      exchanges (forwardLoop ex w r n lastErr ups) = ups.map (fun u => (r, u)) := by
  induction ups with
  | nil =>
    intro n lastErr _
    simp only [forwardLoop]
    split <;> simp [writes, exchanges]
  | cons u rest ih =>
    intro n lastErr h
    obtain ⟨e, he⟩ := h 0 u (by simp)
    simp only [Nat.add_zero] at he
    have hrest : ∀ i v, rest[i]? = some v → ∃ e, ex (n + 1 + i) r v = Except.error e := by
      intro i v hv
      have := h (i + 1) v (by simpa using hv)
      rwa [show n + (i + 1) = n + 1 + i by omega] at this
    obtain ⟨h1, h2⟩ := ih (n + 1) (some e) hrest
    simp [forwardLoop, he, writes, exchanges, h1, h2]

/-- When the exchange with the upstream at position `i` is the first to succeed, the
forwarding loop tries the upstreams up to and including that one, and writes its response
and nothing else. -/
theorem forwardLoop_first_ok (ex : Exchange) (w : ResponseWriter) (r : Msg)
    (ups : List Str) : ∀ (n : Nat) (lastErr : Option Str) (i : Nat) (u : Str) (resp : Msg),
      ups[i]? = some u → ex (n + i) r u = Except.ok resp →
      (∀ j v, j < i → ups[j]? = some v → ∃ e, ex (n + j) r v = Except.error e) →
      writes (forwardLoop ex w r n lastErr ups) = [resp] ∧
      exchanges (forwardLoop ex w r n lastErr ups) =
        (ups.take (i + 1)).map (fun u => (r, u)) := by
  induction ups with
  | nil =>
    intro n lastErr i u resp hu
    simp at hu
  | cons v rest ih =>
    intro n lastErr i u resp hu hok hfail
    cases i with
    | zero =>
      simp only [List.getElem?_cons_zero, Option.some.injEq] at hu
      subst hu
      simp only [Nat.add_zero] at hok
      simp only [forwardLoop, hok]
      split <;> simp [writes, exchanges]
    | succ k =>
      obtain ⟨e, he⟩ := hfail 0 v (Nat.succ_pos k) (by simp)
      simp only [Nat.add_zero] at he
      have hu2 : rest[k]? = some u := by simpa using hu
      have hok2 : ex (n + 1 + k) r u = Except.ok resp := by
        rwa [show n + 1 + k = n + (k + 1) by omega]
      have hfail2 : ∀ j x, j < k → rest[j]? = some x →
          ∃ e, ex (n + 1 + j) r x = Except.error e := by
        intro j x hj hx
        have := hfail (j + 1) x (by omega) (by simpa using hx)
        rwa [show n + (j + 1) = n + 1 + j by omega] at this
      obtain ⟨h1, h2⟩ := ih (n + 1) (some e) k u resp hu2 hok2 hfail2
      simp [forwardLoop, he, writes, exchanges, h1, h2]

theorem SetRcode_fields (r : Msg) (rcode : Nat) :
    (({} : Msg).SetRcode r rcode).Rcode = rcode ∧
    (({} : Msg).SetRcode r rcode).Id = r.Id ∧
    (({} : Msg).SetRcode r rcode).Question = r.Question.take 1 ∧
    (({} : Msg).SetRcode r rcode).Answer = [] := by
  unfold Msg.SetRcode Msg.SetReply
  cases r.Question <;> by_cases h : r.Opcode = OpcodeQuery <;> simp [h]

end traces

/-! ## C2 -/

/-- C2: whenever `handleRequest` writes a locally built reply instead of forwarding (no call
of `forwardToUpstream`), every answer record of the written message is owned by the name
of a question of the request for which `shouldSpoof` holds. -/
theorem local_reply_answers_only_spoofed_names (toLower : Char → Char) (s : dns.Server)
    (ex : dns.Exchange) (w : dns.ResponseWriter) (r m : dns.Msg)
    (hlocal : dns.forwarded (s.handleRequest toLower ex w r) = [])
    (hm : m ∈ dns.writes (s.handleRequest toLower ex w r)) :
    ∀ rr ∈ m.Answer, ∃ q ∈ r.Question,
      rr.Header.Name = q.Name ∧ s.shouldSpoof toLower q.Name = true := by
  by_cases hall : ∀ q ∈ r.Question, answeredLocally toLower s q = true
  · obtain ⟨⟨m0, hw, hans, _⟩, _⟩ := handleRequest_local toLower s ex w r hall
    rw [hw, List.mem_singleton] at hm
    subst hm
    intro rr hrr
    rw [hans] at hrr
    obtain ⟨q, hq, hn⟩ := mem_specAnswers s r.Question rr hrr
    have := hall q hq
    simp only [answeredLocally, Bool.and_eq_true] at this
    exact ⟨q, hq, hn, this.1⟩
  · obtain ⟨pre, q, post, hr, hpre, hq⟩ := exists_first_failing _ _ hall
    obtain ⟨logs, ht, hlogs, _⟩ := handleRequest_forward toLower s ex w r pre q post hr hpre hq
    rw [ht, forwarded_append, forwardToUpstream_forwarded] at hlocal
    simp at hlocal

theorem local_reply_answers_only_spoofed_names_witness :
    ∃ q ∈ (exampleQuery [exampleQuestion "api.openai.com." dns.TypeA]).Question,
      (specARecord exampleServer (exampleQuestion "api.openai.com." dns.TypeA)).Header.Name =
        q.Name ∧
      exampleServer.shouldSpoof asciiToLower q.Name = true :=
  local_reply_answers_only_spoofed_names asciiToLower exampleServer exampleAllFail
    exampleWriter (exampleQuery [exampleQuestion "api.openai.com." dns.TypeA])
    { Id := 4242, Response := true, RecursionDesired := true,
      Question := [exampleQuestion "api.openai.com." dns.TypeA],
      Answer := [specARecord exampleServer (exampleQuestion "api.openai.com." dns.TypeA)] }
    (by decide) (by decide)
    (specARecord exampleServer (exampleQuestion "api.openai.com." dns.TypeA))
    (List.mem_singleton.2 rfl)

/-! ## C3 -/

/-- C3: `handleRequest` answers locally (never calls `forwardToUpstream`) exactly when every
question of the request matches the suffix predicate and has type A or AAAA; it then
makes no upstream exchange and writes one message holding the prescribed answers.
Otherwise, at the first question `q` that fails, after questions `pre` that pass, the
handler has only logged and continues exactly as `forwardToUpstream(w, r)` with the
original message `r`: the questions examined are `pre` and `q` only, and what is written
and exchanged is what `forwardToUpstream(w, r)` writes and exchanges. -/
theorem handleRequest_forges_iff_all_answered_locally (toLower : Char → Char)
    (s : dns.Server) (ex : dns.Exchange) (w : dns.ResponseWriter) (r : dns.Msg) :
    (dns.forwarded (s.handleRequest toLower ex w r) = [] ↔
      ∀ q ∈ r.Question, s.shouldSpoof toLower q.Name = true ∧
        (q.Qtype = dns.TypeA ∨ q.Qtype = dns.TypeAAAA)) ∧
    ((∀ q ∈ r.Question, s.shouldSpoof toLower q.Name = true ∧
        (q.Qtype = dns.TypeA ∨ q.Qtype = dns.TypeAAAA)) →
      dns.exchanges (s.handleRequest toLower ex w r) = [] ∧
      dns.queried (s.handleRequest toLower ex w r) =
        r.Question.map (fun q => (q.Name, q.Qtype)) ∧
      ∃ m : dns.Msg, dns.writes (s.handleRequest toLower ex w r) = [m] ∧
        m.Answer = specAnswers s r.Question) ∧
    (∀ (pre : List dns.Question) (q : dns.Question) (post : List dns.Question),
      r.Question = pre ++ q :: post →
      (∀ x ∈ pre, s.shouldSpoof toLower x.Name = true ∧
        (x.Qtype = dns.TypeA ∨ x.Qtype = dns.TypeAAAA)) →
      ¬ (s.shouldSpoof toLower q.Name = true ∧
        (q.Qtype = dns.TypeA ∨ q.Qtype = dns.TypeAAAA)) →
      ∃ logs : List dns.Event,
        s.handleRequest toLower ex w r = logs ++ s.forwardToUpstream ex w r ∧
        (∀ e ∈ logs, e.isLog = true) ∧
        dns.forwarded (s.handleRequest toLower ex w r) = [r] ∧
        dns.queried (s.handleRequest toLower ex w r) =
          (pre ++ [q]).map (fun x => (x.Name, x.Qtype)) ∧
        dns.writes (s.handleRequest toLower ex w r) =
          dns.writes (s.forwardToUpstream ex w r) ∧
        dns.exchanges (s.handleRequest toLower ex w r) =
          dns.exchanges (s.forwardToUpstream ex w r)) := by
  have key : ∀ q : dns.Question, (s.shouldSpoof toLower q.Name = true ∧
      (q.Qtype = dns.TypeA ∨ q.Qtype = dns.TypeAAAA)) ↔ answeredLocally toLower s q = true := by
    intro q
    simp [answeredLocally]
  simp only [key]
  have part3 : ∀ (pre : List dns.Question) (q : dns.Question) (post : List dns.Question),
      r.Question = pre ++ q :: post →
      (∀ x ∈ pre, answeredLocally toLower s x = true) →
      ¬ answeredLocally toLower s q = true →
      ∃ logs : List dns.Event,
        s.handleRequest toLower ex w r = logs ++ s.forwardToUpstream ex w r ∧
        (∀ e ∈ logs, e.isLog = true) ∧
        dns.forwarded (s.handleRequest toLower ex w r) = [r] ∧
        dns.queried (s.handleRequest toLower ex w r) =
          (pre ++ [q]).map (fun x => (x.Name, x.Qtype)) ∧
        dns.writes (s.handleRequest toLower ex w r) =
          dns.writes (s.forwardToUpstream ex w r) ∧
        dns.exchanges (s.handleRequest toLower ex w r) =
          dns.exchanges (s.forwardToUpstream ex w r) := by
    intro pre q post hr hpre hq
    obtain ⟨logs, ht, hlogs, hqueried⟩ :=
      handleRequest_forward toLower s ex w r pre q post hr hpre (by simpa using hq)
    refine ⟨logs, ht, hlogs, ?_, ?_, ?_, ?_⟩
    · rw [ht, forwarded_append, forwardToUpstream_forwarded, forwarded_of_logs logs hlogs]
      rfl
    · rw [ht, queried_append, forwardToUpstream_queried, hqueried, List.append_nil]
    · rw [ht, writes_append, writes_of_logs logs hlogs, List.nil_append]
    · rw [ht, exchanges_append, exchanges_of_logs logs hlogs, List.nil_append]
  refine ⟨⟨?_, ?_⟩, ?_, part3⟩
  · intro hfw
    by_contra hall
    obtain ⟨pre, q, post, hr, hpre, hq⟩ := exists_first_failing _ _ hall
    obtain ⟨_, _, _, h3, _⟩ := part3 pre q post hr hpre (by simp [hq])
    rw [hfw] at h3
    simp at h3
  · intro hall
    exact (handleRequest_local toLower s ex w r hall).2.1
  · intro hall
    obtain ⟨⟨m, hw, hans, _⟩, _, hex, hqueried⟩ := handleRequest_local toLower s ex w r hall
    exact ⟨hex, hqueried, m, hw, hans⟩

theorem handleRequest_forges_iff_all_answered_locally_witness :
    dns.forwarded (exampleServer.handleRequest asciiToLower exampleAllFail exampleWriter
        (exampleQuery [exampleQuestion "api.openai.com." dns.TypeA,
          exampleQuestion "example.org." dns.TypeA,
          exampleQuestion "chat.openai.com." dns.TypeA])) =
      [exampleQuery [exampleQuestion "api.openai.com." dns.TypeA,
          exampleQuestion "example.org." dns.TypeA,
          exampleQuestion "chat.openai.com." dns.TypeA]] ∧
    dns.queried (exampleServer.handleRequest asciiToLower exampleAllFail exampleWriter
        (exampleQuery [exampleQuestion "api.openai.com." dns.TypeA,
          exampleQuestion "example.org." dns.TypeA,
          exampleQuestion "chat.openai.com." dns.TypeA])) =
      [("api.openai.com.".toList, dns.TypeA), ("example.org.".toList, dns.TypeA)] := by
  obtain ⟨_, _, _, h3, h4, _, _⟩ :=
    (handleRequest_forges_iff_all_answered_locally asciiToLower exampleServer exampleAllFail
      exampleWriter
      (exampleQuery [exampleQuestion "api.openai.com." dns.TypeA,
        exampleQuestion "example.org." dns.TypeA,
        exampleQuestion "chat.openai.com." dns.TypeA])).2.2
      [exampleQuestion "api.openai.com." dns.TypeA]
      (exampleQuestion "example.org." dns.TypeA)
      [exampleQuestion "chat.openai.com." dns.TypeA] rfl (by decide) (by decide)
  exact ⟨h3, h4⟩

/-! ## C7 -/

/-- C7: when every question of the request has type A and matches the suffix predicate,
`handleRequest` forwards nothing and writes one reply whose answer section holds exactly
one record per question, in question order, each an A record with the question's name as
sent, class IN, TTL 60 and address `SpoofIP.To4()`; the reply has `Authoritative = false`,
and for a single question the answer section has exactly one record. -/
theorem handleRequest_A_answers (toLower : Char → Char) (s : dns.Server)
    (ex : dns.Exchange) (w : dns.ResponseWriter) (r : dns.Msg)
    (h : ∀ q ∈ r.Question, q.Qtype = dns.TypeA ∧ s.shouldSpoof toLower q.Name = true) :
    ∃ m : dns.Msg,
      dns.writes (s.handleRequest toLower ex w r) = [m] ∧
      dns.forwarded (s.handleRequest toLower ex w r) = [] ∧
      dns.exchanges (s.handleRequest toLower ex w r) = [] ∧
      m.Answer = r.Question.map (fun q =>
        dns.RR.A { Name := q.Name, Rrtype := dns.TypeA, Class := dns.ClassINET, Ttl := 60 }
          s.config.SpoofIP.To4) ∧
      m.Answer.length = r.Question.length ∧
      m.Authoritative = false ∧
      (∀ q, r.Question = [q] → m.Answer.length = 1) := by
  have hall : ∀ q ∈ r.Question, answeredLocally toLower s q = true := by
    intro q hq
    simp [answeredLocally, (h q hq).1, (h q hq).2]
  obtain ⟨⟨m, hw, hans, hauth, _⟩, hfw, hex, _⟩ := handleRequest_local toLower s ex w r hall
  rw [specAnswers_all_A s r.Question (fun q hq => (h q hq).1)] at hans
  refine ⟨m, hw, hfw, hex, ?_, ?_, hauth, ?_⟩
  · rw [hans]
    rfl
  · rw [hans, List.length_map]
  · intro q hq
    rw [hans, hq]
    rfl

theorem handleRequest_A_answers_witness :
    ∃ m : dns.Msg,
      dns.writes (exampleServer.handleRequest asciiToLower exampleAllFail exampleWriter
        (exampleQuery [exampleQuestion "api.openai.com." dns.TypeA])) = [m] ∧
      m.Answer = [dns.RR.A
        { Name := "api.openai.com.".toList, Rrtype := 1, Class := 1, Ttl := 60 }
        (some [95, 164, 123, 192])] ∧
      m.Answer.length = 1 ∧ m.Authoritative = false := by
  obtain ⟨m, hw, _, _, hans, _, hauth, hone⟩ :=
    handleRequest_A_answers asciiToLower exampleServer exampleAllFail exampleWriter
      (exampleQuery [exampleQuestion "api.openai.com." dns.TypeA]) (by decide)
  exact ⟨m, hw, hans, hone _ rfl, hauth⟩

/-! ## C8 -/

theorem To16_of_To4_none (ip ip6 : IP) (h4 : ip.To4 = none) (h16 : ip.To16 = some ip6) :
    ip6 = ip := by
  unfold IP.To4 at h4
  unfold IP.To16 at h16
  by_cases hl : ip.length = 4
  · simp [hl] at h4
  · rw [if_neg hl] at h16
    by_cases hl16 : ip.length = 16
    · rw [if_pos hl16] at h16
      exact (Option.some.inj h16).symm
    · rw [if_neg hl16] at h16
      cases h16

/-- C8: for a single-question request of type AAAA whose name matches the suffix
predicate, `handleRequest` forwards nothing and writes one reply.  If `SpoofIP.To4()` is
non-nil the reply has RCODE NOERROR and an empty answer section.  If the spoof IP is
IPv6-only (`To4()` nil, `To16()` non-nil) the answer section is exactly one AAAA record
with the question's name, class IN, TTL 60 and that IPv6 address. -/
theorem handleRequest_AAAA_answer (toLower : Char → Char) (s : dns.Server)
    (ex : dns.Exchange) (w : dns.ResponseWriter) (r : dns.Msg) (q : dns.Question)
    (hr : r.Question = [q]) (hty : q.Qtype = dns.TypeAAAA)
    (hs : s.shouldSpoof toLower q.Name = true) :
    ∃ m : dns.Msg,
      dns.writes (s.handleRequest toLower ex w r) = [m] ∧
      dns.forwarded (s.handleRequest toLower ex w r) = [] ∧
      dns.exchanges (s.handleRequest toLower ex w r) = [] ∧
      m.Rcode = dns.RcodeSuccess ∧
      (s.config.SpoofIP.To4 ≠ none → m.Answer = []) ∧
      (s.config.SpoofIP.To4 = none → s.config.SpoofIP.To16 ≠ none →
        m.Answer = [dns.RR.AAAA
          { Name := q.Name, Rrtype := dns.TypeAAAA, Class := dns.ClassINET, Ttl := 60 }
          (some s.config.SpoofIP)]) := by
  have hall : ∀ x ∈ r.Question, answeredLocally toLower s x = true := by
    intro x hx
    rw [hr, List.mem_singleton] at hx
    subst hx
    simp [answeredLocally, hty, hs]
  obtain ⟨⟨m, hw, hans, _, hrc, _⟩, hfw, hex, _⟩ := handleRequest_local toLower s ex w r hall
  have hne : dns.TypeAAAA ≠ dns.TypeA := by decide
  refine ⟨m, hw, hfw, hex, hrc, ?_, ?_⟩
  · intro h4
    rw [hans, hr]
    simp only [specAnswers, hty, hne, if_false, List.append_nil]
    cases h16 : s.config.SpoofIP.To16 <;> cases h4' : s.config.SpoofIP.To4 <;> simp_all
  · intro h4 h16
    rw [hans, hr]
    simp only [specAnswers, hty, hne, if_false, List.append_nil]
    cases h16' : s.config.SpoofIP.To16 with
    | none => exact absurd h16' h16
    | some ip6 =>
      have := To16_of_To4_none _ _ h4 h16'
      subst this
      simp [h4, specAAAARecord]

theorem handleRequest_AAAA_answer_witness :
    (∃ m : dns.Msg,
      dns.writes (exampleServer.handleRequest asciiToLower exampleAllFail exampleWriter
        (exampleQuery [exampleQuestion "chat.openai.com." dns.TypeAAAA])) = [m] ∧
      m.Rcode = dns.RcodeSuccess ∧ m.Answer = []) ∧
    (∃ m : dns.Msg,
      dns.writes (exampleServer6.handleRequest asciiToLower exampleAllFail exampleWriter
        (exampleQuery [exampleQuestion "chat.openai.com." dns.TypeAAAA])) = [m] ∧
      m.Answer = [dns.RR.AAAA
        { Name := "chat.openai.com.".toList, Rrtype := 28, Class := 1, Ttl := 60 }
        (some exampleSpoofIP6)]) := by
  constructor
  · obtain ⟨m, hw, _, _, hrc, h4, _⟩ :=
      handleRequest_AAAA_answer asciiToLower exampleServer exampleAllFail exampleWriter
        (exampleQuery [exampleQuestion "chat.openai.com." dns.TypeAAAA])
        (exampleQuestion "chat.openai.com." dns.TypeAAAA) rfl rfl (by decide)
    exact ⟨m, hw, hrc, h4 (by decide)⟩
  · obtain ⟨m, hw, _, _, _, _, h6⟩ :=
      handleRequest_AAAA_answer asciiToLower exampleServer6 exampleAllFail exampleWriter
        (exampleQuery [exampleQuestion "chat.openai.com." dns.TypeAAAA])
        (exampleQuestion "chat.openai.com." dns.TypeAAAA) rfl rfl (by decide)
    exact ⟨m, hw, h6 (by decide) (by decide)⟩

/-! ## C9 -/

/-- C9, as stated, fails for a request with more than one question: with no upstream
answering, the SERVFAIL message written for a two-question request carries only the first
question, not the request's question section. -/
theorem servfail_carries_first_question_only :
    dns.writes (exampleServer.forwardToUpstream exampleAllFail exampleWriter
        (exampleQuery [exampleQuestion "example.org." dns.TypeA,
          exampleQuestion "example.net." dns.TypeA])) =
      [({} : dns.Msg).SetRcode
        (exampleQuery [exampleQuestion "example.org." dns.TypeA,
          exampleQuestion "example.net." dns.TypeA]) dns.RcodeServerFailure] ∧
    (({} : dns.Msg).SetRcode
        (exampleQuery [exampleQuestion "example.org." dns.TypeA,
          exampleQuestion "example.net." dns.TypeA]) dns.RcodeServerFailure).Question =
      [exampleQuestion "example.org." dns.TypeA] ∧
    (({} : dns.Msg).SetRcode
        (exampleQuery [exampleQuestion "example.org." dns.TypeA,
          exampleQuestion "example.net." dns.TypeA]) dns.RcodeServerFailure).Question ≠
      (exampleQuery [exampleQuestion "example.org." dns.TypeA,
          exampleQuestion "example.net." dns.TypeA]).Question := by
  decide

/-- C9, amended: if every upstream exchange fails (also when the upstream list is empty),
`forwardToUpstream` tries every upstream once, in order, and writes exactly one message,
with RCODE 2 (SERVFAIL), the request's transaction ID and the first question of the
request as its question section, which is the request's whole question section whenever
the request has at most one question. -/
theorem forwardToUpstream_all_fail_servfail (s : dns.Server) (ex : dns.Exchange)
    (w : dns.ResponseWriter) (r : dns.Msg)
    (hfail : ∀ i u, s.config.UpstreamDNS[i]? = some u → ∃ e, ex i r u = Except.error e) :
    ∃ m : dns.Msg,
      dns.writes (s.forwardToUpstream ex w r) = [m] ∧
      m.Rcode = 2 ∧ m.Id = r.Id ∧ m.Question = r.Question.take 1 ∧
      (r.Question.length ≤ 1 → m.Question = r.Question) ∧
      dns.exchanges (s.forwardToUpstream ex w r) =
        s.config.UpstreamDNS.map (fun u => (r, u)) := by
  obtain ⟨h1, h2⟩ := forwardLoop_all_fail ex w r s.config.UpstreamDNS 0 none
    (by simpa using hfail)
  obtain ⟨f1, f2, f3, _⟩ := SetRcode_fields r dns.RcodeServerFailure
  refine ⟨_, ?_, f1, f2, f3, ?_, ?_⟩
  · simp [dns.Server.forwardToUpstream, dns.writes, h1]
  · intro hlen
    rw [f3]
    exact List.take_of_length_le hlen
  · simp [dns.Server.forwardToUpstream, dns.exchanges, h2]

theorem forwardToUpstream_all_fail_servfail_witness :
    ∃ m : dns.Msg,
      dns.writes (exampleServer.forwardToUpstream exampleAllFail exampleWriter
        (exampleQuery [exampleQuestion "example.org." dns.TypeA])) = [m] ∧
      m.Rcode = 2 ∧ m.Id = 4242 ∧ m.Question = [exampleQuestion "example.org." dns.TypeA] ∧
      dns.exchanges (exampleServer.forwardToUpstream exampleAllFail exampleWriter
          (exampleQuery [exampleQuestion "example.org." dns.TypeA])) =
        [(exampleQuery [exampleQuestion "example.org." dns.TypeA], "8.8.8.8:53".toList),
         (exampleQuery [exampleQuestion "example.org." dns.TypeA], "1.1.1.1:53".toList)] := by
  obtain ⟨m, hw, hrc, hid, _, hq, hex⟩ :=
    forwardToUpstream_all_fail_servfail exampleServer exampleAllFail exampleWriter
      (exampleQuery [exampleQuestion "example.org." dns.TypeA])
      (fun _ _ _ => ⟨"i/o timeout".toList, rfl⟩)
  exact ⟨m, hw, hrc, hid, hq (by decide), hex⟩

/-! ## C10 -/

/-- C10: if at least one upstream exchange succeeds, then, with `i` the first position
whose exchange succeeds, `forwardToUpstream` exchanges with the upstreams at positions
`0..i` in configured order and with no other, and the only message it writes is the
unmodified response of upstream `i` (in particular no SERVFAIL is built). -/
theorem forwardToUpstream_first_success (s : dns.Server) (ex : dns.Exchange)
    (w : dns.ResponseWriter) (r : dns.Msg)
    (h : ∃ i u resp, s.config.UpstreamDNS[i]? = some u ∧ ex i r u = Except.ok resp) :
    ∃ i u resp, s.config.UpstreamDNS[i]? = some u ∧ ex i r u = Except.ok resp ∧
      (∀ j v, j < i → s.config.UpstreamDNS[j]? = some v → ∃ e, ex j r v = Except.error e) ∧
      dns.writes (s.forwardToUpstream ex w r) = [resp] ∧
      dns.exchanges (s.forwardToUpstream ex w r) =
        (s.config.UpstreamDNS.take (i + 1)).map (fun u => (r, u)) := by
  classical
  let P : Nat → Prop := fun i =>
    ∃ u resp, s.config.UpstreamDNS[i]? = some u ∧ ex i r u = Except.ok resp
  have hP : ∃ i, P i := h
  obtain ⟨u, resp, hu, hok⟩ := Nat.find_spec hP
  have hmin : ∀ j v, j < Nat.find hP → s.config.UpstreamDNS[j]? = some v →
      ∃ e, ex j r v = Except.error e := by
    intro j v hj hv
    cases hjv : ex j r v with
    | error e => exact ⟨e, rfl⟩
    | ok resp2 => exact absurd ⟨v, resp2, hv, hjv⟩ (Nat.find_min hP hj)
  obtain ⟨h1, h2⟩ := forwardLoop_first_ok ex w r s.config.UpstreamDNS 0 none (Nat.find hP)
    u resp hu (by simpa using hok) (by simpa using hmin)
  refine ⟨Nat.find hP, u, resp, hu, hok, hmin, ?_, ?_⟩
  · simp [dns.Server.forwardToUpstream, dns.writes, h1]
  · simp [dns.Server.forwardToUpstream, dns.exchanges, h2]

theorem forwardToUpstream_first_success_witness :
    ∃ i u resp, exampleServer.config.UpstreamDNS[i]? = some u ∧
      exampleSecondAnswers i (exampleQuery [exampleQuestion "example.org." dns.TypeA]) u =
        Except.ok resp ∧
      (∀ j v, j < i → exampleServer.config.UpstreamDNS[j]? = some v →
        ∃ e, exampleSecondAnswers j
          (exampleQuery [exampleQuestion "example.org." dns.TypeA]) v = Except.error e) ∧
      dns.writes (exampleServer.forwardToUpstream exampleSecondAnswers exampleWriter
        (exampleQuery [exampleQuestion "example.org." dns.TypeA])) = [resp] ∧
      dns.exchanges (exampleServer.forwardToUpstream exampleSecondAnswers exampleWriter
          (exampleQuery [exampleQuestion "example.org." dns.TypeA])) =
        (exampleServer.config.UpstreamDNS.take (i + 1)).map
          (fun u => (exampleQuery [exampleQuestion "example.org." dns.TypeA], u)) :=
  forwardToUpstream_first_success exampleServer exampleSecondAnswers exampleWriter
    (exampleQuery [exampleQuestion "example.org." dns.TypeA])
    ⟨1, "1.1.1.1:53".toList, exampleResponse, by decide, rfl⟩

/-! ## Peeking: what the tee reader records and the multi reader replays -/

section peek
open proxy

theorem Conn_Read_flatten {α : Type} (c : Conn α) (cap : Nat) :
    (c.Read cap).1.1 ++ (c.Read cap).2.chunks.flatten = c.chunks.flatten := by
  unfold Conn.Read
  cases h : c.chunks with
  | nil => simp [h]
  | cons chunk rest =>
    by_cases hc : chunk.length ≤ cap
    · simp [hc]
    · simp only [hc, if_false, List.flatten_cons, ← List.append_assoc, List.take_append_drop]

/-- A `Read` of the connection reports an error only at the end of the stream, with no
data. -/
theorem Conn_Read_err {α : Type} (c : Conn α) (cap : Nat) (e : Err)
    (h : (c.Read cap).1.2 = some e) :
    e = Err.EOF ∧ (c.Read cap).1.1 = [] ∧ c.chunks = [] := by
  unfold Conn.Read at h ⊢
  cases hch : c.chunks with
  | nil =>
    rw [hch] at h
    simp only [Option.some.injEq] at h
    exact ⟨h.symm, rfl, rfl⟩
  | cons chunk rest =>
    rw [hch] at h
    by_cases hc : chunk.length ≤ cap <;> simp [hc] at h

theorem Conn_Read_size {α : Type} (c : Conn α) (cap : Nat) (hcap : 0 < cap)
    (h : (c.Read cap).1.2 = none) : (c.Read cap).2.size < c.size := by
  unfold Conn.Read at h ⊢
  cases hch : c.chunks with
  | nil => rw [hch] at h; simp at h
  | cons chunk rest =>
    by_cases hc : chunk.length ≤ cap
    · simp [hc, Conn.size, hch]
    · simp only [hc, if_false, Conn.size, hch, List.map_cons, List.sum_cons, List.length_drop]
      omega

/-- The tee reader keeps the stream whole: what it has written to the buffer followed by
what the connection still holds never changes. -/
theorem TeeReader_Read_total {α : Type} (t : TeeReader α) (cap : Nat) :
    (t.Read cap).2.w ++ (t.Read cap).2.r.chunks.flatten = t.w ++ t.r.chunks.flatten := by
  unfold TeeReader.Read
  simp only [List.append_assoc, Conn_Read_flatten]

theorem fillLoop_total (i : Nat) : ∀ b : BufReader,
    (fillLoop i b).rd.w ++ (fillLoop i b).rd.r.chunks.flatten =
      b.rd.w ++ b.rd.r.chunks.flatten := by
  induction i with
  | zero => intro b; rfl
  | succ i ih =>
    intro b
    simp only [fillLoop]
    split
    · exact TeeReader_Read_total b.rd _
    · split
      · exact TeeReader_Read_total b.rd _
      · rw [ih]
        exact TeeReader_Read_total b.rd _

theorem fill_total (b : BufReader) :
    b.fill.rd.w ++ b.fill.rd.r.chunks.flatten = b.rd.w ++ b.rd.r.chunks.flatten :=
  fillLoop_total _ b

theorem readStringLoop_total (delim : Char) (fuel : Nat) :
    ∀ (acc : Str) (b : BufReader) (res : (Str × Option Err) × BufReader),
      readStringLoop delim fuel acc b = some res →
      res.2.rd.w ++ res.2.rd.r.chunks.flatten = b.rd.w ++ b.rd.r.chunks.flatten := by
  induction fuel with
  | zero => intro acc b res h; simp [readStringLoop] at h
  | succ fuel ih =>
    intro acc b res h
    simp only [readStringLoop] at h
    split at h
    · simp only [Option.some.injEq] at h
      subst h
      rfl
    · split at h
      · simp only [Option.some.injEq] at h
        subst h
        rfl
      · split at h
        · have := ih _ _ _ h
          exact this
        · rw [ih _ _ _ h]
          exact fill_total b

theorem runMIME_total (run : MIMERun) : ∀ b : BufReader,
    (runMIME run b).2.rd.w ++ (runMIME run b).2.rd.r.chunks.flatten =
      b.rd.w ++ b.rd.r.chunks.flatten := by
  induction run with
  | done result => intro b; rfl
  | fill discard next ih =>
    intro b
    simp only [runMIME]
    rw [ih]
    exact fill_total _

theorem runHandshake_total (run : HandshakeRun) : ∀ t : TeeReader Nat,
    (runHandshake run t).2.w ++ (runHandshake run t).2.r.chunks.flatten =
      t.w ++ t.r.chunks.flatten := by
  induction run with
  | done hello err => intro t; rfl
  | read cap next ih =>
    intro t
    simp only [runHandshake]
    rw [ih]
    exact TeeReader_Read_total t cap

theorem IOReader_Read_err {α : Type} (r : IOReader α) (cap : Nat) (e : Err)
    (h : (r.Read cap).1.2 = some e) :
    e = Err.EOF ∧ (r.Read cap).1.1 = [] ∧ r.content = [] := by
  cases r with
  | buffer unread =>
    simp only [IOReader.Read] at h ⊢
    by_cases hu : unread.isEmpty = true
    · by_cases hc : cap = 0
      · simp [hu, hc] at h
      · simp only [hu, hc, if_true, if_false, Option.some.injEq] at h
        refine ⟨h.symm, ?_, ?_⟩
        · simp [hu, hc]
        · simpa [IOReader.content] using hu
    · simp [hu] at h
  | conn c =>
    simp only [IOReader.Read] at h ⊢
    obtain ⟨h1, h2, h3⟩ := Conn_Read_err c cap e h
    exact ⟨h1, h2, by simp [IOReader.content, h3]⟩

theorem IOReader_Read_ok {α : Type} (r : IOReader α) (cap : Nat)
    (h : (r.Read cap).1.2 = none) :
    (r.Read cap).1.1 ++ (r.Read cap).2.content = r.content ∧
    (0 < cap → (r.Read cap).2.size < r.size) := by
  cases r with
  | buffer unread =>
    simp only [IOReader.Read] at h ⊢
    by_cases hu : unread.isEmpty = true
    · by_cases hc : cap = 0
      · simp [hu, hc, IOReader.content]
      · simp [hu, hc] at h
    · simp only [hu, if_false, IOReader.content, List.take_append_drop, IOReader.size,
        List.length_drop, true_and, Bool.false_eq_true]
      intro hcap
      have : 0 < unread.length := by
        cases unread with
        | nil => simp at hu
        | cons a t => simp
      omega
  | conn c =>
    simp only [IOReader.Read] at h ⊢
    refine ⟨Conn_Read_flatten c cap, fun hcap => ?_⟩
    have := Conn_Read_size c cap hcap h
    simp only [IOReader.size]
    omega

/-- One `Read` of the multi reader: an error comes only when nothing is left, and
otherwise the data read followed by what is left afterwards is what was left before. -/
theorem MultiReader_Read_spec {α : Type} (cap : Nat) (mr : List (IOReader α)) :
    (∀ e, (MultiReader.Read mr cap).1.2 = some e →
      (MultiReader.Read mr cap).1.1 = [] ∧ (mr.map IOReader.content).flatten = []) ∧
    ((MultiReader.Read mr cap).1.2 = none →
      (MultiReader.Read mr cap).1.1 ++
          ((MultiReader.Read mr cap).2.map IOReader.content).flatten =
        (mr.map IOReader.content).flatten ∧
      (0 < cap → ((MultiReader.Read mr cap).2.map IOReader.size).sum <
        (mr.map IOReader.size).sum)) := by
  induction mr with
  | nil => simp [MultiReader.Read]
  | cons r rest ih =>
    simp only [MultiReader.Read]
    cases hr : (r.Read cap).1.2 with
    | some e =>
      obtain ⟨he, hp, hc⟩ := IOReader_Read_err r cap e hr
      subst he
      simp only [hp, List.length_nil, Nat.lt_irrefl, if_true, if_false, List.map_cons,
        List.flatten_cons, hc, List.nil_append, List.sum_cons, gt_iff_lt]
      refine ⟨ih.1, fun h => ⟨(ih.2 h).1, fun hcap => ?_⟩⟩
      have := (ih.2 h).2 hcap
      omega
    | none =>
      obtain ⟨h1, h2⟩ := IOReader_Read_ok r cap hr
      have hne : ¬ ((none : Option Err) = some Err.EOF) := by simp
      simp only [hne, if_false, hr]
      refine ⟨fun e he => by simp at he, fun _ => ⟨?_, fun hcap => ?_⟩⟩
      · simp only [List.map_cons, List.flatten_cons, ← List.append_assoc, h1]
      · have := h2 hcap
        simp only [List.map_cons, List.sum_cons]
        omega

theorem readAllLoop_eq {α : Type} (cap : Nat) (hcap : 0 < cap) (fuel : Nat) :
    ∀ mr : List (IOReader α), (mr.map IOReader.size).sum < fuel →
      readAllLoop cap fuel mr = (mr.map IOReader.content).flatten := by
  induction fuel with
  | zero => intro mr h; omega
  | succ fuel ih =>
    intro mr h
    obtain ⟨herr, hok⟩ := MultiReader_Read_spec cap mr
    simp only [readAllLoop]
    cases hres : (MultiReader.Read mr cap).1.2 with
    | some e =>
      obtain ⟨h1, h2⟩ := herr e hres
      simp [h1, h2]
    | none =>
      obtain ⟨h1, h2⟩ := hok hres
      have := h2 hcap
      simp only
      rw [ih _ (by omega), h1]

/-- Read to the end with a non-empty buffer, a multi reader delivers everything its readers
hold, in order. -/
theorem ReadAll_eq {α : Type} (cap : Nat) (hcap : 0 < cap) (mr : List (IOReader α)) :
    ReadAll cap mr = (mr.map IOReader.content).flatten :=
  readAllLoop_eq cap hcap _ mr (Nat.lt_succ_self _)

theorem Conn_Read_progress {α : Type} (c : Conn α) (cap : Nat) (hcap : 0 < cap)
    (h : (c.Read cap).1.2 = none) :
    2 * (c.Read cap).2.size + (c.Read cap).1.1.length < 2 * c.size := by
  unfold Conn.Read at h ⊢
  cases hch : c.chunks with
  | nil => rw [hch] at h; simp at h
  | cons chunk rest =>
    by_cases hc : chunk.length ≤ cap
    · simp only [hc, if_true, Conn.size, hch, List.map_cons, List.sum_cons]
      omega
    · simp only [hc, if_false, Conn.size, hch, List.map_cons, List.sum_cons, List.length_drop,
        List.length_take]
      omega

theorem fillLoop_rounds (i : Nat) : ∀ b : BufReader, b.err = none →
    b.buf.length < defaultBufSize → (fillLoop i b).rounds < b.rounds := by
  induction i with
  | zero =>
    intro b herr _
    simp [fillLoop, BufReader.rounds, herr]
  | succ i ih =>
    intro b herr hlen
    have hcap : 0 < defaultBufSize - b.buf.length := by omega
    simp only [fillLoop]
    cases hres : (b.rd.Read (defaultBufSize - b.buf.length)).1.2 with
    | some e =>
      obtain ⟨_, hp, hc⟩ := Conn_Read_err b.rd.r _ e (by simpa [TeeReader.Read] using hres)
      have hsize : (b.rd.Read (defaultBufSize - b.buf.length)).2.r.size = b.rd.r.size := by
        simp [TeeReader.Read, Conn.Read, hc]
      have hdata : (b.rd.Read (defaultBufSize - b.buf.length)).1.1 = [] := by
        simpa [TeeReader.Read] using hp
      simp [BufReader.rounds, herr, hsize, hdata]
    | none =>
      have hprog := Conn_Read_progress b.rd.r _ hcap (by simpa [TeeReader.Read] using hres)
      have hsz : (b.rd.Read (defaultBufSize - b.buf.length)).2.r =
          (b.rd.r.Read (defaultBufSize - b.buf.length)).2 := rfl
      have hdt : (b.rd.Read (defaultBufSize - b.buf.length)).1.1 =
          (b.rd.r.Read (defaultBufSize - b.buf.length)).1.1 := rfl
      simp only
      split
      · simp only [BufReader.rounds, herr, if_true, hsz, hdt, List.length_append]
        omega
      · rename_i hempty
        have hnil : (b.rd.Read (defaultBufSize - b.buf.length)).1.1 = [] := by
          simpa using hempty
        have := ih
          { rd := (b.rd.Read (defaultBufSize - b.buf.length)).2,
            buf := b.buf ++ (b.rd.Read (defaultBufSize - b.buf.length)).1.1,
            err := b.err } herr (by simpa [hnil] using hlen)
        refine lt_trans this ?_
        simp only [BufReader.rounds, herr, if_true, hsz, hdt, List.length_append]
        omega

/-- The loop of `ReadString` returns within the bound `ReadString` gives it. -/
theorem readStringLoop_isSome (delim : Char) (fuel : Nat) :
    ∀ (acc : Str) (b : BufReader), b.rounds < fuel →
      (readStringLoop delim fuel acc b).isSome = true := by
  induction fuel with
  | zero => intro acc b h; omega
  | succ fuel ih =>
    intro acc b h
    simp only [readStringLoop]
    split
    · rfl
    · split
      · rfl
      · rename_i herr
        split
        · rename_i hfull
          apply ih
          have : defaultBufSize = 4096 := rfl
          simp only [BufReader.rounds, herr, if_true, List.length_nil] at h ⊢
          omega
        · rename_i hfull
          apply ih
          have := fillLoop_rounds maxConsecutiveEmptyReads b herr (by omega)
          unfold BufReader.fill
          omega

/-- Method `ReadString` always returns: the bound on its rounds is never reached. -/
theorem ReadString_isSome (b : BufReader) (delim : Char) :
    (b.ReadString delim).isSome = true := by
  unfold BufReader.ReadString
  apply readStringLoop_isSome
  unfold BufReader.rounds
  split <;> omega

/-- On success `PeekHTTPHost` returns the multi reader of the peeked bytes and the
connection, which together hold the original stream. -/
theorem PeekHTTPHost_ok (readMIMEHeader : Str → Option Err → MIMERun) (reader : Conn Char)
    (host : Str) (mr : List (IOReader Char))
    (h : PeekHTTPHost readMIMEHeader reader = .ok (host, mr)) :
    ∃ (peeked : Str) (rest : Conn Char),
      mr = [IOReader.buffer peeked, IOReader.conn rest] ∧
      peeked ++ rest.chunks.flatten = reader.chunks.flatten := by
  unfold PeekHTTPHost at h
  simp only at h
  split at h
  · cases h
  · cases h
  · rename_i requestLine b1 hread
    have hb1 := readStringLoop_total _ _ _ _ _ hread
    simp only [List.nil_append] at hb1
    split at h
    · cases h
    · split at h
      · cases h
      · rename_i headers b2 hmime
        split at h
        · cases h
        · simp only [Except.ok.injEq, Prod.mk.injEq] at h
          refine ⟨b2.rd.w, b2.rd.r, h.2.symm, ?_⟩
          have hb2 := runMIME_total (readMIMEHeader b1.buf b1.err) b1
          rw [hmime] at hb2
          rw [← hb1, ← hb2]

/-- On success `PeekClientHello` returns the multi reader of the peeked bytes and the
connection, which together hold the original stream. -/
theorem PeekClientHello_ok (handshake : HandshakeRun) (reader : Conn Nat)
    (hello : ClientHelloInfo) (mr : List (IOReader Nat))
    (h : PeekClientHello handshake reader = .ok (hello, mr)) :
    ∃ (peeked : List Nat) (rest : Conn Nat),
      mr = [IOReader.buffer peeked, IOReader.conn rest] ∧
      peeked ++ rest.chunks.flatten = reader.chunks.flatten := by
  unfold PeekClientHello at h
  split at h
  · cases h
  · rename_i hello2 tee hrun
    simp only [Except.ok.injEq, Prod.mk.injEq] at h
    refine ⟨tee.w, tee.r, h.2.symm, ?_⟩
    have htot := runHandshake_total handshake { r := reader, w := [] }
    have htee : tee = (runHandshake handshake { r := reader, w := [] }).2 := by
      unfold readClientHello at hrun
      simp only at hrun
      split at hrun
      · cases hrun
      · simp only [Prod.mk.injEq] at hrun
        exact hrun.2.symm
    rw [htee, htot]
    rfl

end peek

/-! ## C6 -/

/-- C6: whenever `PeekHTTPHost` (respectively `PeekClientHello`) succeeds on a client
stream, whatever the header parser (respectively the TLS handshake) read ahead, the
returned reader is the multi reader of the peeked bytes followed by the connection, the
peeked bytes followed by the bytes the connection still holds are the original stream,
and reading the returned reader to the end (with any non-empty buffer) yields exactly the
original stream. -/
theorem peek_reader_replays_original_stream :
    (∀ (readMIMEHeader : Str → Option proxy.Err → proxy.MIMERun) (reader : proxy.Conn Char)
        (host : Str) (mr : List (proxy.IOReader Char)),
      proxy.PeekHTTPHost readMIMEHeader reader = .ok (host, mr) →
      (∃ (peeked : Str) (rest : proxy.Conn Char),
        mr = [proxy.IOReader.buffer peeked, proxy.IOReader.conn rest] ∧
        peeked ++ rest.chunks.flatten = reader.chunks.flatten) ∧
      ∀ cap, 0 < cap → proxy.ReadAll cap mr = reader.chunks.flatten) ∧
    (∀ (handshake : proxy.HandshakeRun) (reader : proxy.Conn Nat)
        (hello : proxy.ClientHelloInfo) (mr : List (proxy.IOReader Nat)),
      proxy.PeekClientHello handshake reader = .ok (hello, mr) →
      (∃ (peeked : List Nat) (rest : proxy.Conn Nat),
        mr = [proxy.IOReader.buffer peeked, proxy.IOReader.conn rest] ∧
        peeked ++ rest.chunks.flatten = reader.chunks.flatten) ∧
      ∀ cap, 0 < cap → proxy.ReadAll cap mr = reader.chunks.flatten) := by
  constructor
  · intro readMIMEHeader reader host mr h
    obtain ⟨peeked, rest, hmr, htot⟩ := PeekHTTPHost_ok readMIMEHeader reader host mr h
    refine ⟨⟨peeked, rest, hmr, htot⟩, fun cap hcap => ?_⟩
    rw [ReadAll_eq cap hcap, hmr, ← htot]
    simp [proxy.IOReader.content]
  · intro handshake reader hello mr h
    obtain ⟨peeked, rest, hmr, htot⟩ := PeekClientHello_ok handshake reader hello mr h
    refine ⟨⟨peeked, rest, hmr, htot⟩, fun cap hcap => ?_⟩
    rw [ReadAll_eq cap hcap, hmr, ← htot]
    simp [proxy.IOReader.content]

theorem peek_reader_replays_original_stream_witness :
    proxy.ReadAll 32768
        [proxy.IOReader.buffer exampleHTTPPeeked,
         proxy.IOReader.conn { chunks := ["=2".toList] }] =
      exampleHTTPStream.chunks.flatten ∧
    proxy.ReadAll 32768
        [proxy.IOReader.buffer exampleTLSPeeked,
         proxy.IOReader.conn { chunks := [[7, 8], [9, 10]] }] =
      exampleTLSStream.chunks.flatten :=
  ⟨(peek_reader_replays_original_stream.1 (exampleReadMIMEHeader 8) exampleHTTPStream
      "api.openai.com".toList _ rfl).2 32768 (by decide),
   (peek_reader_replays_original_stream.2 exampleHandshake exampleTLSStream
      { ServerName := "chatgpt.com".toList } _ rfl).2 32768 (by decide)⟩

/-! ## C11 -/

/-- A request for which `handleRequest` never calls `forwardToUpstream` has only questions
that are answered locally. -/
theorem answeredLocally_of_not_forwarded (toLower : Char → Char) (s : dns.Server)
    (ex : dns.Exchange) (w : dns.ResponseWriter) (r : dns.Msg)
    (hlocal : dns.forwarded (s.handleRequest toLower ex w r) = []) :
    ∀ q ∈ r.Question, answeredLocally toLower s q = true := by
  by_contra hall
  obtain ⟨pre, q, post, hr, hpre, hq⟩ := exists_first_failing _ _ hall
  obtain ⟨logs, ht, _, _⟩ := handleRequest_forward toLower s ex w r pre q post hr hpre hq
  rw [ht, forwarded_append, forwardToUpstream_forwarded] at hlocal
  simp at hlocal

/-- C11, as stated, fails for a request with more than one question: the reply to a request
with two matching questions of type A carries only the first question in its question
section (and both answers). -/
theorem local_reply_carries_first_question_only :
    (dns.writes (exampleServer.handleRequest asciiToLower exampleAllFail exampleWriter
        (exampleQuery [exampleQuestion "api.openai.com." dns.TypeA,
          exampleQuestion "chat.openai.com." dns.TypeA]))).map (fun m => m.Question) =
      [[exampleQuestion "api.openai.com." dns.TypeA]] ∧
    (dns.writes (exampleServer.handleRequest asciiToLower exampleAllFail exampleWriter
        (exampleQuery [exampleQuestion "api.openai.com." dns.TypeA,
          exampleQuestion "chat.openai.com." dns.TypeA]))).map (fun m => m.Answer.length) =
      [2] ∧
    [exampleQuestion "api.openai.com." dns.TypeA] ≠
      (exampleQuery [exampleQuestion "api.openai.com." dns.TypeA,
          exampleQuestion "chat.openai.com." dns.TypeA]).Question := by
  decide

/-- C11, amended: every reply `handleRequest` builds locally has the request's ID,
`Authoritative = false`, `RecursionAvailable = false`, and as its question section the
first question of the request only, which is the request's whole question section
whenever the request has at most one question. -/
theorem local_reply_header_and_question (toLower : Char → Char) (s : dns.Server)
    (ex : dns.Exchange) (w : dns.ResponseWriter) (r m : dns.Msg)
    (hlocal : dns.forwarded (s.handleRequest toLower ex w r) = [])
    (hm : m ∈ dns.writes (s.handleRequest toLower ex w r)) :
    m.Id = r.Id ∧ m.Question = r.Question.take 1 ∧
      (r.Question.length ≤ 1 → m.Question = r.Question) ∧
      m.Authoritative = false ∧ m.RecursionAvailable = false := by
  have hall := answeredLocally_of_not_forwarded toLower s ex w r hlocal
  obtain ⟨⟨m0, hw, _, hauth, _, hid, hq, hra, _⟩, _⟩ :=
    handleRequest_local toLower s ex w r hall
  rw [hw, List.mem_singleton] at hm
  subst hm
  refine ⟨hid, hq, fun hlen => ?_, hauth, hra⟩
  rw [hq]
  exact List.take_of_length_le hlen

theorem local_reply_header_and_question_witness :
    (4242 : Nat) = (exampleQuery [exampleQuestion "api.openai.com." dns.TypeA]).Id ∧
    [exampleQuestion "api.openai.com." dns.TypeA] =
      (exampleQuery [exampleQuestion "api.openai.com." dns.TypeA]).Question.take 1 ∧
    ((exampleQuery [exampleQuestion "api.openai.com." dns.TypeA]).Question.length ≤ 1 →
      [exampleQuestion "api.openai.com." dns.TypeA] =
        (exampleQuery [exampleQuestion "api.openai.com." dns.TypeA]).Question) ∧
    false = false ∧ false = false :=
  local_reply_header_and_question asciiToLower exampleServer exampleAllFail exampleWriter
    (exampleQuery [exampleQuestion "api.openai.com." dns.TypeA])
    { Id := 4242, Response := true, RecursionDesired := true,
      Question := [exampleQuestion "api.openai.com." dns.TypeA],
      Answer := [specARecord exampleServer (exampleQuestion "api.openai.com." dns.TypeA)] }
    (by decide) (by decide)

/-! ## C12 -/

theorem getLast?_cons_append_singleton {α : Type} (b : α) (l : List α) (a : α) :
    (b :: l ++ [a]).getLast? = some a := by
  have : b :: l ++ [a] = (b :: l) ++ [a] := rfl
  rw [this, List.getLast?_append]
  simp

/-- The events after the peek reach out only when the host is allowed. -/
theorem handlePeeked_reachesOut (toLower : Char → Char) (s : proxy.Server)
    (world : proxy.World) (host port : Str) (e : proxy.ConnEvent)
    (he : e ∈ proxy.handlePeeked toLower s world host port) (hout : e.reachesOut = true) :
    s.isAllowed toLower host = true := by
  unfold proxy.handlePeeked at he
  cases hallow : s.isAllowed toLower host with
  | true => rfl
  | false =>
    rw [hallow] at he
    cases hclear : world.clearReadDeadline with
    | some err =>
      rw [hclear] at he
      simp only [List.mem_cons, List.mem_singleton, List.not_mem_nil, or_false] at he
      rcases he with rfl | rfl <;> simp [proxy.ConnEvent.reachesOut] at hout
    | none =>
      rw [hclear] at he
      simp only [Bool.not_false, if_true, List.mem_cons, List.mem_singleton,
        List.not_mem_nil, or_false] at he
      rcases he with rfl | rfl <;> simp [proxy.ConnEvent.reachesOut] at hout

/-- The events after the peek of a host that is not allowed. -/
theorem handlePeeked_denied (toLower : Char → Char) (s : proxy.Server)
    (world : proxy.World) (host port : Str) (hdeny : s.isAllowed toLower host = false) :
    proxy.handlePeeked toLower s world host port =
      proxy.ConnEvent.clearReadDeadline ::
        (match world.clearReadDeadline with
         | some err => [proxy.ConnEvent.logClearDeadlineError err]
         | none => [proxy.ConnEvent.logHostNotAllowed host]) := by
  unfold proxy.handlePeeked
  cases world.clearReadDeadline <;> simp [hdeny]

/-- C12: for an accepted connection whose peeked host (HTTP Host or TLS SNI) fails
`isAllowed`, `handleConnection` resolves nothing, dials nothing and writes nothing to the
client, and its last effect is closing the client; when both deadline calls succeed its
effects are exactly: set the deadline, log the host, clear the deadline, log the refusal,
close the client.  In every run, a resolution, a dial or a tunnel occurs only when a host
was peeked that passes `isAllowed`. -/
theorem handleConnection_denied_host_reaches_nothing (toLower : Char → Char)
    (s : proxy.Server) (world : proxy.World) (accepted : proxy.Accepted) :
    (∀ host, proxy.peekedHost world accepted = .ok host →
      s.isAllowed toLower host = false →
      (∀ e ∈ s.handleConnection toLower world accepted, e.reachesOut = false) ∧
      (s.handleConnection toLower world accepted).getLast? = some proxy.ConnEvent.closeClient ∧
      (world.setReadDeadline = none → world.clearReadDeadline = none →
        s.handleConnection toLower world accepted =
          [proxy.ConnEvent.setReadDeadline s.config.PeekTimeout,
           if accepted.isTLS then proxy.ConnEvent.logTLSConnection host
           else proxy.ConnEvent.logHTTPConnection host,
           proxy.ConnEvent.clearReadDeadline,
           proxy.ConnEvent.logHostNotAllowed host,
           proxy.ConnEvent.closeClient])) ∧
    (∀ e ∈ s.handleConnection toLower world accepted, e.reachesOut = true →
      ∃ host, proxy.peekedHost world accepted = .ok host ∧
        s.isAllowed toLower host = true) := by
  have hB : ∀ e ∈ s.handleConnection toLower world accepted, e.reachesOut = true →
      ∃ host, proxy.peekedHost world accepted = .ok host ∧
        s.isAllowed toLower host = true := by
    intro e he hout
    unfold proxy.Server.handleConnection at he
    rw [List.mem_append] at he
    rcases he with he | he
    · rw [List.mem_cons] at he
      rcases he with rfl | he
      · simp [proxy.ConnEvent.reachesOut] at hout
      · cases hset : world.setReadDeadline with
        | some err =>
          rw [hset] at he
          simp only [List.mem_singleton] at he
          subst he
          simp [proxy.ConnEvent.reachesOut] at hout
        | none =>
          rw [hset] at he
          cases accepted with
          | https clientConn =>
            simp only at he
            unfold proxy.peekedHost
            cases hpeek : proxy.PeekClientHello world.handshake clientConn with
            | error err =>
              rw [hpeek] at he
              simp only [List.mem_singleton] at he
              subst he
              simp [proxy.ConnEvent.reachesOut] at hout
            | ok res =>
              obtain ⟨hello, rd⟩ := res
              rw [hpeek] at he
              simp only [List.mem_cons] at he
              rcases he with rfl | he
              · simp [proxy.ConnEvent.reachesOut] at hout
              · exact ⟨hello.ServerName, by simp [hpeek],
                  handlePeeked_reachesOut _ _ _ _ _ _ he hout⟩
          | http clientConn =>
            simp only at he
            unfold proxy.peekedHost
            cases hpeek : proxy.PeekHTTPHost world.readMIMEHeader clientConn with
            | error err =>
              rw [hpeek] at he
              simp only [List.mem_singleton] at he
              subst he
              simp [proxy.ConnEvent.reachesOut] at hout
            | ok res =>
              obtain ⟨httpHost, rd⟩ := res
              rw [hpeek] at he
              simp only [List.mem_cons] at he
              rcases he with rfl | he
              · simp [proxy.ConnEvent.reachesOut] at hout
              · exact ⟨httpHost, by simp [hpeek],
                  handlePeeked_reachesOut _ _ _ _ _ _ he hout⟩
    · simp only [List.mem_singleton] at he
      subst he
      simp [proxy.ConnEvent.reachesOut] at hout
  refine ⟨?_, hB⟩
  intro host hpeek hdeny
  refine ⟨?_, ?_, ?_⟩
  · intro e he
    cases hout : e.reachesOut with
    | false => rfl
    | true =>
      obtain ⟨host2, hpeek2, hallow⟩ := hB e he hout
      rw [hpeek] at hpeek2
      cases hpeek2
      rw [hdeny] at hallow
      cases hallow
  · unfold proxy.Server.handleConnection
    exact getLast?_cons_append_singleton _ _ _
  · intro hset hclear
    unfold proxy.Server.handleConnection
    rw [hset]
    cases accepted with
    | https clientConn =>
      simp only [proxy.peekedHost] at hpeek
      cases hp : proxy.PeekClientHello world.handshake clientConn with
      | error err => rw [hp] at hpeek; cases hpeek
      | ok res =>
        obtain ⟨hello, rd⟩ := res
        rw [hp] at hpeek
        simp only [Except.ok.injEq] at hpeek
        subst hpeek
        simp [hp, handlePeeked_denied _ _ _ _ _ hdeny, hclear, proxy.Accepted.isTLS]
    | http clientConn =>
      simp only [proxy.peekedHost] at hpeek
      cases hp : proxy.PeekHTTPHost world.readMIMEHeader clientConn with
      | error err => rw [hp] at hpeek; cases hpeek
      | ok res =>
        obtain ⟨httpHost, rd⟩ := res
        rw [hp] at hpeek
        simp only [Except.ok.injEq] at hpeek
        subst hpeek
        simp [hp, handlePeeked_denied _ _ _ _ _ hdeny, hclear, proxy.Accepted.isTLS]

theorem handleConnection_denied_host_reaches_nothing_witness :
    exampleProxy.handleConnection asciiToLower exampleWorld
        (proxy.Accepted.http exampleEvilStream) =
      [proxy.ConnEvent.setReadDeadline exampleProxy.config.PeekTimeout,
       if (proxy.Accepted.http exampleEvilStream).isTLS then
         proxy.ConnEvent.logTLSConnection "evil.example.com".toList
       else proxy.ConnEvent.logHTTPConnection "evil.example.com".toList,
       proxy.ConnEvent.clearReadDeadline,
       proxy.ConnEvent.logHostNotAllowed "evil.example.com".toList,
       proxy.ConnEvent.closeClient] :=
  ((handleConnection_denied_host_reaches_nothing asciiToLower exampleProxy exampleWorld
    (proxy.Accepted.http exampleEvilStream)).1 "evil.example.com".toList rfl
    (by decide)).2.2 rfl rfl

/-! ## The request line: what `ReadString` returns -/

section requestLine
open proxy

theorem indexOf_none (d : Char) (l : Str) : indexOf d l = none ↔ d ∉ l := by
  induction l with
  | nil => simp [indexOf]
  | cons c rest ih =>
    simp only [indexOf, List.mem_cons, not_or]
    by_cases hc : c = d
    · subst hc; simp
    · have hdc : ¬ d = c := fun h => hc h.symm
      simp [hc, hdc, ih]

theorem indexOf_some (d : Char) (l : Str) : ∀ i, indexOf d l = some i →
    ∃ body, l.take (i + 1) = body ++ [d] ∧ d ∉ body := by
  induction l with
  | nil => intro i h; simp [indexOf] at h
  | cons c rest ih =>
    intro i h
    simp only [indexOf] at h
    by_cases hc : c = d
    · subst hc
      simp only [if_true, Option.some.injEq] at h
      subst h
      exact ⟨[], by simp, by simp⟩
    · simp only [hc, if_false, Option.map_eq_some'] at h
      obtain ⟨j, hj, rfl⟩ := h
      obtain ⟨body, hb, hnot⟩ := ih j hj
      refine ⟨c :: body, by simp [hb], ?_⟩
      simp only [List.mem_cons, not_or]
      exact ⟨fun h => hc h.symm, hnot⟩

theorem fillLoop_stream (i : Nat) : ∀ b : BufReader, readErr b.err →
    (fillLoop i b).buf ++ (fillLoop i b).rd.r.chunks.flatten =
        b.buf ++ b.rd.r.chunks.flatten ∧
      readErr (fillLoop i b).err := by
  induction i with
  | zero =>
    intro b _
    exact ⟨rfl, Or.inr (Or.inr rfl)⟩
  | succ i ih =>
    intro b hb
    have hflat := Conn_Read_flatten b.rd.r (defaultBufSize - b.buf.length)
    have hr : (b.rd.Read (defaultBufSize - b.buf.length)).2.r =
        (b.rd.r.Read (defaultBufSize - b.buf.length)).2 := rfl
    have hd : (b.rd.Read (defaultBufSize - b.buf.length)).1 =
        (b.rd.r.Read (defaultBufSize - b.buf.length)).1 := rfl
    simp only [fillLoop]
    cases hres : (b.rd.Read (defaultBufSize - b.buf.length)).1.2 with
    | some e =>
      obtain ⟨he, _, _⟩ := Conn_Read_err b.rd.r _ e (by rw [← hd]; exact hres)
      subst he
      simp only [hr, hd, List.append_assoc, hflat]
      exact ⟨trivial, Or.inr (Or.inl rfl)⟩
    | none =>
      simp only
      split
      · simp only [hr, hd, List.append_assoc, hflat]
        exact ⟨trivial, hb⟩
      · obtain ⟨h1, h2⟩ := ih
          { rd := (b.rd.Read (defaultBufSize - b.buf.length)).2,
            buf := b.buf ++ (b.rd.Read (defaultBufSize - b.buf.length)).1.1,
            err := b.err } hb
        refine ⟨?_, h2⟩
        rw [h1]
        simp only [hr, hd, List.append_assoc, hflat]

/-- What the loop of `ReadString` returns: the line read, what stays buffered and what
the connection still holds make up what was there before; without an error the line ends
with its only delimiter; with an error the line holds no delimiter and the error is
`io.EOF` or `io.ErrNoProgress`. -/
theorem readStringLoop_spec (delim : Char) (fuel : Nat) :
    ∀ (acc : Str) (b : BufReader) (res : (Str × Option Err) × BufReader),
      delim ∉ acc → readErr b.err →
      readStringLoop delim fuel acc b = some res →
      res.1.1 ++ (res.2.buf ++ res.2.rd.r.chunks.flatten) =
          acc ++ (b.buf ++ b.rd.r.chunks.flatten) ∧
        (res.1.2 = none → ∃ body, res.1.1 = body ++ [delim] ∧ delim ∉ body) ∧
        (∀ e, res.1.2 = some e →
          delim ∉ res.1.1 ∧ (e = Err.EOF ∨ e = Err.ErrNoProgress)) := by
  induction fuel with
  | zero => intro acc b res _ _ h; simp [readStringLoop] at h
  | succ fuel ih =>
    intro acc b res hacc herr h
    simp only [readStringLoop] at h
    split at h
    · rename_i i hi
      simp only [Option.some.injEq] at h
      subst h
      obtain ⟨body, hb, hnot⟩ := indexOf_some delim b.buf i hi
      refine ⟨?_, fun _ => ⟨acc ++ body, ?_, ?_⟩, fun e he => by simp at he⟩
      · simp only [List.append_assoc]
        rw [← List.append_assoc (List.take (i + 1) b.buf), List.take_append_drop]
      · simp only [hb, List.append_assoc]
      · simp only [List.mem_append, not_or]
        exact ⟨hacc, hnot⟩
    · rename_i hnone
      have hbuf : delim ∉ b.buf := (indexOf_none delim b.buf).1 hnone
      split at h
      · rename_i e he
        simp only [Option.some.injEq] at h
        subst h
        refine ⟨?_, fun hh => by simp at hh, ?_⟩
        · simp only [List.nil_append, List.append_assoc]
        · intro e2 he2
          simp only [Option.some.injEq] at he2
          subst he2
          refine ⟨by simp only [List.mem_append, not_or]; exact ⟨hacc, hbuf⟩, ?_⟩
          rcases herr with h0 | h1 | h2
          · rw [he] at h0; cases h0
          · rw [he] at h1; exact Or.inl (Option.some.inj h1)
          · rw [he] at h2; exact Or.inr (Option.some.inj h2)
      · rename_i hnoerr
        split at h
        · have := ih (acc ++ b.buf) { b with buf := [] } res
            (by simp only [List.mem_append, not_or]; exact ⟨hacc, hbuf⟩) herr h
          simpa only [List.nil_append, List.append_assoc] using this
        · obtain ⟨hs, he⟩ := fillLoop_stream maxConsecutiveEmptyReads b herr
          have := ih acc b.fill res hacc he h
          unfold BufReader.fill at this
          rw [hs] at this
          exact this

/-- The function `PeekHTTPHost` when `ReadString` fails on the request line. -/
theorem PeekHTTPHost_of_ReadString_err (readMIMEHeader : Str → Option Err → MIMERun)
    (reader : Conn Char) (line : Str) (e : Err) (b : BufReader)
    (h : ({ rd := { r := reader, w := [] }, buf := [], err := none } : BufReader).ReadString
      '\n' = some ((line, some e), b)) :
    PeekHTTPHost readMIMEHeader reader = .error e := by
  unfold PeekHTTPHost
  simp only [h]

/-- The function `PeekHTTPHost` when `ReadString` returns the request line. -/
theorem PeekHTTPHost_of_ReadString_ok (readMIMEHeader : Str → Option Err → MIMERun)
    (reader : Conn Char) (line : Str) (b : BufReader)
    (h : ({ rd := { r := reader, w := [] }, buf := [], err := none } : BufReader).ReadString
      '\n' = some ((line, none), b)) :
    PeekHTTPHost readMIMEHeader reader =
      if (Fields line).length < 3 || !HasPrefix ((Fields line).getD 2 []) "HTTP/".toList then
        .error Err.ErrInvalidHTTP
      else
        match runMIME (readMIMEHeader b.buf b.err) b with
        | (.error e, _) => .error e
        | (.ok headers, b2) =>
          if (headers.Get "Host".toList).isEmpty then .error Err.ErrNoHostHeader
          else .ok (stripPort (headers.Get "Host".toList),
            [IOReader.buffer b2.rd.w, IOReader.conn b2.rd.r]) := by
  unfold PeekHTTPHost
  simp only [h]

/-- The function `PeekHTTPHostSplice` when `ReadString` returns the request line. -/
theorem PeekHTTPHostSplice_of_ReadString_ok (readMIMEHeader : Str → Option Err → MIMERun)
    (reader : Conn Char) (line : Str) (b : BufReader)
    (h : ({ rd := { r := reader, w := [] }, buf := [], err := none } : BufReader).ReadString
      '\n' = some ((line, none), b)) :
    PeekHTTPHostSplice readMIMEHeader reader =
      if (Fields line).length < 3 || !HasPrefix ((Fields line).getD 2 []) "HTTP/".toList then
        .error Err.ErrInvalidHTTP
      else
        match runMIME (readMIMEHeader b.buf b.err) b with
        | (.error e, _) => .error e
        | (.ok headers, b2) =>
          if (headers.Get "Host".toList).isEmpty then .error Err.ErrNoHostHeader
          else .ok (stripPort (headers.Get "Host".toList), b2.rd.w) := by
  unfold PeekHTTPHostSplice
  simp only [h]

/-- The function `PeekHTTPHostSplice` when `ReadString` fails on the request line. -/
theorem PeekHTTPHostSplice_of_ReadString_err (readMIMEHeader : Str → Option Err → MIMERun)
    (reader : Conn Char) (line : Str) (e : Err) (b : BufReader)
    (h : ({ rd := { r := reader, w := [] }, buf := [], err := none } : BufReader).ReadString
      '\n' = some ((line, some e), b)) :
    PeekHTTPHostSplice readMIMEHeader reader = .error e := by
  unfold PeekHTTPHostSplice
  simp only [h]

/-- The request line `ReadString` returns on a fresh reader of the connection. -/
theorem ReadString_request_line (reader : Conn Char) :
    ∃ (line : Str) (err : Option Err) (b : BufReader),
      ({ rd := { r := reader, w := [] }, buf := [], err := none } : BufReader).ReadString
        '\n' = some ((line, err), b) ∧
      line <+: reader.chunks.flatten ∧
      (err = none → ∃ body, line = body ++ ['\n'] ∧ '\n' ∉ body) ∧
      (∀ e, err = some e → '\n' ∉ line ∧ (e = Err.EOF ∨ e = Err.ErrNoProgress)) := by
  have hsome := ReadString_isSome
    ({ rd := { r := reader, w := [] }, buf := [], err := none } : BufReader) '\n'
  obtain ⟨res, hres⟩ := Option.isSome_iff_exists.1 hsome
  obtain ⟨⟨line, err⟩, b⟩ := res
  have hspec := readStringLoop_spec '\n' _ [] _ _ (by simp) (Or.inl rfl) hres
  refine ⟨line, err, b, hres, ⟨b.buf ++ b.rd.r.chunks.flatten, ?_⟩, hspec.2.1, hspec.2.2⟩
  simpa using hspec.1

end requestLine

/-! ## C13 -/

/-- C13, as stated, fails in two ways: a request line with a fourth token is accepted (the
peek succeeds), and a first line that the stream ends before terminating fails with
`io.EOF`, not with `ErrInvalidHTTP`. -/
theorem request_line_check_is_looser_than_claimed :
    proxy.PeekHTTPHost (exampleReadMIMEHeader 8) exampleFourTokenStream =
      .ok ("api.openai.com".toList,
        [proxy.IOReader.buffer exampleFourTokenStream.chunks.flatten,
         proxy.IOReader.conn { chunks := [] }]) ∧
    proxy.PeekHTTPHost (exampleReadMIMEHeader 8) exampleUnterminatedStream =
      .error proxy.Err.EOF ∧
    proxy.Err.EOF ≠ proxy.Err.ErrInvalidHTTP :=
  ⟨rfl, rfl, by decide⟩

/-- C13, amended: `PeekHTTPHost` reads the first line with `ReadString`, which returns a
prefix of the stream.  If the read fails before a newline arrives (the line holds no
newline; the error is `io.EOF` or `io.ErrNoProgress`), the peek fails with that read
error.  Otherwise the line ends with its only newline, and the peek fails with
`ErrInvalidHTTP` exactly when the line has fewer than three whitespace-separated tokens or
its third token does not begin with `HTTP/`; any tokens after the third are ignored, and
the peek then goes on to the headers. -/
theorem PeekHTTPHost_request_line_check
    (readMIMEHeader : Str → Option proxy.Err → proxy.MIMERun) (reader : proxy.Conn Char) :
    ∃ (line : Str) (err : Option proxy.Err) (b : proxy.BufReader),
      ({ rd := { r := reader, w := [] }, buf := [], err := none } :
        proxy.BufReader).ReadString '\n' = some ((line, err), b) ∧
      line <+: reader.chunks.flatten ∧
      (∀ e, err = some e →
        '\n' ∉ line ∧ (e = proxy.Err.EOF ∨ e = proxy.Err.ErrNoProgress) ∧
        proxy.PeekHTTPHost readMIMEHeader reader = .error e) ∧
      (err = none →
        (∃ body, line = body ++ ['\n'] ∧ '\n' ∉ body) ∧
        ((proxy.Fields line).length < 3 ∨
            HasPrefix ((proxy.Fields line).getD 2 []) "HTTP/".toList = false →
          proxy.PeekHTTPHost readMIMEHeader reader = .error proxy.Err.ErrInvalidHTTP) ∧
        (3 ≤ (proxy.Fields line).length →
            HasPrefix ((proxy.Fields line).getD 2 []) "HTTP/".toList = true →
          proxy.PeekHTTPHost readMIMEHeader reader =
            match proxy.runMIME (readMIMEHeader b.buf b.err) b with
            | (.error e, _) => .error e
            | (.ok headers, b2) =>
              if (headers.Get "Host".toList).isEmpty then .error proxy.Err.ErrNoHostHeader
              else .ok (proxy.stripPort (headers.Get "Host".toList),
                [proxy.IOReader.buffer b2.rd.w, proxy.IOReader.conn b2.rd.r]))) := by
  obtain ⟨line, err, b, hread, hpre, hok, herr⟩ := ReadString_request_line reader
  refine ⟨line, err, b, hread, hpre, ?_, ?_⟩
  · intro e he
    subst he
    exact ⟨(herr e rfl).1, (herr e rfl).2,
      PeekHTTPHost_of_ReadString_err readMIMEHeader reader line e b hread⟩
  · intro he
    subst he
    have hpeek := PeekHTTPHost_of_ReadString_ok readMIMEHeader reader line b hread
    refine ⟨hok rfl, ?_, ?_⟩
    · intro hbad
      rw [hpeek]
      have : ((proxy.Fields line).length < 3 ||
          !HasPrefix ((proxy.Fields line).getD 2 []) "HTTP/".toList) = true := by
        simp only [Bool.or_eq_true, decide_eq_true_eq, Bool.not_eq_true']
        exact hbad
      simp only [this, if_true]
    · intro h3 hp
      rw [hpeek]
      have : ((proxy.Fields line).length < 3 ||
          !HasPrefix ((proxy.Fields line).getD 2 []) "HTTP/".toList) = false := by
        simp only [Bool.or_eq_false_iff, decide_eq_false_iff_not, Bool.not_eq_false']
        exact ⟨by omega, hp⟩
      simp only [this, Bool.false_eq_true, if_false]

theorem PeekHTTPHost_request_line_check_witness :
    ∃ (line : Str) (err : Option proxy.Err) (b : proxy.BufReader),
      ({ rd := { r := exampleUnterminatedStream, w := [] }, buf := [], err := none } :
        proxy.BufReader).ReadString '\n' = some ((line, err), b) ∧
      line <+: exampleUnterminatedStream.chunks.flatten ∧
      (∀ e, err = some e →
        '\n' ∉ line ∧ (e = proxy.Err.EOF ∨ e = proxy.Err.ErrNoProgress) ∧
        proxy.PeekHTTPHost (exampleReadMIMEHeader 8) exampleUnterminatedStream = .error e) ∧
      (err = none →
        (∃ body, line = body ++ ['\n'] ∧ '\n' ∉ body) ∧
        ((proxy.Fields line).length < 3 ∨
            HasPrefix ((proxy.Fields line).getD 2 []) "HTTP/".toList = false →
          proxy.PeekHTTPHost (exampleReadMIMEHeader 8) exampleUnterminatedStream =
            .error proxy.Err.ErrInvalidHTTP) ∧
        (3 ≤ (proxy.Fields line).length →
            HasPrefix ((proxy.Fields line).getD 2 []) "HTTP/".toList = true →
          proxy.PeekHTTPHost (exampleReadMIMEHeader 8) exampleUnterminatedStream =
            match proxy.runMIME (exampleReadMIMEHeader 8 b.buf b.err) b with
            | (.error e, _) => .error e
            | (.ok headers, b2) =>
              if (headers.Get "Host".toList).isEmpty then .error proxy.Err.ErrNoHostHeader
              else .ok (proxy.stripPort (headers.Get "Host".toList),
                [proxy.IOReader.buffer b2.rd.w, proxy.IOReader.conn b2.rd.r]))) :=
  PeekHTTPHost_request_line_check (exampleReadMIMEHeader 8) exampleUnterminatedStream

/-! ## The `Host` value: removing the port -/

section hostPort
open proxy

theorem HasPrefix_singleton (s : Str) (c : Char) :
    HasPrefix s [c] = true ↔ ∃ rest, s = c :: rest := by
  rw [HasPrefix_iff]
  constructor
  · rintro ⟨t, rfl⟩
    exact ⟨t, rfl⟩
  · rintro ⟨rest, rfl⟩
    exact ⟨rest, rfl⟩

theorem Contains_singleton (s : Str) (c : Char) : Contains s [c] = true ↔ c ∈ s := by
  unfold Contains
  simp only [List.any_eq_true, List.mem_range, HasPrefix_singleton]
  constructor
  · rintro ⟨i, _, rest, hrest⟩
    have : c ∈ s.drop i := by rw [hrest]; exact List.mem_cons_self _ _
    exact List.mem_of_mem_drop this
  · intro hc
    obtain ⟨pre, post, rfl⟩ := List.append_of_mem hc
    exact ⟨pre.length, by simp; omega, post, by simp⟩

/-- The search of `LastIndex` finds nothing exactly when no position up to the bound
starts an occurrence, and otherwise returns the last such position. -/
theorem lastIndexLoop_spec (s substr : Str) (n : Nat) :
    (lastIndexLoop s substr n = -1 ∧ ∀ i, i ≤ n → HasPrefix (s.drop i) substr = false) ∨
    (∃ k : Nat, lastIndexLoop s substr n = (k : Int) ∧ k ≤ n ∧
      HasPrefix (s.drop k) substr = true ∧
      ∀ j, k < j → j ≤ n → HasPrefix (s.drop j) substr = false) := by
  induction n with
  | zero =>
    simp only [lastIndexLoop]
    by_cases h : HasPrefix s substr = true
    · right
      exact ⟨0, by simp [h], le_refl _, by simpa using h, fun j hj hj0 => by omega⟩
    · left
      refine ⟨by simp [h], fun i hi => ?_⟩
      have : i = 0 := by omega
      subst this
      simpa using h
  | succ n ih =>
    simp only [lastIndexLoop]
    by_cases h : HasPrefix (s.drop (n + 1)) substr = true
    · right
      exact ⟨n + 1, by simp [h], le_refl _, h, fun j hj hjn => by omega⟩
    · simp only [h, Bool.false_eq_true, if_false]
      rcases ih with ⟨h1, h2⟩ | ⟨k, h1, h2, h3, h4⟩
      · left
        refine ⟨h1, fun i hi => ?_⟩
        by_cases hin : i ≤ n
        · exact h2 i hin
        · have : i = n + 1 := by omega
          subst this
          simpa using h
      · right
        refine ⟨k, h1, by omega, h3, fun j hj hjn => ?_⟩
        by_cases hin : j ≤ n
        · exact h4 j hj hin
        · have : j = n + 1 := by omega
          subst this
          simpa using h

theorem LastIndex_singleton_none (s : Str) (c : Char) (h : c ∉ s) :
    LastIndex s [c] = -1 := by
  unfold LastIndex
  rcases lastIndexLoop_spec s [c] s.length with ⟨h1, _⟩ | ⟨k, _, _, h3, _⟩
  · exact h1
  · exfalso
    obtain ⟨rest, hrest⟩ := (HasPrefix_singleton _ _).1 h3
    apply h
    have : c ∈ s.drop k := by rw [hrest]; exact List.mem_cons_self _ _
    exact List.mem_of_mem_drop this

theorem LastIndex_singleton_last (pre post : Str) (c : Char) (h : c ∉ post) :
    LastIndex (pre ++ c :: post) [c] = (pre.length : Int) := by
  unfold LastIndex
  have hat : HasPrefix ((pre ++ c :: post).drop pre.length) [c] = true := by
    rw [HasPrefix_singleton]
    exact ⟨post, by simp⟩
  rcases lastIndexLoop_spec (pre ++ c :: post) [c] (pre ++ c :: post).length with
    ⟨_, h2⟩ | ⟨k, h1, h2, h3, h4⟩
  · have := h2 pre.length (by simp)
    rw [hat] at this
    cases this
  · rw [h1]
    have hk : k = pre.length := by
      rcases Nat.lt_trichotomy k pre.length with hlt | heq | hgt
      · have := h4 pre.length hlt (by simp)
        rw [hat] at this
        cases this
      · exact heq
      · exfalso
        obtain ⟨rest, hrest⟩ := (HasPrefix_singleton _ _).1 h3
        apply h
        have hdrop : (pre ++ c :: post).drop k = post.drop (k - pre.length - 1) := by
          rw [List.drop_append_eq_append_drop]
          have h0 : pre.drop k = [] := List.drop_eq_nil_of_le (by omega)
          rw [h0, List.nil_append]
          obtain ⟨d, hd⟩ : ∃ d, k - pre.length = d + 1 := ⟨k - pre.length - 1, by omega⟩
          rw [hd, List.drop_succ_cons]
          congr 1
        have : c ∈ post.drop (k - pre.length - 1) := by
          rw [← hdrop, hrest]
          exact List.mem_cons_self _ _
        exact List.mem_of_mem_drop this
    rw [hk]

/-- The port removal of `PeekHTTPHost` in the words of the specification. -/
theorem stripPort_spec (h : Str) :
    ('[' ∈ h → stripPort h = h) ∧
    ('[' ∉ h → ∀ pre post, h = pre ++ ':' :: post → ':' ∉ post → stripPort h = pre) ∧
    ('[' ∉ h → ':' ∉ h → stripPort h = h) := by
  refine ⟨fun hb => ?_, fun hb pre post hh hpost => ?_, fun _ hc => ?_⟩
  · unfold stripPort
    have : Contains h ['['] = true := (Contains_singleton h '[').2 hb
    simp [this]
  · unfold stripPort
    have hcont : Contains h ['['] = false := by
      cases hc : Contains h ['['] with
      | false => rfl
      | true => exact absurd ((Contains_singleton h '[').1 hc) hb
    subst hh
    rw [LastIndex_singleton_last pre post ':' hpost] at *
    simp only [hcont]
    have hne : ((pre.length : Int) ≠ -1) := by omega
    simp [hne]
  · unfold stripPort
    rw [LastIndex_singleton_none h ':' hc]
    simp

/-- A successful `PeekHTTPHost` returns `stripPort` of the non-empty `Host` value of the
header map the header run returned. -/
theorem PeekHTTPHost_ok_host (readMIMEHeader : Str → Option Err → MIMERun)
    (reader : Conn Char) (host : Str) (mr : List (IOReader Char))
    (h : PeekHTTPHost readMIMEHeader reader = .ok (host, mr)) :
    ∃ (line : Str) (b1 : BufReader) (headers : MIMEHeader) (b2 : BufReader),
      ({ rd := { r := reader, w := [] }, buf := [], err := none } : BufReader).ReadString
        '\n' = some ((line, none), b1) ∧
      runMIME (readMIMEHeader b1.buf b1.err) b1 = (.ok headers, b2) ∧
      headers.Get "Host".toList ≠ [] ∧
      host = stripPort (headers.Get "Host".toList) := by
  obtain ⟨line, err, b, hread, _, _, _⟩ := ReadString_request_line reader
  cases err with
  | some e =>
    rw [PeekHTTPHost_of_ReadString_err readMIMEHeader reader line e b hread] at h
    cases h
  | none =>
    rw [PeekHTTPHost_of_ReadString_ok readMIMEHeader reader line b hread] at h
    split at h
    · cases h
    · split at h
      · cases h
      · rename_i headers b2 hmime
        split at h
        · cases h
        · rename_i hne
          simp only [Except.ok.injEq, Prod.mk.injEq] at h
          refine ⟨line, b, headers, b2, hread, hmime, ?_, h.1.symm⟩
          intro hnil
          apply hne
          rw [hnil]
          rfl

/-- A successful `PeekHTTPHostSplice` returns `stripPort` of the non-empty `Host` value of
the header map the header run returned. -/
theorem PeekHTTPHostSplice_ok_host (readMIMEHeader : Str → Option Err → MIMERun)
    (reader : Conn Char) (host : Str) (peeked : Str)
    (h : PeekHTTPHostSplice readMIMEHeader reader = .ok (host, peeked)) :
    ∃ (line : Str) (b1 : BufReader) (headers : MIMEHeader) (b2 : BufReader),
      ({ rd := { r := reader, w := [] }, buf := [], err := none } : BufReader).ReadString
        '\n' = some ((line, none), b1) ∧
      runMIME (readMIMEHeader b1.buf b1.err) b1 = (.ok headers, b2) ∧
      headers.Get "Host".toList ≠ [] ∧
      host = stripPort (headers.Get "Host".toList) := by
  obtain ⟨line, err, b, hread, _, _, _⟩ := ReadString_request_line reader
  cases err with
  | some e =>
    rw [PeekHTTPHostSplice_of_ReadString_err readMIMEHeader reader line e b hread] at h
    cases h
  | none =>
    rw [PeekHTTPHostSplice_of_ReadString_ok readMIMEHeader reader line b hread] at h
    split at h
    · cases h
    · split at h
      · cases h
      · rename_i headers b2 hmime
        split at h
        · cases h
        · rename_i hne
          simp only [Except.ok.injEq, Prod.mk.injEq] at h
          refine ⟨line, b, headers, b2, hread, hmime, ?_, h.1.symm⟩
          intro hnil
          apply hne
          rw [hnil]
          rfl

end hostPort

/-! ## C14 -/

/-- C14: when `PeekHTTPHost` (and likewise `PeekHTTPHostSplice`) succeeds, the header run
has returned a header map whose `Host` value `h` is not empty, and the returned host is:
`h` itself if `h` contains `[`; otherwise, if `h` contains `:`, the part of `h` before its
last `:`; otherwise `h` itself. -/
theorem peeked_host_is_Host_value_without_port :
    (∀ (readMIMEHeader : Str → Option proxy.Err → proxy.MIMERun) (reader : proxy.Conn Char)
        (host : Str) (mr : List (proxy.IOReader Char)),
      proxy.PeekHTTPHost readMIMEHeader reader = .ok (host, mr) →
      ∃ (line : Str) (b1 : proxy.BufReader) (headers : proxy.MIMEHeader)
          (b2 : proxy.BufReader) (h : Str),
        ({ rd := { r := reader, w := [] }, buf := [], err := none } :
          proxy.BufReader).ReadString '\n' = some ((line, none), b1) ∧
        proxy.runMIME (readMIMEHeader b1.buf b1.err) b1 = (.ok headers, b2) ∧
        h = headers.Get "Host".toList ∧ h ≠ [] ∧
        ('[' ∈ h → host = h) ∧
        ('[' ∉ h → ∀ pre post, h = pre ++ ':' :: post → ':' ∉ post → host = pre) ∧
        ('[' ∉ h → ':' ∉ h → host = h)) ∧
    (∀ (readMIMEHeader : Str → Option proxy.Err → proxy.MIMERun) (reader : proxy.Conn Char)
        (host : Str) (peeked : Str),
      proxy.PeekHTTPHostSplice readMIMEHeader reader = .ok (host, peeked) →
      ∃ (line : Str) (b1 : proxy.BufReader) (headers : proxy.MIMEHeader)
          (b2 : proxy.BufReader) (h : Str),
        ({ rd := { r := reader, w := [] }, buf := [], err := none } :
          proxy.BufReader).ReadString '\n' = some ((line, none), b1) ∧
        proxy.runMIME (readMIMEHeader b1.buf b1.err) b1 = (.ok headers, b2) ∧
        h = headers.Get "Host".toList ∧ h ≠ [] ∧
        ('[' ∈ h → host = h) ∧
        ('[' ∉ h → ∀ pre post, h = pre ++ ':' :: post → ':' ∉ post → host = pre) ∧
        ('[' ∉ h → ':' ∉ h → host = h)) := by
  constructor
  · intro readMIMEHeader reader host mr hok
    obtain ⟨line, b1, headers, b2, hread, hmime, hne, hhost⟩ :=
      PeekHTTPHost_ok_host readMIMEHeader reader host mr hok
    obtain ⟨s1, s2, s3⟩ := stripPort_spec (headers.Get "Host".toList)
    subst hhost
    exact ⟨line, b1, headers, b2, _, hread, hmime, rfl, hne, s1, s2, s3⟩
  · intro readMIMEHeader reader host peeked hok
    obtain ⟨line, b1, headers, b2, hread, hmime, hne, hhost⟩ :=
      PeekHTTPHostSplice_ok_host readMIMEHeader reader host peeked hok
    obtain ⟨s1, s2, s3⟩ := stripPort_spec (headers.Get "Host".toList)
    subst hhost
    exact ⟨line, b1, headers, b2, _, hread, hmime, rfl, hne, s1, s2, s3⟩

theorem peeked_host_is_Host_value_without_port_witness :
    ∃ (line : Str) (b1 : proxy.BufReader) (headers : proxy.MIMEHeader)
        (b2 : proxy.BufReader) (h : Str),
      ({ rd := { r := exampleHTTPStream, w := [] }, buf := [], err := none } :
        proxy.BufReader).ReadString '\n' = some ((line, none), b1) ∧
      proxy.runMIME (exampleReadMIMEHeader 8 b1.buf b1.err) b1 = (.ok headers, b2) ∧
      h = headers.Get "Host".toList ∧ h ≠ [] ∧
      ('[' ∈ h → "api.openai.com".toList = h) ∧
      ('[' ∉ h → ∀ pre post, h = pre ++ ':' :: post → ':' ∉ post →
        "api.openai.com".toList = pre) ∧
      ('[' ∉ h → ':' ∉ h → "api.openai.com".toList = h) :=
  peeked_host_is_Host_value_without_port.1 (exampleReadMIMEHeader 8) exampleHTTPStream
    "api.openai.com".toList
    [proxy.IOReader.buffer exampleHTTPPeeked, proxy.IOReader.conn { chunks := ["=2".toList] }]
    rfl

/-! ## C15 -/

section encodings

theorem asciiToLower_eq_dot (c : Char) (h : asciiToLower c = '.') : c = '.' := by
  unfold asciiToLower at h
  split at h
  · rename_i hc
    exfalso
    have h2 := congrArg Char.toNat h
    have hZ : 'Z'.toNat = 90 := by decide
    have hA : 'A'.toNat = 65 := by decide
    have h46 : '.'.toNat = 46 := by decide
    have hv : (c.toNat + 32).isValidChar := Or.inl (by omega)
    rw [Char.ofNat, dif_pos hv, h46] at h2
    simp only [Char.ofNatAux, Char.toNat, UInt32.toNat, BitVec.toNat_ofNatLt] at h2 hc hA hZ
    omega
  · exact h

/-- Lower-casing and removing the trailing dot commute when the case mapping fixes the
dot and maps nothing else to it. -/
theorem ToLower_specStripTrailingDot (toLower : Char → Char) (hdot : toLower '.' = '.')
    (hinj : ∀ c, toLower c = '.' → c = '.') (N : Str) :
    ToLower toLower (specStripTrailingDot N) =
      specStripTrailingDot (ToLower toLower N) := by
  unfold specStripTrailingDot ToLower
  have hlast : (N.map toLower).getLast? = some '.' ↔ N.getLast? = some '.' := by
    rw [List.getLast?_map]
    cases hN : N.getLast? with
    | none => simp
    | some c =>
      simp only [Option.map_some', Option.some.injEq]
      constructor
      · exact hinj c
      · intro hc
        rw [hc, hdot]
  by_cases h : N.getLast? = some '.'
  · rw [if_pos h, if_pos (hlast.2 h), List.map_dropLast]
  · rw [if_neg h, if_neg (fun hh => h (hlast.1 hh))]

/-- The lower-cased form of a suffix that does not begin with a dot does not begin with a
dot either, so removing the leading dot leaves it unchanged. -/
theorem specStripLeadingDot_ToLower (toLower : Char → Char)
    (hinj : ∀ c, toLower c = '.' → c = '.') (S : Str) (hS : S.head? ≠ some '.') :
    specStripLeadingDot (ToLower toLower S) = ToLower toLower S := by
  cases S with
  | nil => rfl
  | cons c rest =>
    have hc : toLower c ≠ '.' := by
      intro h
      apply hS
      rw [hinj c h]
      rfl
    simp only [ToLower, List.map_cons]
    unfold specStripLeadingDot
    split
    · rename_i heq
      simp only [List.cons.injEq] at heq
      exact absurd heq.1 hc
    · rfl

/-- The result of `shouldSpoof` for a server built by `New` from a single suffix, written
with or without a leading dot. -/
theorem shouldSpoof_single_suffix (toLower : Char → Char) (hdot : toLower '.' = '.')
    (hinj : ∀ c, toLower c = '.' → c = '.') (cfg : dns.Config) (S N : Str)
    (hS : S.head? ≠ some '.') :
    ((dns.New toLower { cfg with SpoofSuffixes := [S] }).shouldSpoof toLower N =
      dns.shouldSpoofLoop (ToLower toLower (TrimSuffix N dot)) [ToLower toLower S]) ∧
    ((dns.New toLower { cfg with SpoofSuffixes := [dot ++ S] }).shouldSpoof toLower N =
      dns.shouldSpoofLoop (ToLower toLower (TrimSuffix N dot)) [ToLower toLower S]) := by
  have hclean := specStripLeadingDot_ToLower toLower hinj S hS
  constructor
  · unfold dns.Server.shouldSpoof
    rw [dns_New_suffixes]
    rfl
  · unfold dns.Server.shouldSpoof
    rw [dns_New_suffixes]
    simp only [List.map_cons, List.map_nil, dns.shouldSpoofLoop, TrimPrefix_dot]
    have h1 : specStripLeadingDot (ToLower toLower (dot ++ S)) = ToLower toLower S := by
      simp [ToLower, dot, hdot, specStripLeadingDot]
    rw [h1, hclean]

end encodings

/-- C15: with a case mapping that fixes the dot and maps no other rune to it (as
`unicode.ToLower` does), for every suffix `S` that does not begin with a dot, every
mixed-case variant `S'` of `S` (one with the same lower-cased form) and every name `N`,
the servers built by `dns.New` from `[S]`, `["." + S]`, `[S']` and `["." + S']` all give
the same `shouldSpoof(N)`; and `shouldSpoof` gives the same result on names that differ
only in letter case. -/
theorem suffix_encodings_indistinguishable (toLower : Char → Char)
    (hdot : toLower '.' = '.') (hinj : ∀ c, toLower c = '.' → c = '.') :
    (∀ (cfg : dns.Config) (S S' N : Str), S.head? ≠ some '.' →
      ToLower toLower S' = ToLower toLower S →
      (dns.New toLower { cfg with SpoofSuffixes := [dot ++ S] }).shouldSpoof toLower N =
        (dns.New toLower { cfg with SpoofSuffixes := [S] }).shouldSpoof toLower N ∧
      (dns.New toLower { cfg with SpoofSuffixes := [S'] }).shouldSpoof toLower N =
        (dns.New toLower { cfg with SpoofSuffixes := [S] }).shouldSpoof toLower N ∧
      (dns.New toLower { cfg with SpoofSuffixes := [dot ++ S'] }).shouldSpoof toLower N =
        (dns.New toLower { cfg with SpoofSuffixes := [S] }).shouldSpoof toLower N) ∧
    (∀ (s : dns.Server) (N N' : Str), ToLower toLower N = ToLower toLower N' →
      s.shouldSpoof toLower N = s.shouldSpoof toLower N') := by
  constructor
  · intro cfg S S' N hS hvar
    have hS' : S'.head? ≠ some '.' := by
      intro h
      apply hS
      cases S' with
      | nil => simp at h
      | cons c' rest' =>
        simp only [List.head?_cons, Option.some.injEq] at h
        subst h
        cases S with
        | nil => simp [ToLower] at hvar
        | cons c rest =>
          simp only [ToLower, List.map_cons, List.cons.injEq, hdot] at hvar
          rw [hinj c hvar.1.symm]
          rfl
    obtain ⟨a1, a2⟩ := shouldSpoof_single_suffix toLower hdot hinj cfg S N hS
    obtain ⟨b1, b2⟩ := shouldSpoof_single_suffix toLower hdot hinj cfg S' N hS'
    rw [a1, a2, b1, b2, hvar]
    exact ⟨rfl, rfl, rfl⟩
  · intro s N N' h
    unfold dns.Server.shouldSpoof
    simp only [TrimSuffix_dot, ToLower_specStripTrailingDot toLower hdot hinj, h]

theorem suffix_encodings_indistinguishable_witness :
    ((dns.New asciiToLower
        { exampleServer.config with SpoofSuffixes := [dot ++ "openai.com".toList] }).shouldSpoof
          asciiToLower "API.openai.com.".toList =
      (dns.New asciiToLower
        { exampleServer.config with SpoofSuffixes := ["openai.com".toList] }).shouldSpoof
          asciiToLower "API.openai.com.".toList ∧
    (dns.New asciiToLower
        { exampleServer.config with SpoofSuffixes := ["OpenAI.Com".toList] }).shouldSpoof
          asciiToLower "API.openai.com.".toList =
      (dns.New asciiToLower
        { exampleServer.config with SpoofSuffixes := ["openai.com".toList] }).shouldSpoof
          asciiToLower "API.openai.com.".toList ∧
    (dns.New asciiToLower
        { exampleServer.config with SpoofSuffixes := [dot ++ "OpenAI.Com".toList] }).shouldSpoof
          asciiToLower "API.openai.com.".toList =
      (dns.New asciiToLower
        { exampleServer.config with SpoofSuffixes := ["openai.com".toList] }).shouldSpoof
          asciiToLower "API.openai.com.".toList) ∧
    exampleServer.shouldSpoof asciiToLower "API.OpenAI.com.".toList =
      exampleServer.shouldSpoof asciiToLower "api.openai.COM.".toList :=
  ⟨(suffix_encodings_indistinguishable asciiToLower (by decide) asciiToLower_eq_dot).1
      exampleServer.config "openai.com".toList "OpenAI.Com".toList "API.openai.com.".toList
      (by decide) (by decide),
   (suffix_encodings_indistinguishable asciiToLower (by decide) asciiToLower_eq_dot).2
      exampleServer "API.OpenAI.com.".toList "api.openai.COM.".toList (by decide)⟩

/-! ## C16 -/

section icmp
open udpsink

theorem To4_length (ip x : IP) (h : ip.To4 = some x) : x.length = 4 := by
  unfold IP.To4 at h
  by_cases h4 : ip.length = 4
  · rw [if_pos h4] at h
    cases h
    exact h4
  · rw [if_neg h4] at h
    split at h
    · rename_i h16
      cases h
      rw [List.length_drop, h16.1]
    · cases h

theorem list_of_length_four (x : List Nat) (h : x.length = 4) :
    ∃ a b c d, x = [a, b, c, d] := by
  match x, h with
  | [a, b, c, d], _ => exact ⟨a, b, c, d, rfl⟩

/-- The payload built for a datagram, byte by byte, when the client and local addresses
are IPv4 addresses. -/
theorem icmpPayload_eq (localAddr remoteAddr : UDPAddr) (C L data : List Nat)
    (hC : remoteAddr.IP.To4 = some C) (hL : L.length = 4)
    (hp : remoteAddr.Port < 65536) (hq : localAddr.Port < 65536)
    (hn : data.length ≤ 2048) :
    icmpPayload localAddr remoteAddr L data =
      [0x45, 0, (28 + data.length) / 256, (28 + data.length) % 256, 0, 0, 0, 0, 64, 17, 0, 0]
        ++ C ++ L ++
      [remoteAddr.Port / 256, remoteAddr.Port % 256, localAddr.Port / 256,
        localAddr.Port % 256, (8 + data.length) / 256, (8 + data.length) % 256, 0, 0]
        ++ data.take 8 := by
  obtain ⟨c0, c1, c2, c3, rfl⟩ := list_of_length_four C (To4_length _ _ hC)
  obtain ⟨l0, l1, l2, l3, rfl⟩ := list_of_length_four L hL
  have h1 : byte (shr8 (28 + data.length)) = (28 + data.length) / 256 := by
    unfold byte shr8
    exact Nat.mod_eq_of_lt (by omega)
  have h2 : byte (shr8 (8 + data.length)) = (8 + data.length) / 256 := by
    unfold byte shr8
    exact Nat.mod_eq_of_lt (by omega)
  have h3 : byte (shr8 remoteAddr.Port) = remoteAddr.Port / 256 := by
    unfold byte shr8
    exact Nat.mod_eq_of_lt (by omega)
  have h4 : byte (shr8 localAddr.Port) = localAddr.Port / 256 := by
    unfold byte shr8
    exact Nat.mod_eq_of_lt (by omega)
  have h5 : data.take (udpsink.min 8 data.length) = data.take 8 := by
    unfold udpsink.min
    split
    · rfl
    · rw [List.take_of_length_le (le_refl _), List.take_of_length_le (by omega)]
  unfold icmpPayload
  simp only [hC, Option.getD_some, h1, h2, h3, h4, h5]
  simp [copy4, byte, List.replicate]

end icmp

/-- C16: for a datagram of `n ≤ 2048` bytes from an IPv4 client `C:p`, on a sink with the
ICMP socket open and bound to the IPv4 local address `L:q` (ports below 65536),
`sendICMPPortUnreachable` hands to the ICMP socket a Destination Unreachable message (type
3, code 3) whose body is exactly `28 + min(8, n)` bytes: the 20-byte IPv4 header
`45 00 hi lo 00 00 00 00 40 11 00 00 C L` with `hi lo` the big-endian `28 + n` (not
truncated: `hi < 256`), the 8-byte UDP header with big-endian `p`, `q`, `8 + n` and
checksum 0, and the first `min(8, n)` bytes of the datagram. -/
theorem icmp_body_layout (s : udpsink.Sink) (send : udpsink.ICMPMessage → IP → Option Str)
    (remoteAddr : udpsink.UDPAddr) (data C L : List Nat)
    (hicmp : s.icmpConn = true) (hC : remoteAddr.IP.To4 = some C)
    (hL : s.localAddr.IP.To4 = some L)
    (hp : remoteAddr.Port < 65536) (hq : s.localAddr.Port < 65536)
    (hn : data.length ≤ 2048) :
    ∃ msg : udpsink.ICMPMessage,
      (s.sendICMPPortUnreachable send remoteAddr data).1 = some msg ∧
      (s.sendICMPPortUnreachable send remoteAddr data).2 = send msg remoteAddr.IP ∧
      msg.Typ = 3 ∧ msg.Code = 3 ∧
      msg.Data.length = 28 + min 8 data.length ∧
      msg.Data =
        [0x45, 0, (28 + data.length) / 256, (28 + data.length) % 256, 0, 0, 0, 0, 64, 17,
          0, 0] ++ C ++ L ++
        [remoteAddr.Port / 256, remoteAddr.Port % 256, s.localAddr.Port / 256,
          s.localAddr.Port % 256, (8 + data.length) / 256, (8 + data.length) % 256, 0, 0]
          ++ data.take (min 8 data.length) ∧
      (28 + data.length) / 256 < 256 ∧
      256 * ((28 + data.length) / 256) + (28 + data.length) % 256 = 28 + data.length ∧
      256 * (remoteAddr.Port / 256) + remoteAddr.Port % 256 = remoteAddr.Port ∧
      256 * (s.localAddr.Port / 256) + s.localAddr.Port % 256 = s.localAddr.Port ∧
      256 * ((8 + data.length) / 256) + (8 + data.length) % 256 = 8 + data.length := by
  have hLlen := To4_length _ _ hL
  have hClen := To4_length _ _ hC
  have hpay := icmpPayload_eq s.localAddr remoteAddr C L data hC hLlen hp hq hn
  have htake : data.take (min 8 data.length) = data.take 8 := by
    by_cases h8 : 8 ≤ data.length
    · rw [min_eq_left h8]
    · rw [min_eq_right (by omega), List.take_of_length_le (le_refl _),
        List.take_of_length_le (by omega)]
  refine ⟨{ Typ := 3, Code := 3,
            Data := udpsink.icmpPayload s.localAddr remoteAddr L data }, ?_, ?_, rfl, rfl,
    ?_, ?_, by omega, by omega, by omega, by omega, by omega⟩
  · simp [udpsink.Sink.sendICMPPortUnreachable, hicmp, hL,
      udpsink.ICMPTypeDestinationUnreachable]
  · simp [udpsink.Sink.sendICMPPortUnreachable, hicmp, hL,
      udpsink.ICMPTypeDestinationUnreachable]
  · simp only [hpay, List.length_append, List.length_cons, List.length_nil, hClen, hLlen,
      List.length_take]
  · simp only [hpay, htake]

theorem icmp_body_layout_witness :
    ∃ msg : udpsink.ICMPMessage,
      (exampleSink.sendICMPPortUnreachable exampleSendFails exampleClient
        exampleDatagram).1 = some msg ∧
      msg.Typ = 3 ∧ msg.Code = 3 ∧ msg.Data.length = 36 ∧
      msg.Data =
        [0x45, 0, 0, 40, 0, 0, 0, 0, 64, 17, 0, 0, 198, 51, 100, 7, 192, 0, 2, 1,
         199, 56, 1, 187, 0, 20, 0, 0, 192, 0, 0, 0, 1, 8, 1, 2] := by
  obtain ⟨msg, h1, _, h3, h4, h5, h6, _⟩ :=
    icmp_body_layout exampleSink exampleSendFails exampleClient exampleDatagram
      [198, 51, 100, 7] [192, 0, 2, 1] rfl (by decide) (by decide) (by decide) (by decide)
      (by decide)
  exact ⟨msg, h1, h3, h4, h5, h6⟩

/-! ## C17 -/

section sendErrors
open udpsink

theorem sendErrorLines_append (a b : List SinkEvent) :
    sendErrorLines (a ++ b) = sendErrorLines a + sendErrorLines b := by
  induction a with
  | nil => simp [sendErrorLines]
  | cons e t ih => cases e <;> simp [sendErrorLines, ih]; omega

/-- While fewer than five sends have succeeded, `readLoop` logs every failed send: on a
sink with the ICMP socket open, a run of datagrams whose sends all fail yields one
`ICMP send error` line per datagram, however many there are. -/
theorem readLoop_logs_every_failed_send (err : Str) (dgs : List (UDPAddr × List Nat)) :
    ∀ s : Sink, s.icmpConn = true → s.icmpSent < 5 →
      sendErrorLines
        (s.readLoop (dgs.map (fun d =>
          Arrival.datagram d.1 d.2 (fun _ _ => some err)))).1 = dgs.length := by
  induction dgs with
  | nil => intro s _ _; rfl
  | cons d rest ih =>
    intro s hicmp hsent
    have hfail : ∃ m e, s.sendICMPPortUnreachable (fun _ _ => some err) d.1
        (d.2.take 2048) = (m, some e) := by
      unfold Sink.sendICMPPortUnreachable
      rw [hicmp]
      cases s.localAddr.IP.To4 with
      | none => exact ⟨_, _, rfl⟩
      | some l => exact ⟨_, _, rfl⟩
    obtain ⟨m, e, hres⟩ := hfail
    simp only [List.map_cons, Sink.readLoop, hicmp, if_true, hres, hsent]
    rw [sendErrorLines_append, sendErrorLines_append, sendErrorLines_append,
      ih { localAddr := s.localAddr, icmpConn := true, dropped := uint64 (s.dropped + 1),
           icmpSent := s.icmpSent } rfl hsent]
    have h2 : ∀ c n, sendErrorLines (if c % 1000 = 0 ∨ c ≤ 10 then
        [SinkEvent.logDroppedICMP c d.1 n s.icmpSent] else []) = 0 := by
      intro c n
      split <;> rfl
    cases m <;> simp only [h2, sendErrorLines, List.length_cons] <;> omega

end sendErrors

/-- C17 fails on the code: on a sink with the ICMP socket open, seven datagrams whose ICMP
sends all fail produce seven `ICMP send error` log lines, more than the bound of five;
the guard tests the counter of successful sends, which stays at zero. -/
theorem seven_failed_sends_seven_error_lines :
    udpsink.sendErrorLines
      (exampleSink.readLoop (List.replicate 7
        (udpsink.Arrival.datagram exampleClient exampleDatagram exampleSendFails))).1 = 7 ∧
    (exampleSink.readLoop (List.replicate 7
        (udpsink.Arrival.datagram exampleClient exampleDatagram exampleSendFails))).2.icmpSent
      = 0 := by
  decide

end DnsSpoofer
